import Mathlib

set_option maxRecDepth 1000000

/-!
# wish shell: expansion, dispatch and job table

A shallow embedding of `wish.c`, `utility.c` and `buffer_io.c`.

* C strings are blocks of characters (`Block`); a read outside a block has no
  defined result and is modelled by `none`.
* The arrays `argList`, `background_ps` and the descriptor table are functions of
  the slot index; a token in `argList` is its text, the block behind it being the text
  and one terminator, as `getCommandLine` and `expandProcessID` allocate it.
  `argList` has `ARG_SIZE` slots: the loops that walk it with no bound of their own
  (`getCommandLine`, `cleanBuffer`, the read of `execvp`) have no defined result when they
  leave the array.
* System calls whose result the program cannot determine (`fork`, `open`,
  `waitpid`, `getpid`) take their result from an `Env`.
-/

namespace Wish

/-! ## Constants of `wish.h` -/

def LINE_SIZE : Nat := 2048
def ARG_SIZE : Nat := 512
def MAX_PS : Nat := 256

/-! ## C strings -/

/-- The terminator of a C string. -/
def NUL : Char := Char.ofNat 0

/-- A block of memory holding characters (a `char` array or a `malloc` result). -/
abbrev Block := List Char

/-- The text of a token, without its terminator. -/
abbrev Tok := List Char

/-- The characters of a block before its first terminator. -/
def cstr (b : Block) : List Char := b.takeWhile (fun c => c != NUL)

/-- The C `strlen`: the index of the first terminator, undefined when the block holds none. -/
def strlen (b : Block) : Option Nat :=
  if (cstr b).length < b.length then some (cstr b).length else none

/-- The block `malloc(strlen + 1)` filled by `strcpy` from a token text. -/
def toBlock (t : Tok) : Block := t ++ [NUL]

/-- The C `strncpy(dst, src, n)`: copies at most `n` characters of the string in `src`
and pads with terminators up to `n`; undefined when `n` exceeds `dst` or when `src`
is read past its end. -/
def strncpy (dst src : Block) (n : Nat) : Option Block :=
  if dst.length < n then none
  else if (cstr src).length < n ∧ strlen src = none then none
  else some ((cstr src).take n ++ List.replicate (n - (cstr src).length) NUL ++ dst.drop n)

/-- The text `printf` writes for `%d`. -/
def fmtInt (p : Int) : List Char :=
  if p < 0 then '-' :: Nat.toDigits 10 p.natAbs else Nat.toDigits 10 p.toNat

/-- The C `sprintf(dst, "%s%d", s, p)`: writes the string in `s`, the decimal text of `p`
and a terminator; undefined when `s` holds no terminator or `dst` is too small. -/
def sprintf_sd (dst s : Block) (p : Int) : Option Block :=
  match strlen s with
  | none => none
  | some _ =>
    let out := cstr s ++ fmtInt p ++ [NUL]
    if dst.length < out.length then none else some (out ++ dst.drop out.length)

/-- The copy loop of `expandProcessID` (utility.c 84-99): `k` walks to the end of the
string in `finalString`, then the characters of the token from `argChar` on are appended. -/
def copyLoop : Nat → Block → Block → Nat → Nat → Option Block
  | 0, _, _, _, _ => none
  | fuel + 1, tok, fin, k, argChar =>
    match tok[argChar]? with
    | none => none
    | some c =>
      if c = NUL then some fin
      else
        match fin[k]? with
        | none => none
        | some d =>
          if d ≠ NUL then copyLoop fuel tok fin (k + 1) argChar
          else copyLoop fuel tok (fin.set k c) (k + 1) (argChar + 1)

/-- The function `expandProcessID` of utility.c on the block of one token: the result is
the block newly allocated for the token. The copy loop runs at most once per index of
`finalString` and of the token, which bounds its fuel. -/
def expandProcessID (tok : Block) (argChar : Nat) (pid : Int) : Option Block := do
  let firstPart ← strncpy (List.replicate ARG_SIZE NUL) tok argChar
  let finalString ← sprintf_sd (List.replicate ARG_SIZE NUL) firstPart pid
  let finalString ← copyLoop (ARG_SIZE + tok.length + 1) tok finalString 0 (argChar + 2)
  let n ← strlen finalString
  some (finalString.take n ++ [NUL])

/-- The inner `while` of the expansion pass (wish.c 273-286) on the block of one token,
from index `j`; the result is the final block and the indices at which `expandProcessID`
was called, in order. -/
def scanToken : Nat → Int → Block → Nat → List Nat → Option (Block × List Nat)
  | 0, _, _, _, _ => none
  | fuel + 1, pid, tok, j, calls =>
    match tok[j]? with
    | none => none
    | some c0 =>
      if c0 = NUL then some (tok, calls)
      else
        match tok[j + 1]? with
        | none => none
        | some c1 =>
          if c1 = NUL then some (tok, calls)
          else if c0 = '$' ∧ c1 = '$' then
            match expandProcessID tok j pid with
            | none => none
            | some tok1 => scanToken fuel pid tok1 (j + 1 + 1) (calls ++ [j])
          else scanToken fuel pid tok (j + 1) calls

/-- The expansion of one token (the body of the `for` of wish.c 270-287). -/
def expandToken (fuel : Nat) (pid : Int) (t : Tok) : Option (Tok × List Nat) :=
  match scanToken fuel pid (toBlock t) 0 [] with
  | none => none
  | some (b, calls) => some (cstr b, calls)

/-- Whether a text holds two adjacent dollar signs (a marker pair). -/
def hasPair : List Char → Bool
  | a :: b :: r => (a == '$' && b == '$') || hasPair (b :: r)
  | _ => false

/-- What the specification asks of the expansion of one token: every marker pair, taken
left to right without overlap, is replaced by the text `D`, every other character kept. -/
def replacePairs (D : List Char) : List Char → List Char
  | a :: b :: r =>
    if a = '$' ∧ b = '$' then D ++ replacePairs D r else a :: replacePairs D (b :: r)
  | l => l

/-- The indices at which the marker pairs of a text stand when the pairs before them have
been replaced by `D`, for a text that starts at index `j`. -/
def callsAt (D : List Char) : Nat → List Char → List Nat
  | j, a :: b :: r =>
    if a = '$' ∧ b = '$' then j :: callsAt D (j + D.length) r else callsAt D (j + 1) (b :: r)
  | _, _ => []

/-! ## Wait statuses

The macros of `<sys/wait.h>` as the C library defines them, on the `int` that `waitpid`
stores. -/

/-- The macro `WTERMSIG(s)`, that is `s & 0x7f`. -/
def WTERMSIG (s : Int) : Int := s % 128

/-- The macro `WEXITSTATUS(s)`, that is `(s & 0xff00) >> 8`. -/
def WEXITSTATUS (s : Int) : Int := (s % 65536) / 256

/-- The macro `WIFSIGNALED(s)`, that is `((signed char) ((s & 0x7f) + 1) >> 1) > 0`. -/
def WIFSIGNALED (s : Int) : Bool :=
  let t := s % 128 + 1
  let c := if 128 ≤ t then t - 256 else t
  decide (0 < c / 2)

/-- The status `waitpid` stores for a child that called `exit(c)` or returned `c`. -/
def exitedStatus (c : Int) : Int := (c % 256) * 256

/-- The status `waitpid` stores for a child killed by signal `sig`, with or without a
core dump. -/
def signaledStatus (sig : Int) (core : Bool) : Int := sig + (if core then 128 else 0)

/-! ## State of the interpreter -/

/-- What a descriptor is bound to. -/
inductive OFile
  | inherited (n : Nat)
  | path (name : Tok) (forWriting : Bool)
  deriving DecidableEq, Repr

/-- A signal the child changes the disposition of. -/
inductive Sig
  | SIGINT
  | SIGTSTP
  deriving DecidableEq, Repr

/-- What the interpreter does to the outside, in order. -/
inductive Event
  | print (dest : Option OFile) (text : List Char)
  | perror (text : List Char)
  | expand (argString argChar : Nat)
  | chdir (path : Option Tok)
  | kill (pid : Int)
  | fork (result : Int)
  | waitpid (pid : Int) (blocking : Bool)
  | sigaction (sig : Sig) (ignore : Bool)
  | execvp (file : Option Tok) (argv : Option (List Tok))
  deriving DecidableEq, Repr

/-- The results of the calls the program cannot determine. -/
structure Env where
  /-- The result of `getpid()`. -/
  pid : Int
  /-- Whether `open` of a path succeeds when a descriptor is free (second argument: for writing). -/
  openOK : Tok → Bool → Bool
  /-- The result of `fork()`. -/
  forkResult : Int
  /-- The status stored by the blocking `waitpid` on the launched program; `none` when the
  call returns without storing one. -/
  fgWait : Option Int
  /-- Whether the blocking `waitpid` on the child of the redirection-failure path completes. -/
  errWait : Bool
  /-- The status stored by the `WNOHANG` call right after a background launch, if any. -/
  bgWait : Option Int
  /-- The non-blocking `waitpid` of the reaping pass on slot `i` holding `pid`: the value
  returned and the status stored, if any. -/
  poll : Nat → Int → Int × Option Int
  /-- Whether `execvp` succeeds. -/
  execOK : Bool
  /-- Whether `chdir` succeeds (`none`: the `HOME` directory). -/
  chdirOK : Option Tok → Bool
  /-- The indeterminate initial value of the local `i` of `cleanShell`. -/
  garbage_i : Int
  /-- The status stored by the blocking `waitpid` of a pending mode message (wish.c 176,
  189); `none` when the call returns without storing one. -/
  tstpWait : Option Int
  /-- The status stored by the blocking `waitpid` of a pending interrupt (wish.c 201);
  `none` when the call returns without storing one. -/
  intWait : Option Int

/-- Slot `i` of an array set to `v`. -/
def setSlot {α : Type} (f : Nat → α) (i : Nat) (v : α) : Nat → α :=
  fun k => if k = i then v else f k

/-- The globals of wish.c, the locals of `main` that live across iterations, the
descriptor table of the process and the trace of what was done. -/
structure Shell where
  STATUS : Int
  BACK_STATUS : Int
  INT_MESSAGE : Int
  TSTP_FLAG : Int
  TSTP_MESSAGE : Int
  numArgs : Int
  background_flag : Int
  background_msg : Int
  stdin_flag : Int
  stdout_flag : Int
  numPs : Int
  background_ps : Nat → Int
  redirectErrFlag : Int
  argList : Nat → Option Tok
  spawnPid : Int
  saved_stdout : Int
  saved_stdin : Int
  /-- The descriptor table: what each descriptor is bound to, `none` when closed. -/
  fds : Nat → Option OFile
  /-- The number of descriptors the process may hold. -/
  nofile : Nat
  trace : List Event

/-- How the dispatch of one command ends. -/
inductive Outcome
  | loop (s : Shell)
  | exit (code : Int) (s : Shell)
  | exec (s : Shell)

/-- The exit status of the fork-failure path (wish.c 547). -/
def EXIT_FORK : Int := 301

/-- The exit status of the job-table overflow (wish.c 600). -/
def EXIT_OVERFLOW : Int := 501

/-- An event is appended to the trace. -/
def emit (s : Shell) (e : Event) : Shell := { s with trace := s.trace ++ [e] }

/-- A `printf` followed by `fflush(stdout)`, or a `write` on descriptor 1: the text goes to
what descriptor 1 is bound to at that moment. -/
def say (s : Shell) (text : List Char) : Shell := emit s (Event.print (s.fds 1) text)

/-- The texts printed in a trace, in order. -/
def printed : List Event → List (List Char)
  | [] => []
  | Event.print _ text :: r => text :: printed r
  | _ :: r => printed r

/-! ## Descriptor calls -/

/-- The lowest free descriptor below the limit. -/
def lowestFree (fds : Nat → Option OFile) (limit : Nat) : Option Nat :=
  (List.range limit).find? (fun k => (fds k).isNone)

/-- What descriptor `fd` is bound to; `none` for a negative or closed one. -/
def lookupFd (s : Shell) (fd : Int) : Option OFile :=
  if fd < 0 then none else s.fds fd.toNat

/-- The call `dup(fd)`. -/
def sys_dup (s : Shell) (fd : Int) : Shell × Int :=
  match lookupFd s fd with
  | none => (s, -1)
  | some f =>
    match lowestFree s.fds s.nofile with
    | none => (s, -1)
    | some k => ({ s with fds := setSlot s.fds k (some f) }, (k : Int))

/-- The call `open(path, ...)`; a null path fails. -/
def sys_open (env : Env) (s : Shell) (path : Option Tok) (forWriting : Bool) : Shell × Int :=
  match path with
  | none => (s, -1)
  | some p =>
    if env.openOK p forWriting then
      match lowestFree s.fds s.nofile with
      | none => (s, -1)
      | some k => ({ s with fds := setSlot s.fds k (some (OFile.path p forWriting)) }, (k : Int))
    else (s, -1)

/-- The call `dup2(oldfd, newfd)`. -/
def sys_dup2 (s : Shell) (oldfd : Int) (newfd : Nat) : Shell × Int :=
  match lookupFd s oldfd with
  | none => (s, -1)
  | some f => ({ s with fds := setSlot s.fds newfd (some f) }, (newfd : Int))

/-- The call `close(fd)`. -/
def sys_close (s : Shell) (fd : Int) : Shell :=
  match lookupFd s fd with
  | none => s
  | some _ => { s with fds := setSlot s.fds fd.toNat none }

/-- The state an outcome carries. -/
def Outcome.shell : Outcome → Shell
  | Outcome.loop s => s
  | Outcome.exit _ s => s
  | Outcome.exec s => s

/-- The status the interpreter exits with, when the outcome is an exit. -/
def Outcome.code : Outcome → Option Int
  | Outcome.exit c _ => some c
  | _ => none

/-! ## buffer_io.c -/

/-- The tokens `strtok(inBuffer, " ")` yields: the maximal runs of characters other than
a space; `cur` is the run being read. -/
def strtokRuns : List Char → Tok → List Tok
  | [], cur => if cur = [] then [] else [cur]
  | c :: cs, cur =>
    if c = ' ' then (if cur = [] then strtokRuns cs [] else cur :: strtokRuns cs [])
    else strtokRuns cs (cur ++ [c])

/-- The string left in `inBuffer` by `fgets` and the cut at the first newline: at most
`LINE_SIZE - 1` characters of the input, up to the first newline or terminator. -/
def readLine (input : List Char) : List Char :=
  (input.take (LINE_SIZE - 1)).takeWhile (fun c => c != '\n' && c != NUL)

/-- The function `getCommandLine`: the prompt is written, token `i` of the line is stored
in slot `i` and the number of tokens in `numArgs`; the slots from `numArgs` on keep what
they held. The loop of buffer_io.c 47-65 has no bound: a line of more than `ARG_SIZE`
tokens is stored past the last slot of the array, which has no defined result. -/
def getCommandLine (input : List Char) (s : Shell) : Option Shell :=
  let toks := strtokRuns (readLine input) []
  if ARG_SIZE < toks.length then none
  else
    some { say s [':'] with
      argList := fun i => if i < toks.length then toks[i]? else s.argList i
      numArgs := toks.length }

/-- The loop of `cleanBuffer` from slot `i`, with `n` slots of the array left: slots are
set to null up to the first null one. With no slot left the loop reads `argList[ARG_SIZE]`,
outside the array, which has no defined result. -/
def cleanLoop : Nat → Nat → (Nat → Option Tok) → Option (Nat → Option Tok)
  | 0, _, _ => none
  | n + 1, i, a =>
    match a i with
    | none => some a
    | some _ => cleanLoop n (i + 1) (setSlot a i none)

/-- The function `cleanBuffer`; `none` when no slot of the array is null. -/
def cleanBuffer (a : Nat → Option Tok) : Option (Nat → Option Tok) := cleanLoop ARG_SIZE 0 a

/-! ## utility.c -/

/-- The loop of `cleanShell` (utility.c 134-145) with `i` and `counter` as they stand;
`numPs` is the parameter of `cleanShell`. A negative `i` reads outside `background_ps`. -/
def cleanShellLoop : Nat → Int → Int → Int → Shell → Option Shell
  | 0, _, _, _, _ => none
  | fuel + 1, i, counter, numPs, s =>
    if counter ≠ numPs ∧ i < MAX_PS then
      if i < 0 then none
      else if s.background_ps i.toNat ≠ -5 then
        cleanShellLoop fuel (i + 1) (counter + 1) numPs (emit s (Event.kill (s.background_ps i.toNat)))
      else cleanShellLoop fuel (i + 1) counter numPs s
    else some s

/-- The function `cleanShell`: `i` starts from an indeterminate value, `counter` from 0.
The loop ends at `i = MAX_PS` at the latest, which bounds its fuel. -/
def cleanShell (env : Env) (s : Shell) : Option Shell :=
  match cleanShellLoop (MAX_PS + 1) env.garbage_i 0 s.numPs s with
  | none => none
  | some s1 =>
    match cleanBuffer s1.argList with
    | none => none
    | some a => some { s1 with argList := a }

/-- The function `builtIn_cd`. -/
def builtIn_cd (env : Env) (s : Shell) (path : Option Tok) : Shell :=
  let s1 := emit s (Event.chdir path)
  if env.chdirOK path then s1
  else
    match path with
    | none => emit s1 (Event.perror "Error - HOME".toList)
    | some _ => emit s1 (Event.perror "Error - provided path".toList)

/-- The path of the null device. -/
def devNull : Tok := "/dev/null".toList

/-- The function `redirectToNull`, with its result. -/
def redirectToNull (env : Env) (s : Shell) : Shell × Int :=
  let nullFile_write := sys_open env s (some devNull) true
  let nullFile_read := sys_open env nullFile_write.1 (some devNull) false
  if nullFile_write.2 = -1 ∨ nullFile_read.2 = -1 then
    (emit nullFile_read.1 (Event.perror "Error with opening dev null\n".toList), -1)
  else
    let result := sys_dup2 nullFile_read.1 nullFile_read.2 0
    if result.2 = -1 then
      (emit result.1 (Event.perror "Error with dup2 using stdout and 0\n".toList), -1)
    else
      let result1 := sys_dup2 result.1 nullFile_write.2 1
      if result1.2 = -1 then
        (emit result1.1 (Event.perror "Error with dup2 using stdin and 1\n".toList), -1)
      else (sys_close (sys_close result1.1 nullFile_write.2) nullFile_read.2, 0)

/-- The function `redirectStdin`, with its result. -/
def redirectStdin (env : Env) (s : Shell) : Shell × Int :=
  let myFile := sys_open env s (some devNull) false
  if myFile.2 = -1 then
    (emit myFile.1 (Event.perror "Error with openeing file for stdin".toList), -1)
  else
    let result := sys_dup2 myFile.1 myFile.2 0
    if result.2 = -1 then (emit result.1 (Event.perror "Error with dup2 in stdin\n".toList), -1)
    else (sys_close result.1 myFile.2, 0)

/-- The function `redirectStdout`, with its result. -/
def redirectStdout (env : Env) (s : Shell) : Shell × Int :=
  let myFile := sys_open env s (some devNull) true
  if myFile.2 = -1 then
    (emit myFile.1 (Event.perror "Error with opening stdout redirection file".toList), -1)
  else
    let result := sys_dup2 myFile.1 myFile.2 1
    if result.2 = -1 then (emit result.1 (Event.perror "Error with dup2 in stdout".toList), -1)
    else (sys_close result.1 myFile.2, 0)

/-! ## wish.c: the handlers -/

/-- The handler `catch_SIGINT`. -/
def catch_SIGINT (s : Shell) : Shell := { s with INT_MESSAGE := 1 }

/-- The handler `catch_SIGTSTP`. -/
def catch_SIGTSTP (s : Shell) : Shell :=
  if s.TSTP_FLAG ≠ 0 then { s with TSTP_FLAG := 0, TSTP_MESSAGE := 2 }
  else { s with TSTP_FLAG := 1, TSTP_MESSAGE := 1 }

/-! ## wish.c: the reaping pass (224-251) -/

/-- The message of the reaping pass for `pid` with `BACK_STATUS = st`. -/
def reapMessage (pid st : Int) : List Char :=
  if WIFSIGNALED st then
    "background pid ".toList ++ fmtInt pid ++ " is done: terminated by ".toList
      ++ fmtInt (WTERMSIG st) ++ ['\n']
  else
    "background pid ".toList ++ fmtInt pid ++ " is done: exit value ".toList
      ++ fmtInt (WEXITSTATUS st) ++ ['\n']

/-- The body of the reaping `for` at slot `i`. -/
def reapStep (env : Env) (s : Shell) (i : Nat) : Shell :=
  if s.background_ps i ≠ -5 then
    let pid := s.background_ps i
    let s1 := emit s (Event.waitpid pid false)
    let s2 := { s1 with BACK_STATUS := ((env.poll i pid).2).getD s1.BACK_STATUS }
    if (env.poll i pid).1 ≠ 0 then
      { say s2 (reapMessage pid s2.BACK_STATUS) with
        background_ps := setSlot s2.background_ps i (-5)
        numPs := s2.numPs - 1 }
    else s2
  else s

/-- The reaping `for` with `n` slots left, from slot `i`. -/
def reapLoop (env : Env) : Nat → Nat → Shell → Shell
  | 0, _, s => s
  | n + 1, i, s => reapLoop env n (i + 1) (reapStep env s i)

/-- The reaping pass: `for(i = 0; i < MAX_PS; i++)`. -/
def reapPass (env : Env) (s : Shell) : Shell := reapLoop env MAX_PS 0 s

/-! ## wish.c: the expansion pass (270-287) -/

/-- The `for` of the expansion pass with `n` tokens left, from token `i`. A null slot
below `numArgs` is dereferenced, which has no defined result. -/
def expansionLoop (fuel : Nat) (pid : Int) : Nat → Nat → Shell → Option Shell
  | 0, _, s => some s
  | n + 1, i, s =>
    match s.argList i with
    | none => none
    | some t =>
      match expandToken fuel pid t with
      | none => none
      | some (t1, calls) =>
        expansionLoop fuel pid n (i + 1)
          { s with argList := setSlot s.argList i (some t1)
                   trace := s.trace ++ calls.map (fun j => Event.expand i j) }

/-- The expansion pass: `for(i = 0; i < numArgs; i++)`. -/
def expansionPass (fuel : Nat) (pid : Int) (s : Shell) : Option Shell :=
  expansionLoop fuel pid s.numArgs.toNat 0 s

/-! ## wish.c: the built-in `status` (317-330) -/

/-- The line the built-in `status` prints for `STATUS = st`. -/
def statusText (st : Int) : List Char :=
  if WIFSIGNALED st then "terminated by signal ".toList ++ fmtInt (WTERMSIG st) ++ ['\n']
  else "exit value ".toList ++ fmtInt (WEXITSTATUS st) ++ ['\n']

/-- The built-in `status`. -/
def builtIn_status (s : Shell) : Shell := say s (statusText s.STATUS)

/-! ## wish.c: an external command (335-636) -/

/-- Lines 346-364: the background flag and the removal of a final `&`. With no slot
`numArgs - 1`, or a null one, `strcmp` has no defined result. -/
def bgDetect (s : Shell) : Option Shell :=
  let s0 := { s with background_flag := 0 }
  if s0.numArgs - 1 < 0 then none
  else
    match s0.argList (s0.numArgs - 1).toNat with
    | none => none
    | some last =>
      if last = ['&'] then
        let s1 := if s0.TSTP_FLAG ≠ 1 then { s0 with background_flag := 1, background_msg := 1 }
                  else s0
        some { s1 with argList := setSlot s1.argList (s1.numArgs - 1).toNat none
                       numArgs := s1.numArgs - 1 }
      else some s0

/-- The text `printf` writes for `%s`. -/
def fmtStr (t : Option Tok) : List Char :=
  match t with
  | none => "(null)".toList
  | some x => x

/-- Lines 378-422: the operator `>` found in slot `i`. -/
def redirectOut (env : Env) (s : Shell) (i : Nat) : Shell :=
  let targetFD := sys_open env s (s.argList (i + 1)) true
  let s2 :=
    if targetFD.2 = -1 then
      { say targetFD.1 ("cannot open ".toList ++ fmtStr (targetFD.1.argList (i + 1))
          ++ " for output\n".toList) with redirectErrFlag := 1 }
    else
      let result := sys_dup2 targetFD.1 targetFD.2 1
      if result.2 = -1 then
        { emit result.1 (Event.perror "dup2".toList) with redirectErrFlag := 1 }
      else
        { result.1 with stdout_flag := 1
                        argList := setSlot (setSlot result.1.argList i none) (i + 1) none
                        numArgs := result.1.numArgs - 2 }
  sys_close s2 targetFD.2

/-- Lines 430-473: the operator `<` found in slot `i`. -/
def redirectIn (env : Env) (s : Shell) (i : Nat) : Shell :=
  let sourceFile := sys_open env s (s.argList (i + 1)) false
  let s2 :=
    if sourceFile.2 = -1 then
      { say sourceFile.1 ("cannot open ".toList ++ fmtStr (sourceFile.1.argList (i + 1))
          ++ " for input\n".toList) with redirectErrFlag := 1 }
    else
      let result := sys_dup2 sourceFile.1 sourceFile.2 0
      if result.2 = -1 then
        { emit result.1 (Event.perror "dup2".toList) with redirectErrFlag := 1 }
      else
        { result.1 with stdin_flag := 1
                        argList := setSlot (setSlot result.1.argList i none) (i + 1) none
                        numArgs := result.1.numArgs - 2 }
  sys_close s2 sourceFile.2

/-- The body of the redirection `for` at slot `i`, before the test of the window. -/
def redirectStep (env : Env) (s : Shell) (i : Nat) : Shell :=
  if s.argList i = some ['>'] then redirectOut env s i
  else if s.argList i = some ['<'] then redirectIn env s i
  else s

/-- The redirection `for` (371-480) with `n = i + 1` slots left: slot `i = n - 1` is
examined, then the loop stops when `numArgs - i >= 6`. -/
def redirectLoop (env : Env) : Nat → Shell → Shell
  | 0, s => s
  | i + 1, s =>
    let s1 := redirectStep env s i
    if s1.numArgs - (i : Int) ≥ 6 then s1 else redirectLoop env i s1

/-- The flag `redirectErrFlag` set when a null-device function returned -1. -/
def noteResult (r : Shell × Int) : Shell :=
  if r.2 = -1 then { r.1 with redirectErrFlag := 1 } else r.1

/-- Lines 492-528: the null device for what a background command did not redirect. -/
def nullRedirect (env : Env) (s : Shell) : Shell :=
  if s.redirectErrFlag = 0 ∧ s.background_flag = 1 then
    if s.stdin_flag = 0 ∧ s.stdout_flag = 0 then noteResult (redirectToNull env s)
    else if s.stdin_flag = 1 ∧ s.stdout_flag = 0 then noteResult (redirectStdout env s)
    else if s.stdin_flag = 0 ∧ s.stdout_flag = 1 then noteResult (redirectStdin env s)
    else s
  else s

/-- The insertion `for` (586-602) with `n` slots left, from slot `i`; the flag tells
whether `exit(501)` was reached. -/
def insertLoop : Nat → Nat → Shell → Shell × Bool
  | 0, _, s => (s, false)
  | n + 1, i, s =>
    if s.background_ps i = -5 then
      ({ s with background_ps := setSlot s.background_ps i s.spawnPid
                numPs := s.numPs + 1 }, false)
    else if i = MAX_PS - 1 then
      (emit s (Event.perror "OVERFLOW! Too many background processes running".toList), true)
    else insertLoop n (i + 1) s

/-- The insertion of `spawnPid` in the job table: `for(i = 0; i < MAX_PS; i++)`. -/
def insertJob (s : Shell) : Shell × Bool := insertLoop MAX_PS 0 s

/-- The argument vector `execvp` reads from `argList`: the slots before the first null
one, with `n` slots of the array left from slot `i`; `none` when no slot left is null:
`execvp` then reads outside the array. -/
def argvOf (a : Nat → Option Tok) : Nat → Nat → Option (List Tok)
  | 0, _ => none
  | n + 1, i =>
    match a i with
    | none => some []
    | some t => (argvOf a n (i + 1)).map (fun r => t :: r)

/-- Lines 605-608 and 631-633: the two `dup2` calls that restore the descriptors. -/
def restoreStd (s : Shell) : Shell :=
  (sys_dup2 (sys_dup2 s s.saved_stdin 0).1 s.saved_stdout 1).1

/-- Lines 536-635: the fork, the child and the parent. -/
def launch (env : Env) (s : Shell) : Outcome :=
  if s.redirectErrFlag = 0 then
    let s1 := emit { s with spawnPid := env.forkResult } (Event.fork env.forkResult)
    if s1.spawnPid = -1 then
      Outcome.exit EXIT_FORK (emit s1 (Event.perror "Forking error!\n".toList))
    else if s1.spawnPid = 0 then
      let s2 := emit s1 (Event.sigaction Sig.SIGTSTP true)
      let s3 := emit s2 (Event.sigaction Sig.SIGINT (decide (s2.background_flag ≠ 0)))
      let s4 := emit s3 (Event.execvp (s3.argList 0) (argvOf s3.argList ARG_SIZE 0))
      if env.execOK then Outcome.exec s4
      else
        Outcome.exit 1 (say s4 (fmtStr (s4.argList 0)
          ++ ": no such file or directory\n".toList))
    else if s1.background_flag = 0 then
      let s2 := emit s1 (Event.waitpid s1.spawnPid true)
      Outcome.loop (restoreStd { s2 with STATUS := env.fgWait.getD s2.STATUS })
    else
      let s2 := emit s1 (Event.waitpid s1.spawnPid false)
      let s3 := { s2 with BACK_STATUS := env.bgWait.getD s2.BACK_STATUS }
      let r := insertJob s3
      if r.2 then Outcome.exit EXIT_OVERFLOW r.1
      else Outcome.loop (restoreStd r.1)
  else
    let s1 := emit { s with spawnPid := env.forkResult } (Event.fork env.forkResult)
    if s1.spawnPid = -1 then Outcome.exit 1 (emit s1 (Event.perror "Forking error!".toList))
    else if s1.spawnPid = 0 then Outcome.exit 1 s1
    else
      let s2 := emit s1 (Event.waitpid s1.spawnPid true)
      Outcome.loop (restoreStd
        { s2 with STATUS := if env.errWait then exitedStatus 1 else s2.STATUS })

/-- Lines 337-339: the copies of the two standard descriptors. -/
def saveStd (s : Shell) : Shell :=
  let saved_stdout := sys_dup s 1
  let saved_stdin := sys_dup saved_stdout.1 0
  { saved_stdin.1 with saved_stdout := saved_stdout.2, saved_stdin := saved_stdin.2 }

/-- An external command (the `else` of wish.c 335-636). -/
def external (env : Env) (s : Shell) : Option Outcome :=
  match bgDetect (saveStd s) with
  | none => none
  | some s1 => some (launch env (nullRedirect env (redirectLoop env s1.numArgs.toNat s1)))

/-! ## wish.c: one iteration from the read line on (263-656) -/

/-- Lines 263-637: the guard, the expansion pass and the command. -/
def dispatch (env : Env) (fuel : Nat) (s : Shell) : Option Outcome :=
  match s.argList 0 with
  | none => some (Outcome.loop s)
  | some t0 =>
    if t0.head? = some '#' then some (Outcome.loop s)
    else
      match expansionPass fuel env.pid s with
      | none => none
      | some s1 =>
        if s1.argList 0 = some "exit".toList then
          match cleanShell env s1 with
          | none => none
          | some s2 => some (Outcome.exit 0 s2)
        else if s1.argList 0 = some "cd".toList then
          some (Outcome.loop (builtIn_cd env s1 (s1.argList 1)))
        else if s1.argList 0 = some "status".toList then
          some (Outcome.loop (builtIn_status s1))
        else external env s1

/-- Lines 639-656: the background message, `cleanBuffer` and the reset of the flags;
`none` when `cleanBuffer` leaves the array. -/
def finish (s : Shell) : Option Shell :=
  let s1 :=
    if s.background_msg = 1 then
      { say s ("background pid is ".toList ++ fmtInt s.spawnPid ++ ['\n']) with
        background_msg := 0 }
    else s
  match cleanBuffer s1.argList with
  | none => none
  | some a =>
    some { s1 with argList := a
                   redirectErrFlag := 0
                   stdin_flag := 0
                   stdout_flag := 0 }

/-- One iteration from `getCommandLine` to the end of the loop body; an iteration that
leaves the loop is returned as such, and `none` is an iteration with no defined result. -/
def readAndDispatch (env : Env) (fuel : Nat) (input : List Char) (s : Shell) : Option Outcome :=
  match getCommandLine input s with
  | none => none
  | some s0 =>
    match dispatch env fuel s0 with
    | some (Outcome.loop s1) =>
      match finish s1 with
      | none => none
      | some s2 => some (Outcome.loop s2)
    | r => r

/-! ## The state at the entry of the loop -/

/-- The state of `main` when the loop is entered (wish.c 27-37, 97-126): the job table
empty, every slot of `argList` null; `background_flag` is not initialised and the
descriptors are those the process inherited. -/
def initShell (background_flag : Int) (fds : Nat → Option OFile) (nofile : Nat) : Shell where
  STATUS := 0
  BACK_STATUS := 0
  INT_MESSAGE := 0
  TSTP_FLAG := 0
  TSTP_MESSAGE := 0
  numArgs := 0
  background_flag := background_flag
  background_msg := 0
  stdin_flag := 0
  stdout_flag := 0
  numPs := 0
  background_ps := fun _ => -5
  redirectErrFlag := 0
  argList := fun _ => none
  spawnPid := -5
  saved_stdout := -1
  saved_stdin := -1
  fds := fds
  nofile := nofile
  trace := []

/-- The three standard descriptors open, every other one closed. -/
def stdFds : Nat → Option OFile := fun k => if k < 3 then some (OFile.inherited k) else none

/-- An environment in which every path opens, `fork` returns `child`, every wait reports
a normal exit with code 0 and the reaping poll reports completion. -/
def calmEnv (pid child : Int) : Env where
  pid := pid
  openOK := fun _ _ => true
  forkResult := child
  fgWait := some 0
  errWait := true
  bgWait := none
  poll := fun _ p => (p, some 0)
  execOK := true
  chdirOK := fun _ => true
  garbage_i := 0
  tstpWait := none
  intWait := none

/-- The state at the entry of the loop once the tokens of a line are stored in `argList`,
with descriptors 0, 1 and 2 open and a limit of `nofile` descriptors. -/
def lineState (toks : List Tok) (nofile : Nat) : Shell :=
  { initShell 0 stdFds nofile with
    argList := fun i => toks[i]?
    numArgs := toks.length }

/-! ## What the redirection code keeps -/

/-- The variables the redirection code (wish.c 371-528) never assigns. -/
structure Kept where
  STATUS : Int
  BACK_STATUS : Int
  INT_MESSAGE : Int
  TSTP_FLAG : Int
  TSTP_MESSAGE : Int
  background_flag : Int
  background_msg : Int
  numPs : Int
  background_ps : Nat → Int
  spawnPid : Int
  saved_stdout : Int
  saved_stdin : Int
  nofile : Nat

/-- The part of a state the redirection code never assigns. -/
def kept (s : Shell) : Kept where
  STATUS := s.STATUS
  BACK_STATUS := s.BACK_STATUS
  INT_MESSAGE := s.INT_MESSAGE
  TSTP_FLAG := s.TSTP_FLAG
  TSTP_MESSAGE := s.TSTP_MESSAGE
  background_flag := s.background_flag
  background_msg := s.background_msg
  numPs := s.numPs
  background_ps := s.background_ps
  spawnPid := s.spawnPid
  saved_stdout := s.saved_stdout
  saved_stdin := s.saved_stdin
  nofile := s.nofile

/-- No descriptor is free. -/
def Full (s : Shell) : Prop := lowestFree s.fds s.nofile = none

/-- What the redirection code keeps from state `s` to state `t`: the variables it never
assigns, the whole descriptor table when no descriptor is free, and in any case every open
descriptor from 2 on. -/
structure Keeps (s t : Shell) : Prop where
  same : kept t = kept s
  whenFull : Full s → t.fds = s.fds
  fromTwo : ∀ m f, 2 ≤ m → s.fds m = some f → t.fds m = some f

/-- The state in which the two `dup2` calls of wish.c 607-608 give descriptors 0 and 1
back to `f0` and `f1`: either both saved descriptors are open copies from 2 on, or no
descriptor is free, descriptors 0 and 1 are still bound to `f0` and `f1`, and each saved
descriptor is either invalid or a copy. -/
def Restorable (f0 f1 : OFile) (t : Shell) : Prop :=
  (∃ a b : Nat, 2 ≤ a ∧ 2 ≤ b ∧ t.saved_stdin = (a : Int) ∧ t.saved_stdout = (b : Int) ∧
      t.fds a = some f0 ∧ t.fds b = some f1) ∨
  (Full t ∧ t.fds 0 = some f0 ∧ t.fds 1 = some f1 ∧
    (lookupFd t t.saved_stdin = none ∨ lookupFd t t.saved_stdin = some f0) ∧
    (lookupFd t t.saved_stdout = none ∨ lookupFd t t.saved_stdout = some f1))

/-! ## The tracked identifiers -/

/-- The identifiers held by the occupied slots among the `n` slots from slot `i`, in the
order of the slots. -/
def trackedFrom (bg : Nat → Int) : Nat → Nat → List Int
  | 0, _ => []
  | n + 1, i => if bg i ≠ -5 then bg i :: trackedFrom bg n (i + 1) else trackedFrom bg n (i + 1)

/-- The identifiers the job table tracks, in the order of the slots. -/
def tracked (s : Shell) : List Int := trackedFrom s.background_ps MAX_PS 0

/-- A completion message of the reaping pass that names `pid`. -/
def NamesPid (pid : Int) (msg : List Char) : Prop :=
  ∃ rest, msg = "background pid ".toList ++ fmtInt pid ++ " is done: ".toList ++ rest


/-! ## wish.c: the pending signal flags (171-213) -/

/-- The text printed when foreground-only mode was entered. -/
def ENTER_TEXT : List Char := "\nEntering foreground-only mode (& is now ignored)\n".toList

/-- The text printed when foreground-only mode was left. -/
def EXIT_TEXT : List Char := "\nExiting foreground-only mode\n".toList

/-- Lines 175-176 and 188-189: the blocking `waitpid` on `spawnPid`, skipped when
`background_flag` is not 0. -/
def tstpWaitStep (env : Env) (s : Shell) : Shell :=
  if s.background_flag = 0 then
    { emit s (Event.waitpid s.spawnPid true) with STATUS := env.tstpWait.getD s.STATUS }
  else s

/-- Lines 171-195: a pending mode message. -/
def serviceTSTP (env : Env) (s : Shell) : Shell :=
  if s.TSTP_MESSAGE = 1 then
    say { tstpWaitStep env s with TSTP_MESSAGE := 0 } ENTER_TEXT
  else if s.TSTP_MESSAGE = 2 then
    say { tstpWaitStep env s with TSTP_MESSAGE := 0 } EXIT_TEXT
  else s

/-- Lines 198-213: a pending interrupt. -/
def serviceINT (env : Env) (s : Shell) : Shell :=
  if s.INT_MESSAGE = 1 then
    let s1 := { emit s (Event.waitpid s.spawnPid true) with STATUS := env.intWait.getD s.STATUS }
    let s2 :=
      if WIFSIGNALED s1.STATUS then
        say s1 ("\nterminated by signal ".toList ++ fmtInt (WTERMSIG s1.STATUS) ++ ['\n'])
      else s1
    { s2 with INT_MESSAGE := 0 }
  else s

/-- Lines 171-213: the pending flags are served, the mode message first. -/
def signalService (env : Env) (s : Shell) : Shell := serviceINT env (serviceTSTP env s)

/-- Lines 224-656: the reaping pass, the read of a line and the command. -/
def loopBody (env : Env) (fuel : Nat) (input : List Char) (s : Shell) : Option Outcome :=
  readAndDispatch env fuel input (reapPass env s)

/-- One iteration of the `while(1)` of `main` (wish.c 168-659). -/
def loopPass (env : Env) (fuel : Nat) (input : List Char) (s : Shell) : Option Outcome :=
  loopBody env fuel input (signalService env s)

/-- An environment like `calmEnv` in which no background child has finished: every poll
of the reaping pass returns 0 and stores nothing. -/
def busyEnv (pid child : Int) : Env :=
  { calmEnv pid child with poll := fun _ _ => (0, none) }

/-! ## What one iteration keeps -/

/-- The events of the parent outside the service of the mode flag: no text that starts
with a newline is printed, and nothing of what a child or `cleanShell` does occurs. -/
def plain : Event → Bool
  | Event.print _ text => text.head? != some '\n'
  | Event.perror _ => true
  | Event.expand _ _ => true
  | Event.chdir _ => true
  | Event.fork _ => true
  | Event.waitpid _ _ => true
  | Event.kill _ => false
  | Event.sigaction _ _ => false
  | Event.execvp _ _ => false

/-- From state `s` to state `t` the two variables of the mode flag are kept and the
trace grows by plain events only. -/
structure Quiet (s t : Shell) : Prop where
  flag : t.TSTP_FLAG = s.TSTP_FLAG
  msg : t.TSTP_MESSAGE = s.TSTP_MESSAGE
  adds : ∃ l, t.trace = s.trace ++ l ∧ ∀ e ∈ l, plain e = true

/-- From state `s` to state `t` the job table and its counter are kept. -/
structure SameJobs (s t : Shell) : Prop where
  count : t.numPs = s.numPs
  table : t.background_ps = s.background_ps

/-- The counter `numPs` is the number of slots of the job table that do not hold -5. -/
def Counted (s : Shell) : Prop := s.numPs = ((tracked s).length : Int)

/-- What `fork` can return: -1, 0 or the identifier of the child, a positive number. -/
def forkSane (env : Env) : Prop := -1 ≤ env.forkResult

/-- The states of the loop of `main` at the head of an iteration: the state at the entry
of the loop, and what the two handlers and an iteration that goes on make of such a
state. -/
inductive Reachable : Shell → Prop
  | entry (background_flag : Int) (fds : Nat → Option OFile) (nofile : Nat) :
      Reachable (initShell background_flag fds nofile)
  | interrupt {s : Shell} : Reachable s → Reachable (catch_SIGINT s)
  | toggle {s : Shell} : Reachable s → Reachable (catch_SIGTSTP s)
  | pass {s t : Shell} (env : Env) (fuel : Nat) (input : List Char) :
      Reachable s → forkSane env → loopPass env fuel input s = some (Outcome.loop t) →
      Reachable t

/-! ## Deliveries of the suspend-toggle signal and the loop -/

/-- What happens in a run, as far as the mode flag goes: a delivery of the suspend-toggle
signal (a run of `catch_SIGTSTP`), the service of the pending flags at the head of an
iteration (wish.c 171-213), or the rest of an iteration (wish.c 224-656). -/
inductive Act
  | deliver
  | service (env : Env)
  | body (env : Env) (fuel : Nat) (input : List Char)

/-- The state after a run; `none` when an iteration does not go on to the next one. -/
def runActs : List Act → Shell → Option Shell
  | [], s => some s
  | Act.deliver :: r, s => runActs r (catch_SIGTSTP s)
  | Act.service env :: r, s => runActs r (signalService env s)
  | Act.body env fuel input :: r, s =>
    match loopBody env fuel input s with
    | some (Outcome.loop t) => runActs r t
    | _ => none

/-- The mode messages printed in a trace, in order: `true` for the message of entry. -/
def modeTexts : List Event → List Bool
  | [] => []
  | Event.print _ text :: r =>
    if text = ENTER_TEXT then true :: modeTexts r
    else if text = EXIT_TEXT then false :: modeTexts r
    else modeTexts r
  | _ :: r => modeTexts r

/-- The directions of the toggles delivered in a run that starts with `TSTP_FLAG = f`, in
order: `true` for a toggle that enters foreground-only mode. -/
def toggleDirs : List Act → Int → List Bool
  | [], _ => []
  | Act.deliver :: r, f => decide (f = 0) :: toggleDirs r (if f ≠ 0 then 0 else 1)
  | _ :: r, f => toggleDirs r f

/-- Every delivery of a run is followed by a service of the flags before the next delivery
and before the end of the run; the flag tells whether a delivery is waiting for one. -/
def spaced : Bool → List Act → Bool
  | p, [] => !p
  | p, Act.deliver :: r => !p && spaced true r
  | _, Act.service _ :: r => spaced false r
  | p, Act.body _ _ _ :: r => spaced p r

/-- The value of `TSTP_MESSAGE` for a pending toggle, if any. -/
def pendingMsg : Option Bool → Int
  | none => 0
  | some true => 1
  | some false => 2

/-! ## The outcome of one redirection -/

/-- The operator of a redirection: `>` for output, `<` for input. -/
def operatorTok (forWriting : Bool) : Tok := if forWriting then ['>'] else ['<']

/-- The diagnostic of wish.c 387 and 438 for a file that did not open. -/
def diagnostic (name : Option Tok) (forWriting : Bool) : List Char :=
  "cannot open ".toList ++ fmtStr name
    ++ (if forWriting then " for output\n".toList else " for input\n".toList)

/-- The descriptor table once file `f` was opened on the free descriptor `k`, copied onto
descriptor `n` by `dup2` and descriptor `k` closed. -/
def rebound (fds : Nat → Option OFile) (k n : Nat) (f : OFile) : Nat → Option OFile :=
  setSlot (setSlot (setSlot fds k (some f)) n (some f)) k none

/-- What a standard descriptor is bound to when `fork` is called, by the flag of its
stream: with the flag at 0 the file `own`, with the flag at 1 the file named after an
operator of the line (`>` for output, `<` for input). -/
def Stream (line : Nat → Option Tok) (own : OFile) (forWriting : Bool) (flag : Int)
    (bound : Option OFile) : Prop :=
  (flag = 0 ∧ bound = some own) ∨
  (flag = 1 ∧ ∃ i q, line i = some (operatorTok forWriting) ∧ line (i + 1) = some q ∧
    bound = some (OFile.path q forWriting))

/-- The two streams in state `t` of the redirection code of a command whose line is
`line`, and the slots of `argList` hold what the line held or null. -/
structure Streams (line : Nat → Option Tok) (f0 f1 : OFile) (t : Shell) : Prop where
  input : Stream line f0 false t.stdin_flag (t.fds 0)
  output : Stream line f1 true t.stdout_flag (t.fds 1)
  tokens : ∀ j x, t.argList j = some x → line j = some x

/-! ## A line of arguments and trailing control tokens -/

/-- The tokens of the trailing redirections of a line: each operator and its file name. -/
def controlToks : List (Bool × Tok) → List Tok
  | [] => []
  | (w, f) :: r => operatorTok w :: f :: controlToks r

/-- The tokens of a line `prog a1 ... ak`, its trailing redirections and its final `&`. -/
def lineToks (args : List Tok) (ctl : List (Bool × Tok)) (amp : Bool) : List Tok :=
  args ++ controlToks ctl ++ (if amp then [['&']] else [])

/-- A token that is none of the control tokens `<`, `>` and `&`. -/
def ordinary (t : Tok) : Prop := t ≠ ['<'] ∧ t ≠ ['>'] ∧ t ≠ ['&']

/-! ## The expansion pass -/

theorem cstr_append_nul (t : List Char) (h : NUL ∉ t) (r : List Char) :
    cstr (t ++ NUL :: r) = t := by
  induction t with
  | nil => simp [cstr]
  | cons a t ih =>
    have ha : (a != NUL) = true := by
      have : a ≠ NUL := fun e => h (by simp [e])
      simpa using this
    have ht : NUL ∉ t := fun e => h (by simp [e])
    have := ih ht
    simp only [cstr] at this ⊢
    rw [List.cons_append, List.takeWhile_cons, if_pos ha, this]

theorem get_at_append (pre : List Char) (c : Char) (r : List Char) :
    (pre ++ c :: r)[pre.length]? = some c := by
  rw [List.getElem?_append_right (by omega)]
  simp

theorem get_at_append_succ (pre : List Char) (c d : Char) (r : List Char) :
    (pre ++ c :: d :: r)[pre.length + 1]? = some d := by
  rw [List.getElem?_append_right (by omega)]
  simp

theorem scanToken_succ (fuel : Nat) (pid : Int) (tok : Block) (j : Nat) (calls : List Nat) :
    scanToken (fuel + 1) pid tok j calls =
      match tok[j]? with
      | none => none
      | some c0 =>
        if c0 = NUL then some (tok, calls)
        else
          match tok[j + 1]? with
          | none => none
          | some c1 =>
            if c1 = NUL then some (tok, calls)
            else if c0 = '$' ∧ c1 = '$' then
              match expandProcessID tok j pid with
              | none => none
              | some tok1 => scanToken fuel pid tok1 (j + 1 + 1) (calls ++ [j])
            else scanToken fuel pid tok (j + 1) calls := rfl

theorem scanToken_noPair (pid : Int) (suf : List Char) :
    ∀ (pre : List Char) (fuel : Nat) (calls : List Nat), NUL ∉ suf → hasPair suf = false →
      suf.length < fuel →
      scanToken fuel pid (pre ++ (suf ++ [NUL])) pre.length calls
        = some (pre ++ (suf ++ [NUL]), calls) := by
  induction suf with
  | nil =>
    intro pre fuel calls _ _ hf
    obtain ⟨f, rfl⟩ : ∃ f, fuel = f + 1 := ⟨fuel - 1, by simp at hf; omega⟩
    rw [scanToken_succ, List.nil_append, get_at_append]
    simp
  | cons a t ih =>
    intro pre fuel calls hn hp hf
    obtain ⟨f, rfl⟩ : ∃ f, fuel = f + 1 := ⟨fuel - 1, by omega⟩
    have ha : a ≠ NUL := fun e => hn (by simp [e])
    have ht : NUL ∉ t := fun e => hn (by simp [e])
    cases t with
    | nil =>
      rw [scanToken_succ]
      simp only [List.cons_append, List.nil_append, get_at_append, get_at_append_succ, ha,
        if_false, if_true]
    | cons b r =>
      have hb : b ≠ NUL := fun e => hn (by simp [e])
      have hp1 : ¬ (a = '$' ∧ b = '$') := by
        intro ⟨h1, h2⟩; simp [hasPair, h1, h2] at hp
      have hp2 : hasPair (b :: r) = false := by
        simp only [hasPair, Bool.or_eq_false_iff] at hp; exact hp.2
      have := ih (pre ++ [a]) f calls ht hp2 (by simp at hf ⊢; omega)
      simp only [List.append_assoc, List.singleton_append, List.length_append,
        List.length_singleton, List.cons_append] at this
      rw [scanToken_succ]
      simp only [List.cons_append, get_at_append, get_at_append_succ, ha, hb, hp1,
        if_false]
      exact this

/-- C2: a token (a C string, so without a terminator inside) that holds no two adjacent
dollar signs is left unchanged by the expansion pass, which makes no call of
`expandProcessID` on it, for every process id and every fuel above the token length. -/
theorem C2_expansion_identity (pid : Int) (t : Tok) (fuel : Nat)
    (hnul : NUL ∉ t) (hpair : hasPair t = false) (hfuel : t.length < fuel) :
    expandToken fuel pid t = some (t, []) := by
  have h := scanToken_noPair pid t [] fuel [] hnul hpair hfuel
  simp only [List.nil_append, List.length_nil] at h
  simp only [expandToken, toBlock, h]
  rw [cstr_append_nul t hnul []]

theorem C2_expansion_identity_witness :
    expandToken 8 4242 "ab$c$".toList = some ("ab$c$".toList, []) :=
  C2_expansion_identity 4242 "ab$c$".toList 8 (by decide) (by decide) (by decide)

/-- C1: with process id 5 the token `$$` gets no result from the expansion pass, whatever
the fuel: `expandProcessID` leaves the block `5` with its terminator, two bytes, and the
scan goes on at index 2, outside the block. -/
theorem C1_single_digit_pid_reads_outside (fuel : Nat) :
    expandToken fuel 5 ['$', '$'] = none := by
  match fuel with
  | 0 => rfl
  | 1 => rfl
  | f + 2 => rfl

/-- C3: with process id 5 the token `$$$$` is left as `5$$` by the expansion pass, with one
call of `expandProcessID`, whatever the fuel from 2 on: the second marker pair is not
replaced. -/
theorem C3_adjacent_pairs_single_digit_pid (fuel : Nat) :
    expandToken (fuel + 2) 5 ['$', '$', '$', '$'] = some (['5', '$', '$'], [0]) := by
  rfl

theorem statusText_exited (c : Int) (h0 : 0 ≤ c) (h1 : c ≤ 255) :
    statusText (exitedStatus c) = "exit value ".toList ++ fmtInt c ++ ['\n'] := by
  have hs : WIFSIGNALED (exitedStatus c) = false := by
    simp only [WIFSIGNALED, exitedStatus]
    have : c % 256 * 256 % 128 = 0 := by omega
    rw [this]; decide
  have he : WEXITSTATUS (exitedStatus c) = c := by
    simp only [WEXITSTATUS, exitedStatus]; omega
  simp [statusText, hs, he]

theorem statusText_signaled (sig : Int) (core : Bool) (h0 : 1 ≤ sig) (h1 : sig ≤ 126) :
    statusText (signaledStatus sig core)
      = "terminated by signal ".toList ++ fmtInt sig ++ ['\n'] := by
  have hm : signaledStatus sig core % 128 = sig := by
    cases core <;> simp only [signaledStatus] <;> simp <;> omega
  have hs : WIFSIGNALED (signaledStatus sig core) = true := by
    simp only [WIFSIGNALED, hm]
    have : ¬ (128 ≤ sig + 1) := by omega
    simp only [this, if_false, decide_eq_true_eq]
    omega
  simp [statusText, hs, WTERMSIG, hm]

/-- C6: the built-in `status` prints one line on descriptor 1 and nothing else: `exit value c`
when `STATUS` is the wait status of a normal exit with code `c` in 0..255, `terminated by
signal sig` when it is that of a death by signal `sig` in 1..126 (with or without core dump),
and `exit value 0` when `STATUS` is 0, its value before any foreground command. -/
theorem C6_status_reports (s : Shell) :
    (∀ c : Int, 0 ≤ c → c ≤ 255 → s.STATUS = exitedStatus c →
      (builtIn_status s).trace
        = s.trace ++ [Event.print (s.fds 1) ("exit value ".toList ++ fmtInt c ++ ['\n'])]) ∧
    (∀ (sig : Int) (core : Bool), 1 ≤ sig → sig ≤ 126 → s.STATUS = signaledStatus sig core →
      (builtIn_status s).trace
        = s.trace ++ [Event.print (s.fds 1)
            ("terminated by signal ".toList ++ fmtInt sig ++ ['\n'])]) ∧
    (s.STATUS = 0 →
      (builtIn_status s).trace = s.trace ++ [Event.print (s.fds 1) "exit value 0\n".toList]) := by
  refine ⟨?_, ?_, ?_⟩
  · intro c h0 h1 hs
    simp only [builtIn_status, say, emit, hs, statusText_exited c h0 h1]
  · intro sig core h0 h1 hs
    simp only [builtIn_status, say, emit, hs, statusText_signaled sig core h0 h1]
  · intro hs
    simp only [builtIn_status, say, emit, hs]
    rfl

theorem C6_status_reports_witness :
    (builtIn_status { initShell 0 stdFds 16 with STATUS := 768 }).trace
        = [Event.print (some (OFile.inherited 1)) "exit value 3\n".toList] ∧
    (builtIn_status { initShell 0 stdFds 16 with STATUS := 2 }).trace
        = [Event.print (some (OFile.inherited 1)) "terminated by signal 2\n".toList] ∧
    (builtIn_status (initShell 0 stdFds 16)).trace
        = [Event.print (some (OFile.inherited 1)) "exit value 0\n".toList] :=
  ⟨(C6_status_reports { initShell 0 stdFds 16 with STATUS := 768 }).1 3 (by decide) (by decide) rfl,
   (C6_status_reports { initShell 0 stdFds 16 with STATUS := 2 }).2.1 2 false (by decide)
     (by decide) rfl,
   (C6_status_reports (initShell 0 stdFds 16)).2.2 rfl⟩

theorem insertLoop_stores (n : Nat) :
    ∀ (i k : Nat) (s : Shell), i + n = MAX_PS → i ≤ k → k < MAX_PS →
      s.background_ps k = -5 → (∀ j, i ≤ j → j < k → s.background_ps j ≠ -5) →
      insertLoop n i s
        = ({ s with background_ps := setSlot s.background_ps k s.spawnPid
                    numPs := s.numPs + 1 }, false) := by
  induction n with
  | zero => intro i k s h1 h2 h3; omega
  | succ n ih =>
    intro i k s h1 h2 h3 hk hlow
    by_cases hik : i = k
    · subst hik
      simp [insertLoop, hk]
    · have hi : s.background_ps i ≠ -5 := hlow i (le_refl i) (by omega)
      have hne : i ≠ MAX_PS - 1 := by omega
      simp only [insertLoop, hi, hne, if_false]
      exact ih (i + 1) k s (by omega) (by omega) h3 hk (fun j hj1 hj2 => hlow j (by omega) hj2)

theorem insertLoop_overflow (n : Nat) :
    ∀ (i : Nat) (s : Shell), i + n = MAX_PS → 0 < n →
      (∀ j, i ≤ j → j < MAX_PS → s.background_ps j ≠ -5) →
      insertLoop n i s
        = (emit s (Event.perror "OVERFLOW! Too many background processes running".toList),
            true) := by
  induction n with
  | zero => intro i s _ h; omega
  | succ n ih =>
    intro i s h1 _ hfull
    have hi : s.background_ps i ≠ -5 := hfull i (le_refl i) (by omega)
    by_cases hlast : i = MAX_PS - 1
    · rw [insertLoop, if_neg hi, if_pos hlast]
    · simp only [insertLoop, hi, hlast, if_false]
      exact ih (i + 1) s (by omega) (by omega) (fun j hj1 hj2 => hfull j (by omega) hj2)

theorem restoreStd_background_ps (s : Shell) :
    (restoreStd s).background_ps = s.background_ps := by
  simp only [restoreStd, sys_dup2]
  split <;> split <;> rfl

/-- C8: in the parent of a background launch (no redirection error, `fork` returned
`p` other than -1 and 0), when slot `k` is the lowest empty slot of the job table the loop
continues with `p` stored in slot `k` and every other slot unchanged; when none of the
`MAX_PS` slots is empty the interpreter exits with `EXIT_OVERFLOW = 501` and the table is
unchanged; 501 differs from the fork-failure status 301 and from 0, also as the low byte
a parent sees. -/
theorem C8_insert_or_overflow (env : Env) (s : Shell)
    (herr : s.redirectErrFlag = 0) (hbg : s.background_flag ≠ 0)
    (hf1 : env.forkResult ≠ -1) (hf0 : env.forkResult ≠ 0) :
    (∀ k, k < MAX_PS → s.background_ps k = -5 → (∀ j, j < k → s.background_ps j ≠ -5) →
      ∃ s1, launch env s = Outcome.loop s1 ∧
        s1.background_ps = setSlot s.background_ps k env.forkResult) ∧
    ((∀ j, j < MAX_PS → s.background_ps j ≠ -5) →
      ∃ s1, launch env s = Outcome.exit EXIT_OVERFLOW s1 ∧
        s1.background_ps = s.background_ps) ∧
    EXIT_OVERFLOW = 501 ∧ EXIT_OVERFLOW ≠ EXIT_FORK ∧ EXIT_OVERFLOW ≠ 0 ∧
    EXIT_OVERFLOW % 256 ≠ EXIT_FORK % 256 ∧ EXIT_OVERFLOW % 256 ≠ 0 := by
  refine ⟨?_, ?_, rfl, by decide, by decide, by decide, by decide⟩
  · intro k hk hempty hlow
    have h := insertLoop_stores MAX_PS 0 k
      { emit (emit { s with spawnPid := env.forkResult } (Event.fork env.forkResult))
          (Event.waitpid env.forkResult false) with
        BACK_STATUS := env.bgWait.getD s.BACK_STATUS }
      (by simp) (Nat.zero_le k) hk hempty (fun j _ hj => hlow j hj)
    simp only [launch, herr, if_true, emit, hf1, hf0, hbg, if_false, insertJob] at h ⊢
    rw [h]
    simp only [Bool.false_eq_true, if_false]
    exact ⟨_, rfl, by rw [restoreStd_background_ps]⟩
  · intro hfull
    have h := insertLoop_overflow MAX_PS 0
      { emit (emit { s with spawnPid := env.forkResult } (Event.fork env.forkResult))
          (Event.waitpid env.forkResult false) with
        BACK_STATUS := env.bgWait.getD s.BACK_STATUS }
      (by simp) (by decide) (fun j _ hj => hfull j hj)
    simp only [launch, herr, if_true, emit, hf1, hf0, hbg, if_false, insertJob] at h ⊢
    rw [h]
    simp only [if_true]
    exact ⟨_, rfl, rfl⟩

theorem C8_insert_or_overflow_witness :
    (∃ s1, launch (calmEnv 900 4321) { initShell 0 stdFds 16 with background_flag := 1 }
        = Outcome.loop s1 ∧
      s1.background_ps = setSlot (fun _ => -5) 0 4321) ∧
    (∃ s1, launch (calmEnv 900 4321)
        { initShell 0 stdFds 16 with background_flag := 1, background_ps := fun _ => 77 }
        = Outcome.exit EXIT_OVERFLOW s1 ∧
      s1.background_ps = fun _ => 77) :=
  ⟨(C8_insert_or_overflow (calmEnv 900 4321)
      { initShell 0 stdFds 16 with background_flag := 1 } rfl (by decide) (by decide)
      (by decide)).1 0 (by decide) rfl (fun j hj => absurd hj (Nat.not_lt_zero j)),
   (C8_insert_or_overflow (calmEnv 900 4321)
      { initShell 0 stdFds 16 with background_flag := 1, background_ps := fun _ => 77 } rfl
      (by decide) (by decide) (by decide)).2.1 (fun _ _ => (by decide : (77 : Int) ≠ -5))⟩

/-- C9: on the line `exit`, with one tracked identifier, 1234 in slot 0, `numPs = 1`, and
the local `i` of `cleanShell` starting from 1 (it is not initialised), the interpreter
exits with status 0 without any `kill`: the trace stays empty. -/
theorem C9_cleanShell_uninitialised_index :
    (dispatch { calmEnv 900 4321 with garbage_i := 1 } 8
        { initShell 0 stdFds 16 with
          argList := setSlot (fun _ => none) 0 (some "exit".toList), numArgs := 1,
          background_ps := setSlot (fun _ => -5) 0 1234, numPs := 1 }).map
        (fun o => (o.code, o.shell.trace, o.shell.background_ps 0))
      = some (some 0, [], 1234) := by
  rfl

theorem cleanLoop_succ (n i : Nat) (a : Nat → Option Tok) :
    cleanLoop (n + 1) i a =
      match a i with
      | none => some a
      | some _ => cleanLoop n (i + 1) (setSlot a i none) := rfl

theorem cleanLoop_below (n : Nat) :
    ∀ (i k : Nat) (a b : Nat → Option Tok), cleanLoop n i a = some b → k < i → b k = a k := by
  induction n with
  | zero => intro i k a b h _; cases h
  | succ n ih =>
    intro i k a b h hk
    rw [cleanLoop_succ] at h
    cases ha : a i with
    | none =>
      rw [ha] at h
      injection h with h
      rw [h]
    | some v =>
      rw [ha] at h
      rw [ih (i + 1) k _ b h (by omega)]
      have : k ≠ i := by omega
      simp [setSlot, this]

theorem cleanLoop_first_slot (n i : Nat) (a b : Nat → Option Tok)
    (h : cleanLoop n i a = some b) : b i = none := by
  cases n with
  | zero => cases h
  | succ n =>
    rw [cleanLoop_succ] at h
    cases ha : a i with
    | none =>
      rw [ha] at h
      injection h with h
      rw [← h]; exact ha
    | some v =>
      rw [ha] at h
      rw [cleanLoop_below n (i + 1) i _ b h (by omega)]
      simp [setSlot]

theorem cleanLoop_defined (n : Nat) :
    ∀ (i k : Nat) (a : Nat → Option Tok), i ≤ k → k < i + n → a k = none →
      ∃ b, cleanLoop n i a = some b := by
  induction n with
  | zero => intro i k a h1 h2 _; omega
  | succ n ih =>
    intro i k a h1 h2 hk
    rw [cleanLoop_succ]
    cases ha : a i with
    | none => exact ⟨a, rfl⟩
    | some v =>
      have hne : k ≠ i := by intro e; rw [e, ha] at hk; cases hk
      exact ih (i + 1) k _ (by omega) (by omega) (by simp [setSlot, hne, hk])

theorem cleanBuffer_zero {a b : Nat → Option Tok} (h : cleanBuffer a = some b) : b 0 = none :=
  cleanLoop_first_slot ARG_SIZE 0 a b h

theorem cleanBuffer_defined (a : Nat → Option Tok) (k : Nat) (hk : k < ARG_SIZE)
    (h : a k = none) : ∃ b, cleanBuffer a = some b :=
  cleanLoop_defined ARG_SIZE 0 k a (Nat.zero_le k) (by omega) h

theorem finish_shape {s t : Shell} (h : finish s = some t) :
    ∃ a, cleanBuffer (if s.background_msg = 1 then
          { say s ("background pid is ".toList ++ fmtInt s.spawnPid ++ ['\n']) with
            background_msg := 0 }
        else s).argList = some a ∧
      t = { (if s.background_msg = 1 then
              { say s ("background pid is ".toList ++ fmtInt s.spawnPid ++ ['\n']) with
                background_msg := 0 }
            else s) with
            argList := a, redirectErrFlag := 0, stdin_flag := 0, stdout_flag := 0 } := by
  unfold finish at h
  dsimp only at h
  split at h
  · cases h
  · rename_i a ha
    injection h with h
    exact ⟨a, ha, h.symm⟩

theorem finish_defined (s : Shell) (k : Nat) (hk : k < ARG_SIZE) (h : s.argList k = none) :
    ∃ t, finish s = some t := by
  have ha : (if s.background_msg = 1 then
      { say s ("background pid is ".toList ++ fmtInt s.spawnPid ++ ['\n']) with
        background_msg := 0 }
      else s).argList = s.argList := by
    split_ifs <;> rfl
  obtain ⟨b, hb⟩ := cleanBuffer_defined s.argList k hk h
  unfold finish
  dsimp only
  rw [ha, hb]
  exact ⟨_, rfl⟩

/-- Every iteration that goes on leaves slot 0 of `argList` null. -/
theorem finish_argList_zero {s t : Shell} (h : finish s = some t) : t.argList 0 = none := by
  obtain ⟨a, ha, rfl⟩ := finish_shape h
  exact cleanBuffer_zero ha

/-- A line of more than `ARG_SIZE` tokens: `getCommandLine` stores a token past the last
slot of `argList`, and neither it nor the iteration has a defined result. -/
theorem getCommandLine_past_array (input : List Char) (s : Shell)
    (h : ARG_SIZE < (strtokRuns (readLine input) []).length) :
    getCommandLine input s = none ∧
      ∀ (env : Env) (fuel : Nat), readAndDispatch env fuel input s = none := by
  have hg : getCommandLine input s = none := by
    unfold getCommandLine
    dsimp only
    rw [if_pos h]
  refine ⟨hg, fun env fuel => ?_⟩
  unfold readAndDispatch
  rw [hg]

/-- A comment line of 514 tokens (`#` and 513 times ` a`, 1027 characters, which `fgets`
reads whole) leaves the array: the iteration has no defined result. -/
theorem long_comment_line_past_array (env : Env) (fuel : Nat) (s : Shell) :
    readAndDispatch env fuel ('#' :: (List.replicate 513 [' ', 'a']).flatten) s = none :=
  (getCommandLine_past_array _ s (by decide)).2 env fuel

/-- When none of the `n` slots left from slot `i` is null, the loop of `cleanBuffer` reads
`argList[ARG_SIZE]` and has no defined result. -/
theorem cleanLoop_past_array (n : Nat) :
    ∀ (i : Nat) (a : Nat → Option Tok), (∀ k, i ≤ k → k < i + n → a k ≠ none) →
      cleanLoop n i a = none := by
  induction n with
  | zero => intro i a _; rfl
  | succ n ih =>
    intro i a h
    rw [cleanLoop_succ]
    cases ha : a i with
    | none => exact absurd ha (h i (Nat.le_refl i) (by omega))
    | some v =>
      show cleanLoop n (i + 1) (setSlot a i none) = none
      apply ih
      intro k h1 h2
      have hne : k ≠ i := by omega
      simp only [setSlot, hne, if_false]
      exact h k (by omega) (by omega)


/-! ## The redirection code -/

theorem Keeps.refl (s : Shell) : Keeps s s := ⟨rfl, fun _ => rfl, fun _ _ _ h => h⟩

theorem Keeps.trans {s t u : Shell} (h1 : Keeps s t) (h2 : Keeps t u) : Keeps s u where
  same := h2.same.trans h1.same
  whenFull := fun hf => by
    have e1 := h1.whenFull hf
    have hn : t.nofile = s.nofile := congrArg Kept.nofile h1.same
    have hf2 : Full t := by
      unfold Full at hf ⊢
      rw [e1, hn]; exact hf
    rw [h2.whenFull hf2, e1]
  fromTwo := fun m f hm h => h2.fromTwo m f hm (h1.fromTwo m f hm h)

theorem lowestFree_free {fds : Nat → Option OFile} {n k : Nat}
    (h : lowestFree fds n = some k) : fds k = none := by
  unfold lowestFree at h
  have := List.find?_some h
  simpa using this

theorem sys_open_cases (env : Env) (s : Shell) (p : Option Tok) (w : Bool) :
    sys_open env s p w = (s, -1) ∨
    ∃ k q, lowestFree s.fds s.nofile = some k ∧
      sys_open env s p w = ({ s with fds := setSlot s.fds k (some (OFile.path q w)) }, (k : Int)) := by
  unfold sys_open
  cases p with
  | none => exact Or.inl rfl
  | some q =>
    by_cases hq : env.openOK q w = true
    · cases hk : lowestFree s.fds s.nofile with
      | none => left; simp [hq, hk]
      | some k => right; exact ⟨k, q, rfl, by simp [hq, hk]⟩
    · left; simp [hq]

theorem lookupFd_neg_one (s : Shell) : lookupFd s (-1) = none := by
  simp [lookupFd]

theorem lookupFd_nat (s : Shell) (k : Nat) : lookupFd s (k : Int) = s.fds k := by
  simp [lookupFd]

theorem sys_close_neg_one (s : Shell) : sys_close s (-1) = s := by
  simp [sys_close, lookupFd_neg_one]

theorem kept_sys_close (s : Shell) (fd : Int) : kept (sys_close s fd) = kept s := by
  unfold sys_close; split <;> rfl

theorem kept_sys_dup2 (s : Shell) (fd : Int) (n : Nat) : kept (sys_dup2 s fd n).1 = kept s := by
  unfold sys_dup2; split <;> rfl

theorem kept_sys_open (env : Env) (s : Shell) (p : Option Tok) (w : Bool) :
    kept (sys_open env s p w).1 = kept s := by
  rcases sys_open_cases env s p w with h | ⟨k, q, _, h⟩
  · rw [h]
  · rw [h]; rfl

theorem kept_emit (s : Shell) (e : Event) : kept (emit s e) = kept s := rfl

theorem kept_say (s : Shell) (t : List Char) : kept (say s t) = kept s := rfl

theorem fds_sys_close (s : Shell) (fd : Int) (m : Nat) (h : (m : Int) ≠ fd) :
    (sys_close s fd).fds m = s.fds m := by
  unfold sys_close
  split
  · rfl
  · have : m ≠ fd.toNat := by
      intro e
      rename_i f hf
      unfold lookupFd at hf
      split at hf
      · cases hf
      · omega
    simp [setSlot, this]

theorem fds_sys_dup2 (s : Shell) (fd : Int) (n m : Nat) (h : m ≠ n) :
    (sys_dup2 s fd n).1.fds m = s.fds m := by
  unfold sys_dup2
  split
  · rfl
  · simp [setSlot, h]

theorem sys_open_full (env : Env) (s : Shell) (p : Option Tok) (w : Bool) (hf : Full s) :
    sys_open env s p w = (s, -1) := by
  rcases sys_open_cases env s p w with h | ⟨k, q, hk, _⟩
  · exact h
  · unfold Full at hf; rw [hf] at hk; cases hk

theorem sys_open_spec {env : Env} {s s1 : Shell} {p : Option Tok} {w : Bool} {fd : Int}
    (h : sys_open env s p w = (s1, fd)) :
    (fd = -1 ∧ s1 = s) ∨
    ∃ k : Nat, fd = (k : Int) ∧ lowestFree s.fds s.nofile = some k ∧
      s1.fds k ≠ none ∧ ∀ m, m ≠ k → s1.fds m = s.fds m := by
  rcases sys_open_cases env s p w with h1 | ⟨k, q, hk, h1⟩
  · rw [h1] at h; cases h; exact Or.inl ⟨rfl, rfl⟩
  · rw [h1] at h; cases h
    refine Or.inr ⟨k, rfl, hk, by simp [setSlot], fun m hm => by simp [setSlot, hm]⟩

theorem redirectOut_keeps (env : Env) (s : Shell) (i : Nat) : Keeps s (redirectOut env s i) := by
  refine ⟨?_, ?_, ?_⟩
  · simp only [redirectOut]
    rw [kept_sys_close]
    split_ifs
    · exact kept_sys_open env s _ _
    · exact (kept_sys_dup2 _ _ _).trans (kept_sys_open env s _ _)
    · exact (kept_sys_dup2 _ _ _).trans (kept_sys_open env s _ _)
  · intro hf
    simp only [redirectOut, sys_open_full env s _ _ hf, if_true, sys_close_neg_one]
    rfl
  · intro m f hm hfm
    simp only [redirectOut]
    obtain ⟨s1, fd, hr⟩ : ∃ s1 fd, sys_open env s (s.argList (i + 1)) true = (s1, fd) :=
      ⟨_, _, rfl⟩
    rw [hr]
    dsimp only
    rcases sys_open_spec hr with ⟨rfl, rfl⟩ | ⟨k, rfl, hk, _, hs1⟩
    · simp only [if_true, sys_close_neg_one]
      exact hfm
    · have hmk : m ≠ k := by
        intro e; rw [e, lowestFree_free hk] at hfm; cases hfm
      rw [fds_sys_close _ _ _ (by exact_mod_cast hmk)]
      have h1 : m ≠ 1 := by omega
      have hk1 : ¬ ((k : Int) = -1) := by omega
      have e1 : s1.fds m = some f := by rw [hs1 m hmk]; exact hfm
      have e2 : (sys_dup2 s1 (k : Int) 1).1.fds m = some f := by
        rw [fds_sys_dup2 _ _ _ _ h1]; exact e1
      simp only [hk1, if_false]
      split_ifs
      · exact e2
      · exact e2

theorem redirectIn_keeps (env : Env) (s : Shell) (i : Nat) : Keeps s (redirectIn env s i) := by
  refine ⟨?_, ?_, ?_⟩
  · simp only [redirectIn]
    rw [kept_sys_close]
    split_ifs
    · exact kept_sys_open env s _ _
    · exact (kept_sys_dup2 _ _ _).trans (kept_sys_open env s _ _)
    · exact (kept_sys_dup2 _ _ _).trans (kept_sys_open env s _ _)
  · intro hf
    simp only [redirectIn, sys_open_full env s _ _ hf, if_true, sys_close_neg_one]
    rfl
  · intro m f hm hfm
    simp only [redirectIn]
    obtain ⟨s1, fd, hr⟩ : ∃ s1 fd, sys_open env s (s.argList (i + 1)) false = (s1, fd) :=
      ⟨_, _, rfl⟩
    rw [hr]
    dsimp only
    rcases sys_open_spec hr with ⟨rfl, rfl⟩ | ⟨k, rfl, hk, _, hs1⟩
    · simp only [if_true, sys_close_neg_one]
      exact hfm
    · have hmk : m ≠ k := by
        intro e; rw [e, lowestFree_free hk] at hfm; cases hfm
      rw [fds_sys_close _ _ _ (by exact_mod_cast hmk)]
      have h1 : m ≠ 0 := by omega
      have hk1 : ¬ ((k : Int) = -1) := by omega
      have e1 : s1.fds m = some f := by rw [hs1 m hmk]; exact hfm
      have e2 : (sys_dup2 s1 (k : Int) 0).1.fds m = some f := by
        rw [fds_sys_dup2 _ _ _ _ h1]; exact e1
      simp only [hk1, if_false]
      split_ifs
      · exact e2
      · exact e2

theorem redirectStep_keeps (env : Env) (s : Shell) (i : Nat) :
    Keeps s (redirectStep env s i) := by
  unfold redirectStep
  split_ifs
  · exact redirectOut_keeps env s i
  · exact redirectIn_keeps env s i
  · exact Keeps.refl s

theorem redirectLoop_keeps (env : Env) (n : Nat) :
    ∀ s : Shell, Keeps s (redirectLoop env n s) := by
  induction n with
  | zero => intro s; exact Keeps.refl s
  | succ i ih =>
    intro s
    simp only [redirectLoop]
    split_ifs
    · exact redirectStep_keeps env s i
    · exact (redirectStep_keeps env s i).trans (ih _)

theorem sys_open_keeps_fd {env : Env} {s s1 : Shell} {p : Option Tok} {w : Bool} {fd : Int}
    (h : sys_open env s p w = (s1, fd)) {m : Nat} {f : OFile} (hfm : s.fds m = some f) :
    s1.fds m = some f ∧ (m : Int) ≠ fd := by
  rcases sys_open_spec h with ⟨rfl, rfl⟩ | ⟨k, rfl, hk, _, hs1⟩
  · exact ⟨hfm, by omega⟩
  · have hmk : m ≠ k := by
      intro e; rw [e, lowestFree_free hk] at hfm; cases hfm
    exact ⟨by rw [hs1 m hmk]; exact hfm, by exact_mod_cast hmk⟩

theorem redirectStdout_keeps (env : Env) (s : Shell) : Keeps s (redirectStdout env s).1 := by
  refine ⟨?_, ?_, ?_⟩
  · simp only [redirectStdout]
    split_ifs
    · exact kept_sys_open env s _ _
    · exact (kept_sys_dup2 _ _ _).trans (kept_sys_open env s _ _)
    · exact (kept_sys_close _ _).trans ((kept_sys_dup2 _ _ _).trans (kept_sys_open env s _ _))
  · intro hf
    simp only [redirectStdout, sys_open_full env s _ _ hf, if_true]
    rfl
  · intro m f hm hfm
    simp only [redirectStdout]
    obtain ⟨s1, fd, hr⟩ : ∃ s1 fd, sys_open env s (some devNull) true = (s1, fd) := ⟨_, _, rfl⟩
    rw [hr]
    dsimp only
    obtain ⟨e1, hne⟩ := sys_open_keeps_fd hr hfm
    have e2 : (sys_dup2 s1 fd 1).1.fds m = some f := by
      rw [fds_sys_dup2 _ _ _ _ (by omega)]; exact e1
    split_ifs
    · exact e1
    · exact e2
    · show (sys_close _ _).fds m = some f
      rw [fds_sys_close _ _ _ hne]; exact e2

theorem redirectStdin_keeps (env : Env) (s : Shell) : Keeps s (redirectStdin env s).1 := by
  refine ⟨?_, ?_, ?_⟩
  · simp only [redirectStdin]
    split_ifs
    · exact kept_sys_open env s _ _
    · exact (kept_sys_dup2 _ _ _).trans (kept_sys_open env s _ _)
    · exact (kept_sys_close _ _).trans ((kept_sys_dup2 _ _ _).trans (kept_sys_open env s _ _))
  · intro hf
    simp only [redirectStdin, sys_open_full env s _ _ hf, if_true]
    rfl
  · intro m f hm hfm
    simp only [redirectStdin]
    obtain ⟨s1, fd, hr⟩ : ∃ s1 fd, sys_open env s (some devNull) false = (s1, fd) := ⟨_, _, rfl⟩
    rw [hr]
    dsimp only
    obtain ⟨e1, hne⟩ := sys_open_keeps_fd hr hfm
    have e2 : (sys_dup2 s1 fd 0).1.fds m = some f := by
      rw [fds_sys_dup2 _ _ _ _ (by omega)]; exact e1
    split_ifs
    · exact e1
    · exact e2
    · show (sys_close _ _).fds m = some f
      rw [fds_sys_close _ _ _ hne]; exact e2

theorem redirectToNull_keeps (env : Env) (s : Shell) : Keeps s (redirectToNull env s).1 := by
  refine ⟨?_, ?_, ?_⟩
  · simp only [redirectToNull]
    have h2 : kept (sys_open env (sys_open env s (some devNull) true).1 (some devNull) false).1
        = kept s := (kept_sys_open _ _ _ _).trans (kept_sys_open env s _ _)
    split_ifs
    · exact h2
    · exact (kept_sys_dup2 _ _ _).trans h2
    · exact (kept_sys_dup2 _ _ _).trans ((kept_sys_dup2 _ _ _).trans h2)
    · exact (kept_sys_close _ _).trans ((kept_sys_close _ _).trans
        ((kept_sys_dup2 _ _ _).trans ((kept_sys_dup2 _ _ _).trans h2)))
  · intro hf
    simp only [redirectToNull, sys_open_full env s _ _ hf, true_or, if_true]
    rfl
  · intro m f hm hfm
    simp only [redirectToNull]
    obtain ⟨s1, fd1, hr1⟩ : ∃ s1 fd, sys_open env s (some devNull) true = (s1, fd) := ⟨_, _, rfl⟩
    rw [hr1]
    dsimp only
    obtain ⟨s2, fd2, hr2⟩ : ∃ s2 fd, sys_open env s1 (some devNull) false = (s2, fd) :=
      ⟨_, _, rfl⟩
    rw [hr2]
    dsimp only
    obtain ⟨e1, hne1⟩ := sys_open_keeps_fd hr1 hfm
    obtain ⟨e2, hne2⟩ := sys_open_keeps_fd hr2 e1
    have e3 : (sys_dup2 s2 fd2 0).1.fds m = some f := by
      rw [fds_sys_dup2 _ _ _ _ (by omega)]; exact e2
    have e4 : (sys_dup2 (sys_dup2 s2 fd2 0).1 fd1 1).1.fds m = some f := by
      rw [fds_sys_dup2 _ _ _ _ (by omega)]; exact e3
    split_ifs
    · exact e2
    · exact e3
    · exact e4
    · show (sys_close (sys_close _ _) _).fds m = some f
      rw [fds_sys_close _ _ _ hne2, fds_sys_close _ _ _ hne1]; exact e4

theorem noteResult_keeps {s : Shell} {r : Shell × Int} (h : Keeps s r.1) :
    Keeps s (noteResult r) := by
  unfold noteResult
  split_ifs
  · exact ⟨h.same, h.whenFull, h.fromTwo⟩
  · exact h

theorem nullRedirect_keeps (env : Env) (s : Shell) : Keeps s (nullRedirect env s) := by
  unfold nullRedirect
  split_ifs
  · exact noteResult_keeps (redirectToNull_keeps env s)
  · exact noteResult_keeps (redirectStdout_keeps env s)
  · exact noteResult_keeps (redirectStdin_keeps env s)
  · exact Keeps.refl s
  · exact Keeps.refl s

/-! ## The standard descriptors across an external command -/

theorem Restorable.congr {f0 f1 : OFile} {t x : Shell} (h : Restorable f0 f1 t)
    (hfds : x.fds = t.fds) (hin : x.saved_stdin = t.saved_stdin)
    (hout : x.saved_stdout = t.saved_stdout) (hn : x.nofile = t.nofile) :
    Restorable f0 f1 x := by
  unfold Restorable Full lookupFd at *
  rw [hfds, hin, hout, hn]
  exact h

theorem Restorable.keeps {f0 f1 : OFile} {s t : Shell} (h : Restorable f0 f1 s)
    (hk : Keeps s t) : Restorable f0 f1 t := by
  have hin : t.saved_stdin = s.saved_stdin := congrArg Kept.saved_stdin hk.same
  have hout : t.saved_stdout = s.saved_stdout := congrArg Kept.saved_stdout hk.same
  have hn : t.nofile = s.nofile := congrArg Kept.nofile hk.same
  rcases h with ⟨a, b, ha, hb, hsa, hsb, hfa, hfb⟩ | ⟨hfull, hrest⟩
  · exact Or.inl ⟨a, b, ha, hb, hin.trans hsa, hout.trans hsb, hk.fromTwo a f0 ha hfa,
      hk.fromTwo b f1 hb hfb⟩
  · exact Restorable.congr (Or.inr ⟨hfull, hrest⟩) (hk.whenFull hfull) hin hout hn

theorem fds_sys_dup2_same {s : Shell} {fd : Int} {f : OFile} (n : Nat)
    (h : lookupFd s fd = some f) : (sys_dup2 s fd n).1.fds n = some f := by
  unfold sys_dup2
  rw [h]
  simp [setSlot]

theorem fds_sys_dup2_idle {s : Shell} {fd : Int} (n : Nat)
    (h : lookupFd s fd = none ∨ lookupFd s fd = s.fds n) : (sys_dup2 s fd n).1.fds = s.fds := by
  unfold sys_dup2
  rcases h with h | h
  · rw [h]
  · cases hl : lookupFd s fd with
    | none => rfl
    | some f =>
      funext m
      by_cases hm : m = n
      · subst hm; simp [setSlot, ← h, hl]
      · simp [setSlot, hm]

theorem lookupFd_congr {s t : Shell} (h : t.fds = s.fds) (fd : Int) :
    lookupFd t fd = lookupFd s fd := by
  unfold lookupFd; rw [h]

theorem restoreStd_restores {f0 f1 : OFile} {t : Shell} (h : Restorable f0 f1 t) :
    (restoreStd t).fds 0 = some f0 ∧ (restoreStd t).fds 1 = some f1 := by
  unfold restoreStd
  rcases h with ⟨a, b, ha, hb, hsa, hsb, hfa, hfb⟩ | ⟨_, h0, h1, hin, hout⟩
  · rw [hsa, hsb]
    have e0 : (sys_dup2 t (a : Int) 0).1.fds 0 = some f0 :=
      fds_sys_dup2_same 0 (by rw [lookupFd_nat]; exact hfa)
    have eb : lookupFd (sys_dup2 t (a : Int) 0).1 (b : Int) = some f1 := by
      rw [lookupFd_nat, fds_sys_dup2 _ _ _ _ (by omega)]; exact hfb
    exact ⟨by rw [fds_sys_dup2 _ _ _ _ (by omega)]; exact e0, fds_sys_dup2_same 1 eb⟩
  · have e1 : (sys_dup2 t t.saved_stdin 0).1.fds = t.fds :=
      fds_sys_dup2_idle 0 (by rw [h0]; exact hin)
    have e2 : (sys_dup2 (sys_dup2 t t.saved_stdin 0).1 t.saved_stdout 1).1.fds = t.fds := by
      rw [fds_sys_dup2_idle 1 (by rw [lookupFd_congr e1, e1, h1]; exact hout), e1]
    rw [e2]
    exact ⟨h0, h1⟩

theorem full_no_open {s : Shell} {k : Nat} (hf : Full s)
    (hk : lowestFree s.fds s.nofile = some k) : False := by
  unfold Full at hf; rw [hf] at hk; cases hk

theorem sys_dup_spec {s : Shell} {fd : Int} {f : OFile} (h : lookupFd s fd = some f) :
    (sys_dup s fd = (s, -1) ∧ Full s) ∨
    ∃ k, lowestFree s.fds s.nofile = some k ∧
      sys_dup s fd = ({ s with fds := setSlot s.fds k (some f) }, (k : Int)) := by
  unfold sys_dup Full
  rw [h]
  cases hk : lowestFree s.fds s.nofile with
  | none => exact Or.inl ⟨rfl, rfl⟩
  | some k => exact Or.inr ⟨k, rfl, rfl⟩

theorem saveStd_restorable {f0 f1 : OFile} {s : Shell} (h0 : s.fds 0 = some f0)
    (h1 : s.fds 1 = some f1) : Restorable f0 f1 (saveStd s) := by
  unfold saveStd
  have l1 : lookupFd s 1 = some f1 := by rw [← h1]; exact lookupFd_nat s 1
  have l0 : lookupFd s 0 = some f0 := by rw [← h0]; exact lookupFd_nat s 0
  rcases sys_dup_spec l1 with ⟨e1, hF⟩ | ⟨k1, hk1, e1⟩
  · rw [e1]
    dsimp only
    rcases sys_dup_spec l0 with ⟨e2, _⟩ | ⟨k2, hk2, _⟩
    · rw [e2]
      exact Or.inr ⟨hF, h0, h1, Or.inl (lookupFd_neg_one _), Or.inl (lookupFd_neg_one _)⟩
    · exact (full_no_open hF hk2).elim
  · rw [e1]
    dsimp only
    have hf1 := lowestFree_free hk1
    have k10 : k1 ≠ 0 := by intro e; rw [e, h0] at hf1; cases hf1
    have k11 : k1 ≠ 1 := by intro e; rw [e, h1] at hf1; cases hf1
    have l0a : lookupFd { s with fds := setSlot s.fds k1 (some f1) } 0 = some f0 := by
      show lookupFd _ ((0 : Nat) : Int) = _
      rw [lookupFd_nat]
      simp [setSlot, Ne.symm k10, h0]
    rcases sys_dup_spec l0a with ⟨e2, hF2⟩ | ⟨k2, hk2, e2⟩
    · rw [e2]
      refine Or.inr ⟨hF2, ?_, ?_, Or.inl (lookupFd_neg_one _), Or.inr ?_⟩
      · simp [setSlot, Ne.symm k10, h0]
      · simp [setSlot, Ne.symm k11, h1]
      · rw [lookupFd_nat]; simp [setSlot]
    · rw [e2]
      have hf2 := lowestFree_free hk2
      have k21 : k2 ≠ k1 := by intro e; rw [e] at hf2; simp [setSlot] at hf2
      have k20 : k2 ≠ 0 := by
        intro e; rw [e] at hf2; simp [setSlot, Ne.symm k10, h0] at hf2
      have k2n1 : k2 ≠ 1 := by
        intro e; rw [e] at hf2; simp [setSlot, Ne.symm k11, h1] at hf2
      refine Or.inl ⟨k2, k1, by omega, by omega, rfl, rfl, ?_, ?_⟩
      · simp [setSlot]
      · simp [setSlot, Ne.symm k21]

theorem bgDetect_frame {s t : Shell} (h : bgDetect s = some t) :
    t.fds = s.fds ∧ t.saved_stdin = s.saved_stdin ∧ t.saved_stdout = s.saved_stdout ∧
      t.nofile = s.nofile := by
  unfold bgDetect at h
  dsimp only at h
  by_cases hn : s.numArgs - 1 < 0
  · rw [if_pos hn] at h; cases h
  · rw [if_neg hn] at h
    cases ha : s.argList (s.numArgs - 1).toNat with
    | none => rw [ha] at h; cases h
    | some last =>
      rw [ha] at h
      dsimp only at h
      by_cases hl : last = ['&']
      · rw [if_pos hl] at h
        injection h with h
        subst h
        by_cases ht : s.TSTP_FLAG ≠ 1
        · rw [if_pos ht]; exact ⟨rfl, rfl, rfl, rfl⟩
        · rw [if_neg ht]; exact ⟨rfl, rfl, rfl, rfl⟩
      · rw [if_neg hl] at h
        injection h with h
        subst h
        exact ⟨rfl, rfl, rfl, rfl⟩

theorem insertLoop_frame (n : Nat) :
    ∀ (i : Nat) (s : Shell), (insertLoop n i s).1.fds = s.fds ∧
      (insertLoop n i s).1.saved_stdin = s.saved_stdin ∧
      (insertLoop n i s).1.saved_stdout = s.saved_stdout ∧
      (insertLoop n i s).1.nofile = s.nofile := by
  induction n with
  | zero => intro i s; exact ⟨rfl, rfl, rfl, rfl⟩
  | succ n ih =>
    intro i s
    simp only [insertLoop]
    split_ifs
    · exact ⟨rfl, rfl, rfl, rfl⟩
    · exact ⟨rfl, rfl, rfl, rfl⟩
    · exact ih (i + 1) s

theorem launch_loop_restores {env : Env} {t u : Shell} (h : launch env t = Outcome.loop u) :
    ∃ x, u = restoreStd x ∧ x.fds = t.fds ∧ x.saved_stdin = t.saved_stdin ∧
      x.saved_stdout = t.saved_stdout ∧ x.nofile = t.nofile := by
  unfold launch at h
  dsimp only at h
  split_ifs at h <;> cases h
  all_goals
    first
    | exact ⟨_, rfl, rfl, rfl, rfl, rfl⟩
    | exact ⟨_, rfl, (insertLoop_frame _ _ _).1, (insertLoop_frame _ _ _).2.1,
        (insertLoop_frame _ _ _).2.2.1, (insertLoop_frame _ _ _).2.2.2⟩

/-- C10: when descriptors 0 and 1 are open before an external command and the loop goes on
after it (launch in the foreground or in the background, or the redirection-failure path),
they are bound afterwards to the same open files as before, whatever was rebound to files
or to the null device in between and whether or not `dup` could save copies. -/
theorem C10_std_descriptors_restored (env : Env) (s u : Shell) (f0 f1 : OFile)
    (h0 : s.fds 0 = some f0) (h1 : s.fds 1 = some f1)
    (hloop : external env s = some (Outcome.loop u)) :
    u.fds 0 = some f0 ∧ u.fds 1 = some f1 := by
  unfold external at hloop
  cases hb : bgDetect (saveStd s) with
  | none => rw [hb] at hloop; cases hloop
  | some s1 =>
    rw [hb] at hloop
    simp only [Option.some.injEq] at hloop
    obtain ⟨e1, e2, e3, e4⟩ := bgDetect_frame hb
    have r1 : Restorable f0 f1 s1 := (saveStd_restorable h0 h1).congr e1 e2 e3 e4
    have r2 : Restorable f0 f1 (nullRedirect env (redirectLoop env s1.numArgs.toNat s1)) :=
      (r1.keeps (redirectLoop_keeps env s1.numArgs.toNat s1)).keeps (nullRedirect_keeps env _)
    obtain ⟨x, rfl, x1, x2, x3, x4⟩ := launch_loop_restores hloop
    exact restoreStd_restores (r2.congr x1 x2 x3 x4)

theorem C10_std_descriptors_restored_witness :
    (∃ u, external (calmEnv 900 4321)
          (lineState ["ls".toList, ">".toList, "out".toList, "&".toList] 16)
        = some (Outcome.loop u) ∧
      u.fds 0 = some (OFile.inherited 0) ∧ u.fds 1 = some (OFile.inherited 1)) ∧
    (∃ u, external (calmEnv 900 4321)
          (lineState ["sort".toList, "<".toList, "in".toList] 4)
        = some (Outcome.loop u) ∧
      u.fds 0 = some (OFile.inherited 0) ∧ u.fds 1 = some (OFile.inherited 1)) :=
  ⟨⟨_, rfl, C10_std_descriptors_restored (calmEnv 900 4321)
      (lineState ["ls".toList, ">".toList, "out".toList, "&".toList] 16) _
      (OFile.inherited 0) (OFile.inherited 1) rfl rfl rfl⟩,
   ⟨_, rfl, C10_std_descriptors_restored (calmEnv 900 4321)
      (lineState ["sort".toList, "<".toList, "in".toList] 4) _
      (OFile.inherited 0) (OFile.inherited 1) rfl rfl rfl⟩⟩


/-! ## The background flag -/

theorem saveStd_frame (s : Shell) :
    (saveStd s).argList = s.argList ∧ (saveStd s).numArgs = s.numArgs ∧
      (saveStd s).TSTP_FLAG = s.TSTP_FLAG ∧ (saveStd s).background_ps = s.background_ps ∧
      (saveStd s).trace = s.trace := by
  unfold saveStd sys_dup
  dsimp only
  split <;> split <;> (try split) <;> (try split) <;> exact ⟨rfl, rfl, rfl, rfl, rfl⟩

theorem restoreStd_frame (s : Shell) :
    (restoreStd s).trace = s.trace ∧ (restoreStd s).background_flag = s.background_flag := by
  unfold restoreStd sys_dup2
  split <;> split <;> exact ⟨rfl, rfl⟩

theorem insertLoop_background_flag (n : Nat) :
    ∀ (i : Nat) (s : Shell), (insertLoop n i s).1.background_flag = s.background_flag := by
  induction n with
  | zero => intro i s; rfl
  | succ n ih =>
    intro i s
    simp only [insertLoop]
    split_ifs
    · rfl
    · rfl
    · exact ih (i + 1) s

theorem launch_background_flag (env : Env) (t : Shell) :
    (launch env t).shell.background_flag = t.background_flag := by
  unfold launch
  dsimp only
  by_cases he : t.redirectErrFlag = 0
  · rw [if_pos he]
    by_cases hf1 : env.forkResult = -1
    · simp only [emit, hf1, if_true]; rfl
    · by_cases hf0 : env.forkResult = 0
      · simp only [emit, hf0, if_true]
        split_ifs <;> rfl
      · by_cases hbg : t.background_flag = 0
        · simp only [emit, hf1, hf0, hbg, if_true, if_false, Outcome.shell]
          exact (restoreStd_frame _).2
        · simp only [emit, hf1, hf0, hbg, if_false]
          split_ifs
          · exact insertLoop_background_flag _ _ _
          · exact (restoreStd_frame _).2.trans (insertLoop_background_flag _ _ _)
  · rw [if_neg he]
    by_cases hf1 : env.forkResult = -1
    · simp only [emit, hf1, if_true]; rfl
    · by_cases hf0 : env.forkResult = 0
      · simp only [emit, hf0, if_true]; rfl
      · simp only [emit, hf1, hf0, if_false, Outcome.shell]
        exact (restoreStd_frame _).2

theorem Keeps.background_flag_eq {s t : Shell} (h : Keeps s t) :
    t.background_flag = s.background_flag := congrArg Kept.background_flag h.same

theorem Keeps.background_ps_eq {s t : Shell} (h : Keeps s t) :
    t.background_ps = s.background_ps := congrArg Kept.background_ps h.same

theorem launch_foreground (env : Env) (t : Shell) (hbg : t.background_flag = 0)
    (hf1 : env.forkResult ≠ -1) (hf0 : env.forkResult ≠ 0) :
    ∃ u, launch env t = Outcome.loop u ∧
      u.trace = t.trace ++ [Event.fork env.forkResult, Event.waitpid env.forkResult true] ∧
      u.background_ps = t.background_ps := by
  unfold launch
  dsimp only
  by_cases he : t.redirectErrFlag = 0
  · simp only [he, if_true, emit, hf1, hf0, if_false, hbg]
    exact ⟨_, rfl, by rw [(restoreStd_frame _).1]; simp, by rw [restoreStd_background_ps]⟩
  · simp only [he, if_false, emit, hf1, hf0]
    exact ⟨_, rfl, by rw [(restoreStd_frame _).1]; simp, by rw [restoreStd_background_ps]⟩

/-- C5: for an external command with `numArgs >= 1` whose last token is `last`: the
background flag is 1 after lines 346-364, and still when the command has been dealt with,
exactly when `last` is `&` and `TSTP_FLAG` is not 1; when `last` is `&`, its slot is set to
null and `numArgs` is decremented, whatever `TSTP_FLAG` is, and otherwise neither changes;
and when `TSTP_FLAG` is 1 and `fork` returns a child, the loop goes on after a blocking
`waitpid` on that child, which is the last thing done, with the job table unchanged. -/
theorem C5_background_flag (env : Env) (s : Shell) (last : Tok) (hn : 1 ≤ s.numArgs)
    (hlast : s.argList (s.numArgs - 1).toNat = some last) :
    ∃ s1, bgDetect (saveStd s) = some s1 ∧
      (s1.background_flag = 1 ↔ (last = ['&'] ∧ s.TSTP_FLAG ≠ 1)) ∧
      (last = ['&'] →
        s1.argList (s.numArgs - 1).toNat = none ∧ s1.numArgs = s.numArgs - 1) ∧
      (last ≠ ['&'] → s1.argList = s.argList ∧ s1.numArgs = s.numArgs) ∧
      (∃ o, external env s = some o ∧ o.shell.background_flag = s1.background_flag) ∧
      (s.TSTP_FLAG = 1 → env.forkResult ≠ -1 → env.forkResult ≠ 0 →
        ∃ u tr, external env s = some (Outcome.loop u) ∧
          u.trace = tr ++ [Event.fork env.forkResult, Event.waitpid env.forkResult true] ∧
          u.background_ps = s.background_ps) := by
  obtain ⟨ha, hna, ht, hps, _⟩ := saveStd_frame s
  have hn' : ¬ ((saveStd s).numArgs - 1 < 0) := by rw [hna]; omega
  have hlast' : (saveStd s).argList ((saveStd s).numArgs - 1).toNat = some last := by
    rw [ha, hna]; exact hlast
  have hdet : ∃ s1, bgDetect (saveStd s) = some s1 ∧
      (s1.background_flag = 1 ↔ (last = ['&'] ∧ s.TSTP_FLAG ≠ 1)) ∧
      (last = ['&'] →
        s1.argList (s.numArgs - 1).toNat = none ∧ s1.numArgs = s.numArgs - 1) ∧
      (last ≠ ['&'] → s1.argList = s.argList ∧ s1.numArgs = s.numArgs) ∧
      s1.background_ps = s.background_ps ∧ (s.TSTP_FLAG = 1 → s1.background_flag = 0) := by
    unfold bgDetect
    dsimp only
    rw [if_neg hn', hlast']
    dsimp only
    by_cases hl : last = ['&']
    · rw [if_pos hl]
      by_cases hT : (saveStd s).TSTP_FLAG ≠ 1
      · rw [if_pos hT]
        refine ⟨_, rfl, ?_, ?_, ?_, hps, ?_⟩
        · simp [hl, ← ht, hT]
        · intro _; rw [hna]; simp [setSlot]
        · intro h; exact absurd hl h
        · intro h; rw [ht] at hT; exact absurd h hT
      · rw [if_neg hT]
        refine ⟨_, rfl, ?_, ?_, ?_, hps, ?_⟩
        · rw [ht] at hT; simp [hl, hT]
        · intro _; rw [hna]; simp [setSlot]
        · intro h; exact absurd hl h
        · intro _; rfl
    · rw [if_neg hl]
      refine ⟨_, rfl, ?_, ?_, ?_, hps, ?_⟩
      · simp [hl]
      · intro h; exact absurd h hl
      · intro _; exact ⟨ha, hna⟩
      · intro _; rfl
  obtain ⟨s1, hb, h1, h2, h3, h4, h5⟩ := hdet
  have hk : Keeps s1 (nullRedirect env (redirectLoop env s1.numArgs.toNat s1)) :=
    (redirectLoop_keeps env s1.numArgs.toNat s1).trans (nullRedirect_keeps env _)
  have hext : external env s
      = some (launch env (nullRedirect env (redirectLoop env s1.numArgs.toNat s1))) := by
    unfold external; rw [hb]
  refine ⟨s1, hb, h1, h2, h3, ⟨_, hext, ?_⟩, ?_⟩
  · rw [launch_background_flag]
    exact hk.background_flag_eq
  · intro hT hf1 hf0
    have hbg : (nullRedirect env (redirectLoop env s1.numArgs.toNat s1)).background_flag = 0 :=
      hk.background_flag_eq.trans (h5 hT)
    obtain ⟨u, hu, htr, hbps⟩ := launch_foreground env _ hbg hf1 hf0
    refine ⟨u, _, by rw [hext, hu], htr, ?_⟩
    rw [hbps, hk.background_ps_eq, h4]

theorem C5_background_flag_witness :
    (∃ s1, bgDetect (saveStd { lineState ["sleep".toList, "5".toList, "&".toList] 16 with
          TSTP_FLAG := 1 }) = some s1 ∧
        ¬ s1.background_flag = 1 ∧ s1.argList 2 = none ∧ s1.numArgs = 2) ∧
    (∃ u tr, external (calmEnv 900 4321)
          { lineState ["sleep".toList, "5".toList, "&".toList] 16 with TSTP_FLAG := 1 }
        = some (Outcome.loop u) ∧
      u.trace = tr ++ [Event.fork 4321, Event.waitpid 4321 true] ∧
      u.background_ps = fun _ => -5) := by
  obtain ⟨s1, hb, h1, h2, _, _, h5⟩ := C5_background_flag (calmEnv 900 4321)
    { lineState ["sleep".toList, "5".toList, "&".toList] 16 with TSTP_FLAG := 1 } ['&']
    (by decide) rfl
  exact ⟨⟨s1, hb, fun h => (h1.mp h).2 rfl, (h2 rfl).1, (h2 rfl).2⟩,
    h5 rfl (by decide) (by decide)⟩

/-! ## The reaping pass -/

theorem printed_append (a b : List Event) : printed (a ++ b) = printed a ++ printed b := by
  induction a with
  | nil => rfl
  | cons e a ih =>
    cases e <;> simp [printed, ih]

theorem trackedFrom_congr (bg bg1 : Nat → Int) (n : Nat) :
    ∀ i, (∀ j, i ≤ j → j < i + n → bg1 j = bg j) → trackedFrom bg1 n i = trackedFrom bg n i := by
  induction n with
  | zero => intro i _; rfl
  | succ n ih =>
    intro i h
    simp only [trackedFrom]
    rw [h i (le_refl i) (by omega), ih (i + 1) (fun j h1 h2 => h j (by omega) (by omega))]

theorem reapMessage_names (pid st : Int) : NamesPid pid (reapMessage pid st) := by
  unfold reapMessage NamesPid
  split_ifs
  · exact ⟨"terminated by ".toList ++ fmtInt (WTERMSIG st) ++ ['\n'], by simp⟩
  · exact ⟨"exit value ".toList ++ fmtInt (WEXITSTATUS st) ++ ['\n'], by simp⟩

theorem reapLoop_all_done (env : Env) (n : Nat) :
    ∀ (i : Nat) (s : Shell),
      (∀ j, i ≤ j → j < i + n → s.background_ps j ≠ -5 →
        (env.poll j (s.background_ps j)).1 ≠ 0) →
      ∃ msgs, printed (reapLoop env n i s).trace = printed s.trace ++ msgs ∧
        List.Forall₂ NamesPid (trackedFrom s.background_ps n i) msgs ∧
        (∀ j, (reapLoop env n i s).background_ps j
          = if i ≤ j ∧ j < i + n then -5 else s.background_ps j) ∧
        (reapLoop env n i s).numPs = s.numPs - (trackedFrom s.background_ps n i).length := by
  induction n with
  | zero =>
    intro i s _
    refine ⟨[], by simp [reapLoop], by simp [trackedFrom], ?_, by simp [reapLoop, trackedFrom]⟩
    intro j
    have : ¬ (i ≤ j ∧ j < i + 0) := by omega
    simp only [reapLoop]
    rw [if_neg this]
  | succ n ih =>
    intro i s hdone
    simp only [reapLoop]
    by_cases hi : s.background_ps i = -5
    · have hstep : reapStep env s i = s := by simp [reapStep, hi]
      rw [hstep]
      obtain ⟨msgs, h1, h2, h3, h4⟩ :=
        ih (i + 1) s (fun j a b => hdone j (by omega) (by omega))
      refine ⟨msgs, h1, by simpa [trackedFrom, hi] using h2, ?_, by simpa [trackedFrom, hi] using h4⟩
      intro j
      rw [h3 j]
      by_cases hj : j = i
      · subst hj
        have : ¬ (j + 1 ≤ j ∧ j < j + 1 + n) := by omega
        simp [this, hi]
      · have : (i + 1 ≤ j ∧ j < i + 1 + n) ↔ (i ≤ j ∧ j < i + (n + 1)) := by omega
        simp [this]
    · have hp : (env.poll i (s.background_ps i)).1 ≠ 0 :=
        hdone i (le_refl i) (by omega) hi
      obtain ⟨st, hstep⟩ : ∃ st, reapStep env s i =
          { say { emit s (Event.waitpid (s.background_ps i) false) with BACK_STATUS := st }
              (reapMessage (s.background_ps i) st) with
            background_ps := setSlot s.background_ps i (-5)
            numPs := s.numPs - 1 } := by
        refine ⟨((env.poll i (s.background_ps i)).2).getD s.BACK_STATUS, ?_⟩
        simp only [reapStep, hi, hp, ne_eq, not_false_eq_true, if_true]
        rfl
      rw [hstep]
      have hbg : ∀ j, i + 1 ≤ j → setSlot s.background_ps i (-5) j = s.background_ps j := by
        intro j hj
        have : j ≠ i := by omega
        simp [setSlot, this]
      obtain ⟨msgs, h1, h2, h3, h4⟩ := ih (i + 1)
        { say { emit s (Event.waitpid (s.background_ps i) false) with BACK_STATUS := st }
            (reapMessage (s.background_ps i) st) with
          background_ps := setSlot s.background_ps i (-5)
          numPs := s.numPs - 1 }
        (fun j a b => by
          show setSlot s.background_ps i (-5) j ≠ -5 →
            (env.poll j (setSlot s.background_ps i (-5) j)).1 ≠ 0
          rw [hbg j a]
          exact hdone j (by omega) (by omega))
      have hcongr : trackedFrom (setSlot s.background_ps i (-5)) n (i + 1)
          = trackedFrom s.background_ps n (i + 1) :=
        trackedFrom_congr _ _ n (i + 1) (fun j a _ => hbg j a)
      refine ⟨reapMessage (s.background_ps i) st :: msgs, ?_, ?_, ?_, ?_⟩
      · rw [h1]
        simp [say, emit, printed_append, printed]
      · simp only [trackedFrom, hi, ne_eq, not_false_eq_true, if_true]
        refine List.Forall₂.cons (reapMessage_names _ _) ?_
        rw [← hcongr]; exact h2
      · intro j
        rw [h3 j]
        by_cases hj : j = i
        · subst hj
          have a1 : ¬ (j + 1 ≤ j ∧ j < j + 1 + n) := by omega
          have a2 : j ≤ j ∧ j < j + (n + 1) := by omega
          rw [if_neg a1, if_pos a2]
          simp [setSlot]
        · have a1 : (i + 1 ≤ j ∧ j < i + 1 + n) ↔ (i ≤ j ∧ j < i + (n + 1)) := by omega
          simp only [a1]
          split_ifs
          · rfl
          · simp [setSlot, hj]
      · rw [h4]
        simp only [trackedFrom, hi, ne_eq, not_false_eq_true, if_true, List.length_cons]
        rw [hcongr]
        push_cast
        ring

/-- C7: when the non-blocking poll of every tracked identifier reports completion (a
return value other than 0), one reaping pass prints one completion message per occupied
slot, in slot order and each naming the identifier of its slot, so as many messages as the
table has occupied slots; it leaves every one of the `MAX_PS` slots equal to -5 and
decrements `numPs` once per message. -/
theorem C7_reap_all_done (env : Env) (s : Shell)
    (hdone : ∀ j, j < MAX_PS → s.background_ps j ≠ -5 →
      (env.poll j (s.background_ps j)).1 ≠ 0) :
    ∃ msgs, printed (reapPass env s).trace = printed s.trace ++ msgs ∧
      List.Forall₂ NamesPid (tracked s) msgs ∧
      msgs.length = (tracked s).length ∧
      (∀ j, j < MAX_PS → (reapPass env s).background_ps j = -5) ∧
      (reapPass env s).numPs = s.numPs - (tracked s).length := by
  obtain ⟨msgs, h1, h2, h3, h4⟩ :=
    reapLoop_all_done env MAX_PS 0 s (fun j _ b => hdone j (by omega))
  refine ⟨msgs, h1, h2, h2.length_eq.symm, ?_, h4⟩
  intro j hj
  have h := h3 j
  have a : 0 ≤ j ∧ j < 0 + MAX_PS := by omega
  rw [if_pos a] at h
  exact h

theorem C7_reap_all_done_witness :
    ∃ msgs, printed (reapPass (calmEnv 900 4321)
        { initShell 0 stdFds 16 with
          background_ps := setSlot (setSlot (fun _ => -5) 0 111) 3 222, numPs := 2 }).trace
        = printed [] ++ msgs ∧
      List.Forall₂ NamesPid [111, 222] msgs ∧
      msgs.length = 2 ∧
      (∀ j, j < MAX_PS → (reapPass (calmEnv 900 4321)
        { initShell 0 stdFds 16 with
          background_ps := setSlot (setSlot (fun _ => -5) 0 111) 3 222, numPs := 2 }).background_ps j
          = -5) ∧
      (reapPass (calmEnv 900 4321)
        { initShell 0 stdFds 16 with
          background_ps := setSlot (setSlot (fun _ => -5) 0 111) 3 222, numPs := 2 }).numPs
        = 2 - (2 : Nat) :=
  C7_reap_all_done (calmEnv 900 4321)
    { initShell 0 stdFds 16 with
      background_ps := setSlot (setSlot (fun _ => -5) 0 111) 3 222, numPs := 2 }
    (fun j _ _ => by
      show setSlot (setSlot (fun _ => (-5 : Int)) 0 111) 3 222 j ≠ 0
      unfold setSlot
      split_ifs
      · decide
      · decide
      · exact (by decide : (-5 : Int) ≠ 0))

/-! ## `expandProcessID` on a marker pair -/

theorem cstr_padded (t : List Char) (h : NUL ∉ t) (m : Nat) :
    cstr (t ++ List.replicate m NUL) = t := by
  cases m with
  | zero =>
    simp only [List.replicate, List.append_nil, cstr]
    rw [List.takeWhile_eq_self_iff]
    intro c hc
    have : c ≠ NUL := fun e => h (e ▸ hc)
    simpa using this
  | succ m => exact cstr_append_nul t h _

theorem strlen_padded (t : List Char) (h : NUL ∉ t) (m : Nat) (hm : 0 < m) :
    strlen (t ++ List.replicate m NUL) = some t.length := by
  unfold strlen
  rw [cstr_padded t h m]
  simp [hm]

theorem copyLoop_succ (fuel : Nat) (tok fin : Block) (k argChar : Nat) :
    copyLoop (fuel + 1) tok fin k argChar =
      match tok[argChar]? with
      | none => none
      | some c =>
        if c = NUL then some fin
        else
          match fin[k]? with
          | none => none
          | some d =>
            if d ≠ NUL then copyLoop fuel tok fin (k + 1) argChar
            else copyLoop fuel tok (fin.set k c) (k + 1) (argChar + 1) := rfl

theorem copyLoop_walk (tok : Block) (a : Nat) (c : Char) (hc : tok[a]? = some c)
    (hcn : c ≠ NUL) (B Z : Block) (hB : NUL ∉ B) :
    ∀ (d k fuel : Nat), k + d = B.length →
      copyLoop (fuel + d) tok (B ++ Z) k a = copyLoop fuel tok (B ++ Z) B.length a := by
  intro d
  induction d with
  | zero => intro k fuel h; simp only [Nat.add_zero] at h ⊢; rw [h]
  | succ d ih =>
    intro k fuel h
    have hk : k < B.length := by omega
    have hget : (B ++ Z)[k]? = some (B[k]) := by
      rw [List.getElem?_append_left hk]; exact List.getElem?_eq_getElem hk
    have hne : B[k] ≠ NUL := fun e => hB (e ▸ List.getElem_mem hk)
    rw [show fuel + (d + 1) = (fuel + d) + 1 from rfl, copyLoop_succ, hc]
    simp only [hcn, if_false, hget, hne, ne_eq, not_false_eq_true, if_true]
    exact ih (k + 1) fuel (by omega)

theorem copyLoop_copy (tok : Block) :
    ∀ (rest : List Char) (T B : Block) (m fuel : Nat), tok = T ++ (rest ++ [NUL]) →
      NUL ∉ rest → rest.length ≤ m → rest.length < fuel →
      copyLoop fuel tok (B ++ List.replicate m NUL) B.length T.length
        = some (B ++ rest ++ List.replicate (m - rest.length) NUL) := by
  intro rest
  induction rest with
  | nil =>
    intro T B m fuel ht _ _ hf
    obtain ⟨f, rfl⟩ : ∃ f, fuel = f + 1 := ⟨fuel - 1, by simp at hf; omega⟩
    rw [copyLoop_succ, ht, List.nil_append, get_at_append]
    simp
  | cons c r ih =>
    intro T B m fuel ht hn hm hf
    obtain ⟨f, rfl⟩ : ∃ f, fuel = f + 1 := ⟨fuel - 1, by omega⟩
    obtain ⟨m1, rfl⟩ : ∃ m1, m = m1 + 1 := ⟨m - 1, by simp at hm; omega⟩
    have hc : c ≠ NUL := fun e => hn (by simp [e])
    have hr : NUL ∉ r := fun e => hn (by simp [e])
    have hget : tok[T.length]? = some c := by
      rw [ht, List.cons_append, get_at_append]
    have hfin : (B ++ List.replicate (m1 + 1) NUL)[B.length]? = some NUL := by
      rw [List.replicate_succ, get_at_append]
    have hset : (B ++ List.replicate (m1 + 1) NUL).set B.length c
        = (B ++ [c]) ++ List.replicate m1 NUL := by
      rw [List.set_append_right _ _ (le_refl _)]
      simp [List.replicate_succ]
    rw [copyLoop_succ, hget]
    simp only [hc, if_false, hfin, ne_eq, not_true_eq_false]
    rw [hset]
    have := ih (T ++ [c]) (B ++ [c]) m1 f (by rw [ht]; simp) hr
      (by simp at hm; omega) (by simp at hf; omega)
    simp only [List.length_append, List.length_singleton] at this
    rw [this]
    simp

theorem copyLoop_from_zero (tok : Block) (rest : List Char) (T B : Block) (m fuel : Nat)
    (ht : tok = T ++ (rest ++ [NUL])) (hn : NUL ∉ rest) (hB : NUL ∉ B) (hm : rest.length ≤ m)
    (hf : B.length + rest.length < fuel) :
    copyLoop fuel tok (B ++ List.replicate m NUL) 0 T.length
      = some (B ++ rest ++ List.replicate (m - rest.length) NUL) := by
  cases rest with
  | nil =>
    obtain ⟨f, rfl⟩ : ∃ f, fuel = f + 1 := ⟨fuel - 1, by omega⟩
    rw [copyLoop_succ, ht, List.nil_append, get_at_append]
    simp
  | cons c r =>
    have hc : c ≠ NUL := fun e => hn (by simp [e])
    have hget : tok[T.length]? = some c := by
      rw [ht, List.cons_append, get_at_append]
    obtain ⟨f, rfl⟩ : ∃ f, fuel = f + B.length := ⟨fuel - B.length, by omega⟩
    rw [copyLoop_walk tok T.length c hget hc B _ hB B.length 0 f (by omega)]
    exact copyLoop_copy tok (c :: r) T B m f ht hn hm (by omega)

theorem strncpy_head (pre rest : List Char) (hpre : NUL ∉ pre) (n : Nat)
    (hn : pre.length ≤ n) :
    strncpy (List.replicate n NUL) (pre ++ rest) pre.length
      = some (pre ++ List.replicate (n - pre.length) NUL) := by
  have hc : (cstr (pre ++ rest)).take pre.length = pre := by
    unfold cstr
    rw [List.takeWhile_append_of_pos (by
      intro c hc
      have : c ≠ NUL := fun e => hpre (e ▸ hc)
      simpa using this)]
    rw [List.take_left]
  have hl : pre.length ≤ (cstr (pre ++ rest)).length := by
    have := congrArg List.length hc
    rw [List.length_take] at this
    omega
  unfold strncpy
  rw [if_neg (by simp; omega), if_neg (by omega), hc]
  simp [Nat.sub_eq_zero_of_le hl]

/-- The function `expandProcessID` at a marker pair: with the token `pre $$ suf`, no
terminator inside, and the expanded text shorter than `ARG_SIZE`, the new block holds
`pre`, the decimal text of the process id, `suf` and the terminator. -/
theorem expandProcessID_pair (pre suf : List Char) (pid : Int)
    (hpre : NUL ∉ pre) (hsuf : NUL ∉ suf) (hD : NUL ∉ fmtInt pid)
    (hlen : pre.length + (fmtInt pid).length + suf.length < ARG_SIZE) :
    expandProcessID (pre ++ '$' :: '$' :: (suf ++ [NUL])) pre.length pid
      = some (pre ++ fmtInt pid ++ suf ++ [NUL]) := by
  have h1 := strncpy_head pre ('$' :: '$' :: (suf ++ [NUL])) hpre ARG_SIZE (by omega)
  have h2 : sprintf_sd (List.replicate ARG_SIZE NUL)
      (pre ++ List.replicate (ARG_SIZE - pre.length) NUL) pid
      = some ((pre ++ fmtInt pid) ++
          List.replicate (ARG_SIZE - pre.length - (fmtInt pid).length) NUL) := by
    unfold sprintf_sd
    rw [strlen_padded pre hpre _ (by omega), cstr_padded pre hpre]
    dsimp only
    rw [if_neg (by simp; omega)]
    have e : ARG_SIZE - pre.length - (fmtInt pid).length
        = (ARG_SIZE - (pre.length + (fmtInt pid).length + 1)) + 1 := by omega
    rw [e, List.replicate_succ]
    simp
    omega
  have hB : NUL ∉ pre ++ fmtInt pid := by
    intro h; rcases List.mem_append.mp h with h | h
    · exact hpre h
    · exact hD h
  have h3 := copyLoop_from_zero (pre ++ '$' :: '$' :: (suf ++ [NUL])) suf (pre ++ ['$', '$'])
    (pre ++ fmtInt pid) (ARG_SIZE - pre.length - (fmtInt pid).length)
    (ARG_SIZE + (pre ++ '$' :: '$' :: (suf ++ [NUL])).length + 1) (by simp) hsuf hB
    (by omega) (by simp; omega)
  have h4 : strlen ((pre ++ fmtInt pid ++ suf) ++
      List.replicate (ARG_SIZE - pre.length - (fmtInt pid).length - suf.length) NUL)
      = some (pre ++ fmtInt pid ++ suf).length := by
    apply strlen_padded _ _ _ (by omega)
    intro h; rcases List.mem_append.mp h with h | h
    · exact hB h
    · exact hsuf h
  have ha : (pre ++ ['$', '$']).length = pre.length + 2 := by simp
  rw [ha] at h3
  unfold expandProcessID
  simp only [h1, h2, h3, h4, Option.bind_eq_bind, Option.some_bind, List.take_left]

/-! ## The expansion pass for a process id of two digits or more -/

theorem digitChar_plain (n : Nat) (h : n < 10) :
    Nat.digitChar n ≠ '$' ∧ Nat.digitChar n ≠ NUL := by
  interval_cases n <;> exact ⟨by decide, by decide⟩

theorem toDigitsCore_plain (fuel : Nat) :
    ∀ (n : Nat) (ds : List Char), (∀ c ∈ ds, c ≠ '$' ∧ c ≠ NUL) →
      ∀ c ∈ Nat.toDigitsCore 10 fuel n ds, c ≠ '$' ∧ c ≠ NUL := by
  induction fuel with
  | zero => intro n ds h; simpa [Nat.toDigitsCore] using h
  | succ f ih =>
    intro n ds h
    have hd := digitChar_plain (n % 10) (Nat.mod_lt n (by decide))
    have h1 : ∀ c ∈ Nat.digitChar (n % 10) :: ds, c ≠ '$' ∧ c ≠ NUL := by
      intro c hc
      rcases List.mem_cons.mp hc with e | e
      · rw [e]; exact hd
      · exact h c e
    simp only [Nat.toDigitsCore]
    split_ifs
    · exact h1
    · exact ih _ _ h1

theorem toDigitsCore_length_ge (fuel : Nat) :
    ∀ (n : Nat) (ds : List Char), ds.length ≤ (Nat.toDigitsCore 10 fuel n ds).length := by
  induction fuel with
  | zero => intro n ds; simp [Nat.toDigitsCore]
  | succ f ih =>
    intro n ds
    simp only [Nat.toDigitsCore]
    split_ifs
    · simp
    · exact le_trans (by simp) (ih _ (Nat.digitChar (n % 10) :: ds))

theorem fmtInt_plain (p : Int) (hp : 0 ≤ p) : ∀ c ∈ fmtInt p, c ≠ '$' ∧ c ≠ NUL := by
  unfold fmtInt
  rw [if_neg (by omega)]
  exact toDigitsCore_plain _ _ [] (by simp)

theorem fmtInt_two_digits (p : Int) (hp : 10 ≤ p) : 2 ≤ (fmtInt p).length := by
  unfold fmtInt
  rw [if_neg (by omega)]
  obtain ⟨n, hn⟩ : ∃ n : Nat, p.toNat = n + 10 := ⟨p.toNat - 10, by omega⟩
  rw [hn]
  unfold Nat.toDigits
  rw [show n + 10 + 1 = (n + 9 + 1) + 1 from rfl, Nat.toDigitsCore]
  have hq : (n + 10) / 10 ≠ 0 := by omega
  simp only [hq, if_false]
  rw [Nat.toDigitsCore]
  split_ifs
  · simp
  · exact le_trans (by simp) (toDigitsCore_length_ge _ _ _)

theorem replacePairs_plain (D : List Char) (r : List Char) :
    ∀ ds : List Char, (∀ c ∈ ds, c ≠ '$') → replacePairs D (ds ++ r) = ds ++ replacePairs D r := by
  intro ds
  induction ds with
  | nil => intro _; rfl
  | cons d ds ih =>
    intro h
    have hd : d ≠ '$' := h d (by simp)
    have ih1 := ih (fun c hc => h c (by simp [hc]))
    cases hx : ds ++ r with
    | nil =>
      have h1 : ds = [] := (List.append_eq_nil.mp hx).1
      have h2 : r = [] := (List.append_eq_nil.mp hx).2
      subst h1; subst h2
      simp [replacePairs]
    | cons b x =>
      rw [List.cons_append, hx, replacePairs, if_neg (fun e => hd e.1), ← hx, ih1]
      rfl

theorem callsAt_plain (D : List Char) (r : List Char) :
    ∀ (ds : List Char) (j : Nat), (∀ c ∈ ds, c ≠ '$') →
      callsAt D j (ds ++ r) = callsAt D (j + ds.length) r := by
  intro ds
  induction ds with
  | nil => intro j _; rfl
  | cons d ds ih =>
    intro j h
    have hd : d ≠ '$' := h d (by simp)
    have ih1 := ih (j + 1) (fun c hc => h c (by simp [hc]))
    cases hx : ds ++ r with
    | nil =>
      have h1 : ds = [] := (List.append_eq_nil.mp hx).1
      have h2 : r = [] := (List.append_eq_nil.mp hx).2
      subst h1; subst h2
      simp [callsAt]
    | cons b x =>
      rw [List.cons_append, hx, callsAt, if_neg (fun e => hd e.1), ← hx, ih1]
      simp [Nat.add_assoc, Nat.add_comm 1]

theorem replacePairs_length_ge (D : List Char) (hD : 2 ≤ D.length) :
    ∀ r : List Char, r.length ≤ (replacePairs D r).length
  | [] => by simp [replacePairs]
  | [_] => by simp [replacePairs]
  | a :: b :: r => by
    rw [replacePairs]
    split_ifs
    · have := replacePairs_length_ge D hD r
      simp only [List.length_append, List.length_cons]
      omega
    · have := replacePairs_length_ge D hD (b :: r)
      simp only [List.length_cons] at this ⊢
      omega

theorem replacePairs_no_nul (D : List Char) (hD : NUL ∉ D) :
    ∀ r : List Char, NUL ∉ r → NUL ∉ replacePairs D r
  | [] => by simp [replacePairs]
  | [_] => by simp [replacePairs]
  | a :: b :: r => by
    intro h
    rw [replacePairs]
    split_ifs
    · have := replacePairs_no_nul D hD r (fun e => h (by simp [e]))
      intro e
      rcases List.mem_append.mp e with e | e
      · exact hD e
      · exact this e
    · have := replacePairs_no_nul D hD (b :: r) (fun e => h (List.mem_cons_of_mem _ e))
      intro e
      rcases List.mem_cons.mp e with e | e
      · exact h (by simp [← e])
      · exact this e

theorem scanToken_replaces (pid : Int) (d1 d2 : Char) (D1 : List Char)
    (hDdef : fmtInt pid = d1 :: d2 :: D1)
    (hDc : ∀ c ∈ d1 :: d2 :: D1, c ≠ '$' ∧ c ≠ NUL) (fuel : Nat) :
    ∀ (done rest : List Char) (calls : List Nat), NUL ∉ done → NUL ∉ rest →
      (replacePairs (d1 :: d2 :: D1) rest).length < fuel →
      done.length + (replacePairs (d1 :: d2 :: D1) rest).length < ARG_SIZE →
      scanToken fuel pid (done ++ (rest ++ [NUL])) done.length calls
        = some (done ++ (replacePairs (d1 :: d2 :: D1) rest ++ [NUL]),
            calls ++ callsAt (d1 :: d2 :: D1) done.length rest) := by
  induction fuel with
  | zero => intro done rest calls _ _ h; omega
  | succ f ih =>
    intro done rest calls hdone hrest hfuel hsize
    match rest, hrest, hfuel, hsize with
    | [], _, _, _ =>
      rw [scanToken_succ, List.nil_append, get_at_append]
      simp [replacePairs, callsAt]
    | [a], hrest, _, _ =>
      have ha : a ≠ NUL := fun e => hrest (by simp [e])
      rw [scanToken_succ]
      simp only [List.cons_append, List.nil_append, get_at_append, get_at_append_succ, ha,
        if_false, if_true]
      simp [replacePairs, callsAt]
    | a :: b :: r, hrest, hfuel, hsize =>
      have ha : a ≠ NUL := fun e => hrest (by simp [e])
      have hb : b ≠ NUL := fun e => hrest (by simp [e])
      have hr : NUL ∉ r := fun e => hrest (by simp [e])
      rw [scanToken_succ]
      simp only [List.cons_append, get_at_append, get_at_append_succ, ha, hb, if_false]
      by_cases hp : a = '$' ∧ b = '$'
      · obtain ⟨rfl, rfl⟩ := hp
        rw [replacePairs, if_pos ⟨rfl, rfl⟩] at hfuel hsize ⊢
        rw [callsAt, if_pos ⟨rfl, rfl⟩]
        have hge := replacePairs_length_ge (d1 :: d2 :: D1) (by simp) r
        have hDnul : NUL ∉ fmtInt pid := by
          rw [hDdef]; intro e; exact (hDc _ e).2 rfl
        have hexp := expandProcessID_pair done r pid hdone hr hDnul (by
          rw [hDdef]
          simp only [List.length_append, List.length_cons] at hsize hfuel ⊢
          omega)
        rw [hDdef] at hexp
        rw [if_pos ⟨rfl, rfl⟩, hexp]
        dsimp only
        have h1 : NUL ∉ done ++ [d1, d2] := by
          intro e
          rcases List.mem_append.mp e with e | e
          · exact hdone e
          · rcases List.mem_cons.mp e with e | e
            · exact (hDc d1 (by simp)).2 e.symm
            · have e2 : NUL = d2 := by simpa using e
              exact (hDc d2 (by simp)).2 e2.symm
        have hD1 : ∀ c ∈ D1, c ≠ '$' := fun c hc => (hDc c (by simp [hc])).1
        have h2 : NUL ∉ D1 ++ r := by
          intro e
          rcases List.mem_append.mp e with e | e
          · exact (hDc NUL (by simp [e])).2 rfl
          · exact hr e
        have hkey := ih (done ++ [d1, d2]) (D1 ++ r) (calls ++ [done.length]) h1 h2
          (by rw [replacePairs_plain _ _ _ hD1]
              simp only [List.length_append, List.length_cons] at hfuel ⊢; omega)
          (by rw [replacePairs_plain _ _ _ hD1]
              simp only [List.length_append, List.length_cons, List.length_nil] at hsize ⊢
              omega)
        rw [replacePairs_plain _ _ _ hD1, callsAt_plain _ _ _ _ hD1] at hkey
        simp only [List.append_assoc, List.cons_append, List.nil_append, List.length_append,
          List.length_cons, List.length_nil] at hkey ⊢
        rw [hkey]
        simp [Nat.add_assoc, Nat.add_comm]
        congr 1
        omega
      · rw [if_neg hp]
        rw [replacePairs, if_neg hp] at hfuel hsize ⊢
        rw [callsAt, if_neg hp]
        have h1 : NUL ∉ done ++ [a] := by
          intro e
          rcases List.mem_append.mp e with e | e
          · exact hdone e
          · have e2 : NUL = a := by simpa using e
            exact ha e2.symm
        have := ih (done ++ [a]) (b :: r) calls h1
          (fun e => hrest (List.mem_cons_of_mem _ e))
          (by simp only [List.length_cons] at hfuel ⊢; omega)
          (by simp only [List.length_cons, List.length_append, List.length_singleton,
                List.length_nil] at hsize ⊢; omega)
        simp only [List.append_assoc, List.singleton_append, List.length_append,
          List.length_singleton, List.cons_append] at this
        exact this

/-- The expansion pass for a process id of two digits or more: a token without terminator
inside whose expanded text is shorter than `ARG_SIZE` is left as the text in which every
marker pair, taken left to right without overlap, is replaced by the decimal text of the
id, for every fuel above the length of that text; `expandProcessID` is called once per
pair. -/
theorem expandToken_replaces (p : Int) (hp : 10 ≤ p) (t : Tok) (fuel : Nat)
    (hnul : NUL ∉ t) (hsize : (replacePairs (fmtInt p) t).length < ARG_SIZE)
    (hfuel : (replacePairs (fmtInt p) t).length < fuel) :
    expandToken fuel p t = some (replacePairs (fmtInt p) t, callsAt (fmtInt p) 0 t) := by
  have hplain := fmtInt_plain p (by omega)
  have h2 := fmtInt_two_digits p hp
  obtain ⟨d1, d2, D1, hD⟩ : ∃ d1 d2 D1, fmtInt p = d1 :: d2 :: D1 := by
    match h : fmtInt p with
    | [] => rw [h] at h2; simp at h2
    | [_] => rw [h] at h2; simp at h2
    | d1 :: d2 :: D1 => exact ⟨d1, d2, D1, rfl⟩
  rw [hD] at hplain hsize hfuel ⊢
  have h := scanToken_replaces p d1 d2 D1 hD hplain fuel [] t [] (by simp) hnul hfuel
    (by simpa using hsize)
  simp only [List.nil_append, List.length_nil] at h
  simp only [expandToken, toBlock, h]
  rw [cstr_append_nul _ (replacePairs_no_nul _ (fun e => (hplain _ e).2 rfl) t hnul) []]

theorem replacePairs_noPair (D : List Char) :
    ∀ (t : List Char) (j : Nat), hasPair t = false →
      replacePairs D t = t ∧ callsAt D j t = []
  | [], _, _ => ⟨rfl, rfl⟩
  | [_], _, _ => ⟨rfl, rfl⟩
  | a :: b :: r, j, h => by
    have hp : ¬ (a = '$' ∧ b = '$') := by
      intro ⟨h1, h2⟩; simp [hasPair, h1, h2] at h
    have h2 : hasPair (b :: r) = false := by
      simp only [hasPair, Bool.or_eq_false_iff] at h; exact h.2
    have ih := replacePairs_noPair D (b :: r) (j + 1) h2
    rw [replacePairs, callsAt, if_neg hp, if_neg hp, ih.1, ih.2]
    exact ⟨rfl, rfl⟩

theorem replacePairs_first (D suf : List Char) :
    ∀ (pre : List Char) (j : Nat), hasPair (pre ++ ['$']) = false →
      replacePairs D (pre ++ '$' :: '$' :: suf) = pre ++ D ++ replacePairs D suf ∧
      callsAt D j (pre ++ '$' :: '$' :: suf)
        = (j + pre.length) :: callsAt D (j + pre.length + D.length) suf
  | [], j, _ => by
    simp [replacePairs, callsAt]
  | [a], j, h => by
    have ha : a ≠ '$' := by
      intro e; simp [hasPair, e] at h
    have hp : ¬ (a = '$' ∧ '$' = '$') := fun e => ha e.1
    have ih := replacePairs_first D suf [] (j + 1) (by simp [hasPair])
    simp only [List.nil_append] at ih
    simp only [List.cons_append, List.nil_append]
    rw [replacePairs, callsAt, if_neg hp, if_neg hp, ih.1, ih.2]
    simp [Nat.add_assoc]
  | a :: b :: r, j, h => by
    have hp : ¬ (a = '$' ∧ b = '$') := by
      intro ⟨h1, h2⟩; simp [hasPair, h1, h2] at h
    have h2 : hasPair (b :: r ++ ['$']) = false := by
      simp only [List.cons_append, hasPair, Bool.or_eq_false_iff] at h; exact h.2
    have ih := replacePairs_first D suf (b :: r) (j + 1) h2
    simp only [List.cons_append] at ih ⊢
    rw [replacePairs, callsAt, if_neg hp, if_neg hp, ih.1, ih.2]
    simp [Nat.add_assoc, Nat.add_comm 1]

/-- The expansion pass on a single marker pair, for a process id of two digits or more: the
token `pre $$ suf`, where the pair at index `pre.length` is the first one and `suf` holds
none, is left as `pre`, the decimal text of the id and `suf`, with one call of
`expandProcessID`, at index `pre.length`. -/
theorem expandToken_single_pair (p : Int) (hp : 10 ≤ p) (pre suf : List Char) (fuel : Nat)
    (hpre : NUL ∉ pre) (hsuf : NUL ∉ suf)
    (hfirst : hasPair (pre ++ ['$']) = false) (hnone : hasPair suf = false)
    (hsize : pre.length + (fmtInt p).length + suf.length < ARG_SIZE)
    (hfuel : pre.length + (fmtInt p).length + suf.length < fuel) :
    expandToken fuel p (pre ++ '$' :: '$' :: suf)
      = some (pre ++ fmtInt p ++ suf, [pre.length]) := by
  have h1 := replacePairs_first (fmtInt p) suf pre 0 hfirst
  have h2 := replacePairs_noPair (fmtInt p) suf (0 + pre.length + (fmtInt p).length) hnone
  have e1 : replacePairs (fmtInt p) (pre ++ '$' :: '$' :: suf) = pre ++ fmtInt p ++ suf := by
    rw [h1.1, h2.1]
  have e2 : callsAt (fmtInt p) 0 (pre ++ '$' :: '$' :: suf) = [pre.length] := by
    rw [h1.2, h2.2]; simp
  have hnul : NUL ∉ pre ++ '$' :: '$' :: suf := by
    intro e
    rcases List.mem_append.mp e with e | e
    · exact hpre e
    · rcases List.mem_cons.mp e with e | e
      · exact absurd e (by decide)
      · rcases List.mem_cons.mp e with e | e
        · exact absurd e (by decide)
        · exact hsuf e
  have h := expandToken_replaces p hp (pre ++ '$' :: '$' :: suf) fuel hnul
    (by rw [e1]; simpa [Nat.add_assoc] using hsize)
    (by rw [e1]; simpa [Nat.add_assoc] using hfuel)
  rw [h, e1, e2]

theorem expandToken_single_pair_witness :
    expandToken 16 4242 "a$$b$".toList = some ("a4242b$".toList, [1]) :=
  expandToken_single_pair 4242 (by decide) ['a'] ['b', '$'] 16 (by decide) (by decide)
    (by decide) (by decide) (by decide) (by decide)

theorem expandToken_replaces_witness :
    expandToken 16 12 "$$$$x".toList = some ("1212x".toList, [0, 2]) :=
  expandToken_replaces 12 (by decide) "$$$$x".toList 16 (by decide) (by decide) (by decide)

/-! ## `cleanShell` when its index happens to start from 0 -/

theorem cleanShellLoop_succ (fuel : Nat) (i counter numPs : Int) (s : Shell) :
    cleanShellLoop (fuel + 1) i counter numPs s =
      if counter ≠ numPs ∧ i < MAX_PS then
        if i < 0 then none
        else if s.background_ps i.toNat ≠ -5 then
          cleanShellLoop fuel (i + 1) (counter + 1) numPs
            (emit s (Event.kill (s.background_ps i.toNat)))
        else cleanShellLoop fuel (i + 1) counter numPs s
      else some s := rfl

theorem cleanShellLoop_from (n : Nat) :
    ∀ (fuel i : Nat) (counter numPs : Int) (s : Shell), i + n = MAX_PS → n < fuel →
      counter + (trackedFrom s.background_ps n i).length = numPs →
      ∃ s1, cleanShellLoop fuel (i : Int) counter numPs s = some s1 ∧
        s1.trace = s.trace ++ (trackedFrom s.background_ps n i).map Event.kill ∧
        s1.background_ps = s.background_ps ∧ s1.argList = s.argList := by
  induction n with
  | zero =>
    intro fuel i counter numPs s hi hf _
    obtain ⟨f, rfl⟩ : ∃ f, fuel = f + 1 := ⟨fuel - 1, by omega⟩
    have : ¬ ((i : Int) < (MAX_PS : Nat)) := by omega
    rw [cleanShellLoop_succ, if_neg (fun h => this h.2)]
    exact ⟨s, rfl, by simp [trackedFrom], rfl, rfl⟩
  | succ n ih =>
    intro fuel i counter numPs s hi hf hc
    obtain ⟨f, rfl⟩ : ∃ f, fuel = f + 1 := ⟨fuel - 1, by omega⟩
    rw [cleanShellLoop_succ]
    by_cases hdone : counter = numPs
    · have hnil : trackedFrom s.background_ps (n + 1) i = [] := by
        have : ((trackedFrom s.background_ps (n + 1) i).length : Int) = 0 := by omega
        exact List.length_eq_zero.mp (by exact_mod_cast this)
      rw [if_neg (fun h => h.1 hdone), hnil]
      exact ⟨s, rfl, by simp, rfl, rfl⟩
    · have hlt : (i : Int) < (MAX_PS : Nat) := by omega
      have hnn : ¬ ((i : Int) < 0) := by omega
      rw [if_pos ⟨hdone, hlt⟩, if_neg hnn, Int.toNat_ofNat]
      by_cases hocc : s.background_ps i = -5
      · rw [if_neg (fun h => h hocc)]
        simp only [trackedFrom, hocc, ne_eq, not_true_eq_false, if_false] at hc ⊢
        exact ih f (i + 1) counter numPs s (by omega) (by omega) hc
      · rw [if_pos hocc]
        simp only [trackedFrom, hocc, ne_eq, not_false_eq_true, if_true, List.length_cons,
          List.map_cons] at hc ⊢
        obtain ⟨s1, h1, h2, h3, h4⟩ := ih f (i + 1) (counter + 1) numPs
          (emit s (Event.kill (s.background_ps i))) (by omega) (by omega)
          (by show counter + 1 + ((trackedFrom s.background_ps n (i + 1)).length : Int) = numPs
              push_cast at hc; omega)
        refine ⟨s1, h1, ?_, h3, h4⟩
        rw [h2]
        simp [emit]

/-- When the indeterminate initial value of the local `i` of `cleanShell` is 0, `numPs`
is the number of occupied slots and a slot of `argList` is null, `cleanShell` sends one
termination signal to each tracked identifier, in slot order, and nothing else. -/
theorem cleanShell_from_zero (env : Env) (s : Shell) (hi : env.garbage_i = 0)
    (hn : s.numPs = (tracked s).length) (k : Nat) (hk : k < ARG_SIZE)
    (hnull : s.argList k = none) :
    ∃ s1, cleanShell env s = some s1 ∧
      s1.trace = s.trace ++ (tracked s).map Event.kill ∧
      s1.background_ps = s.background_ps := by
  obtain ⟨s1, h1, h2, h3, h4⟩ := cleanShellLoop_from MAX_PS (MAX_PS + 1) 0 0 s.numPs s
    (by simp) (by omega) (by rw [hn]; simp [tracked])
  obtain ⟨b, hb⟩ := cleanBuffer_defined s1.argList k hk (by rw [h4]; exact hnull)
  unfold cleanShell
  rw [hi]
  simp only [Nat.cast_zero] at h1
  rw [h1]
  dsimp only
  rw [hb]
  exact ⟨_, rfl, h2, h3⟩

theorem cleanShell_from_zero_witness :
    ∃ s1, cleanShell (calmEnv 900 4321)
        { initShell 0 stdFds 16 with
          background_ps := setSlot (setSlot (fun _ => -5) 0 111) 3 222, numPs := 2 } = some s1 ∧
      s1.trace = [] ++ [Event.kill 111, Event.kill 222] ∧
      s1.background_ps = setSlot (setSlot (fun _ => -5) 0 111) 3 222 :=
  cleanShell_from_zero (calmEnv 900 4321)
    { initShell 0 stdFds 16 with
      background_ps := setSlot (setSlot (fun _ => -5) 0 111) 3 222, numPs := 2 } rfl rfl
    0 (by decide) rfl


/-! ## The mode flag under two deliveries of the suspend-toggle signal -/

theorem bgDetect_amp (s : Shell) (hn : 1 ≤ s.numArgs)
    (hlast : s.argList (s.numArgs - 1).toNat = some ['&']) :
    ∃ t, bgDetect s = some t ∧
      t.background_flag = (if s.TSTP_FLAG ≠ 1 then 1 else 0) ∧ t.TSTP_FLAG = s.TSTP_FLAG := by
  unfold bgDetect
  dsimp only
  rw [if_neg (by omega), hlast]
  dsimp only
  rw [if_pos rfl]
  by_cases ht : s.TSTP_FLAG ≠ 1
  · rw [if_pos ht, if_pos ht]; exact ⟨_, rfl, rfl, rfl⟩
  · rw [if_neg ht, if_neg ht]; exact ⟨_, rfl, rfl, rfl⟩

theorem catch_SIGTSTP_frame (s : Shell) :
    (catch_SIGTSTP s).argList = s.argList ∧ (catch_SIGTSTP s).numArgs = s.numArgs := by
  unfold catch_SIGTSTP
  split_ifs <;> exact ⟨rfl, rfl⟩

theorem catch_SIGTSTP_flag (s : Shell) (h : s.TSTP_FLAG = 0 ∨ s.TSTP_FLAG = 1) :
    (catch_SIGTSTP s).TSTP_FLAG = 1 - s.TSTP_FLAG := by
  unfold catch_SIGTSTP
  rcases h with h | h
  · rw [if_neg (by rw [h]; decide)]; rw [h]; rfl
  · rw [if_pos (by rw [h]; decide)]; rw [h]; rfl

/-- C14: with the foreground-only flag at 0 or 1, one run of `catch_SIGTSTP` flips
`TSTP_FLAG` and two runs give it back its value; for a line whose last token is `&`, the
background flag that lines 346-364 compute is 1 exactly when `TSTP_FLAG` is 0, it is the
other one after a single delivery and the same one after two deliveries. -/
theorem C14_toggle_twice (s : Shell) (h : s.TSTP_FLAG = 0 ∨ s.TSTP_FLAG = 1)
    (hn : 1 ≤ s.numArgs) (hlast : s.argList (s.numArgs - 1).toNat = some ['&']) :
    (catch_SIGTSTP (catch_SIGTSTP s)).TSTP_FLAG = s.TSTP_FLAG ∧
    (catch_SIGTSTP s).TSTP_FLAG = 1 - s.TSTP_FLAG ∧
    ∃ t t1 t2, bgDetect s = some t ∧ bgDetect (catch_SIGTSTP s) = some t1 ∧
      bgDetect (catch_SIGTSTP (catch_SIGTSTP s)) = some t2 ∧
      (t.background_flag = 1 ↔ s.TSTP_FLAG = 0) ∧
      t1.background_flag = 1 - t.background_flag ∧
      t2.background_flag = t.background_flag := by
  have f1 := catch_SIGTSTP_flag s h
  have h1 : (catch_SIGTSTP s).TSTP_FLAG = 0 ∨ (catch_SIGTSTP s).TSTP_FLAG = 1 := by
    rcases h with h | h <;> rw [f1, h] <;> simp
  have f2 := catch_SIGTSTP_flag (catch_SIGTSTP s) h1
  have e2 : (catch_SIGTSTP (catch_SIGTSTP s)).TSTP_FLAG = s.TSTP_FLAG := by
    rw [f2, f1]; omega
  obtain ⟨a1, n1⟩ := catch_SIGTSTP_frame s
  obtain ⟨a2, n2⟩ := catch_SIGTSTP_frame (catch_SIGTSTP s)
  obtain ⟨t, ht, bt, -⟩ := bgDetect_amp s hn hlast
  obtain ⟨t1, ht1, bt1, -⟩ := bgDetect_amp (catch_SIGTSTP s) (by rw [n1]; exact hn)
    (by rw [a1, n1]; exact hlast)
  obtain ⟨t2, ht2, bt2, -⟩ := bgDetect_amp (catch_SIGTSTP (catch_SIGTSTP s))
    (by rw [n2, n1]; exact hn) (by rw [a2, n2, a1, n1]; exact hlast)
  refine ⟨e2, f1, t, t1, t2, ht, ht1, ht2, ?_, ?_, ?_⟩
  · rw [bt]; rcases h with h | h <;> rw [h] <;> simp
  · rw [bt1, bt, f1]; rcases h with h | h <;> rw [h] <;> simp
  · rw [bt2, bt, e2]

theorem C14_toggle_twice_witness :
    (catch_SIGTSTP (catch_SIGTSTP (lineState ["sleep".toList, "&".toList] 16))).TSTP_FLAG
        = 0 ∧
    (catch_SIGTSTP (lineState ["sleep".toList, "&".toList] 16)).TSTP_FLAG = 1 :=
  ⟨(C14_toggle_twice (lineState ["sleep".toList, "&".toList] 16) (Or.inl rfl)
      (by decide) rfl).1,
   (C14_toggle_twice (lineState ["sleep".toList, "&".toList] 16) (Or.inl rfl)
      (by decide) rfl).2.1⟩

/-! ## Sessions of two lines -/

/-- C16: after `sleep 100 &` (identifier 4321, tracked in the job table, not finished) and
one delivery of the interrupt signal, the next pass of the loop starts with a blocking
`waitpid` on 4321, the background identifier: line 201 waits on `spawnPid` without the
test of `background_flag` that lines 175 and 188 make. -/
theorem C16_interrupt_waits_on_background :
    ∃ s1 s2 : Shell,
      loopPass (busyEnv 100 4321) 16 "sleep 100 &\n".toList (initShell 0 stdFds 16)
        = some (Outcome.loop s1) ∧
      s1.background_flag = 1 ∧ s1.spawnPid = 4321 ∧ tracked s1 = [4321] ∧
      loopPass (busyEnv 100 4321) 16 "\n".toList (catch_SIGINT s1) = some (Outcome.loop s2) ∧
      s2.trace = s1.trace ++ [Event.waitpid 4321 true, Event.waitpid 4321 false,
        Event.print (some (OFile.inherited 1)) [':']] :=
  ⟨_, _, rfl, rfl, rfl, rfl, rfl, rfl⟩

/-- C17: after the line `ls`, run from descriptors 0, 1 and 2 alone, the loop goes on with
descriptors 3 and 4 open: they are the copies made by `dup(1)` and `dup(0)` at lines
338-339, which no line closes. -/
theorem C17_saved_copies_stay_open :
    ∃ t : Shell,
      loopPass (calmEnv 100 4321) 16 "ls\n".toList (initShell 0 stdFds 16)
        = some (Outcome.loop t) ∧
      (initShell 0 stdFds 16).fds 3 = none ∧ (initShell 0 stdFds 16).fds 4 = none ∧
      t.saved_stdout = 3 ∧ t.saved_stdin = 4 ∧
      t.fds 3 = some (OFile.inherited 1) ∧ t.fds 4 = some (OFile.inherited 0) :=
  ⟨_, rfl, rfl, rfl, rfl, rfl, rfl, rfl⟩

/-- C18: after the line `cmd > out extra` the loop goes on with slot 3 of `argList` still
holding `extra`: the redirection nulled slots 1 and 2, and `cleanBuffer` stops at the
first null slot. -/
theorem C18_token_left_behind :
    ∃ t : Shell,
      loopPass (calmEnv 100 4321) 16 "cmd > out extra\n".toList (initShell 0 stdFds 16)
        = some (Outcome.loop t) ∧
      t.argList 0 = none ∧ t.argList 1 = none ∧ t.argList 2 = none ∧
      t.argList 3 = some "extra".toList :=
  ⟨_, rfl, rfl, rfl, rfl, rfl⟩

/-- C12: the line `ls -a -b`, read after the line `cmd > out extra`, hands `execvp` the
vector `ls -a -b extra` in the child; read after the line `x < in > /bad/out`, whose
output file does not open, it hands `execvp` the vector `ls -a -b > /bad/out`. -/
theorem C12_stale_tokens_in_argv :
    (∃ t u : Shell,
      loopPass (calmEnv 100 4321) 16 "cmd > out extra\n".toList (initShell 0 stdFds 16)
        = some (Outcome.loop t) ∧
      loopPass (calmEnv 100 0) 16 "ls -a -b\n".toList t = some (Outcome.exec u) ∧
      u.trace.getLast? = some (Event.execvp (some "ls".toList)
        (some ["ls".toList, "-a".toList, "-b".toList, "extra".toList]))) ∧
    (∃ t u : Shell,
      loopPass { calmEnv 100 4321 with openOK := fun p _ => p != "/bad/out".toList } 16
          "x < in > /bad/out\n".toList (initShell 0 stdFds 16)
        = some (Outcome.loop t) ∧
      loopPass (calmEnv 100 0) 16 "ls -a -b\n".toList t = some (Outcome.exec u) ∧
      u.trace.getLast? = some (Event.execvp (some "ls".toList)
        (some ["ls".toList, "-a".toList, "-b".toList, ">".toList, "/bad/out".toList]))) :=
  ⟨⟨_, _, rfl, rfl, rfl⟩, ⟨_, _, rfl, rfl, rfl⟩⟩

/-! ## What one iteration keeps -/

theorem Quiet.stay (s : Shell) : Quiet s s := ⟨rfl, rfl, [], by simp, by simp⟩

theorem Quiet.chain {s t u : Shell} (h1 : Quiet s t) (h2 : Quiet t u) : Quiet s u := by
  obtain ⟨l1, e1, p1⟩ := h1.adds
  obtain ⟨l2, e2, p2⟩ := h2.adds
  refine ⟨h2.flag.trans h1.flag, h2.msg.trans h1.msg, l1 ++ l2, ?_, ?_⟩
  · rw [e2, e1, List.append_assoc]
  · intro e he
    rcases List.mem_append.mp he with h | h
    · exact p1 e h
    · exact p2 e h

theorem SameJobs.idle (s : Shell) : SameJobs s s := ⟨rfl, rfl⟩

theorem SameJobs.link {s t u : Shell} (h1 : SameJobs s t) (h2 : SameJobs t u) :
    SameJobs s u := ⟨h2.count.trans h1.count, h2.table.trans h1.table⟩

theorem SameJobs.counted {s t : Shell} (h : SameJobs s t) (hc : Counted s) : Counted t := by
  unfold Counted tracked at *
  rw [h.count, h.table]; exact hc

theorem Quiet.of_eq {s t : Shell} (hf : t.TSTP_FLAG = s.TSTP_FLAG)
    (hm : t.TSTP_MESSAGE = s.TSTP_MESSAGE) (ht : t.trace = s.trace) : Quiet s t :=
  ⟨hf, hm, [], by simp [ht], by simp⟩

theorem quiet_emit (s : Shell) (e : Event) (h : plain e = true) : Quiet s (emit s e) :=
  ⟨rfl, rfl, [e], rfl, by simpa using h⟩

theorem quiet_say (s : Shell) (text : List Char) (h : text.head? ≠ some '\n') :
    Quiet s (say s text) :=
  quiet_emit s _ (by simpa [plain] using h)

theorem Keeps.sameJobs {s t : Shell} (h : Keeps s t) : SameJobs s t :=
  ⟨congrArg Kept.numPs h.same, congrArg Kept.background_ps h.same⟩

theorem Keeps.flag_eq {s t : Shell} (h : Keeps s t) : t.TSTP_FLAG = s.TSTP_FLAG :=
  congrArg Kept.TSTP_FLAG h.same

theorem Keeps.msg_eq {s t : Shell} (h : Keeps s t) : t.TSTP_MESSAGE = s.TSTP_MESSAGE :=
  congrArg Kept.TSTP_MESSAGE h.same

/-! ### The trace through the descriptor calls -/

theorem trace_sys_open (env : Env) (s : Shell) (p : Option Tok) (w : Bool) :
    (sys_open env s p w).1.trace = s.trace := by
  unfold sys_open
  split
  · rfl
  · split
    · split <;> rfl
    · rfl

theorem trace_sys_dup2 (s : Shell) (fd : Int) (n : Nat) : (sys_dup2 s fd n).1.trace = s.trace := by
  unfold sys_dup2
  split <;> rfl

theorem trace_sys_close (s : Shell) (fd : Int) : (sys_close s fd).trace = s.trace := by
  unfold sys_close
  split <;> rfl

theorem argList_sys_open (env : Env) (s : Shell) (p : Option Tok) (w : Bool) :
    (sys_open env s p w).1.argList = s.argList := by
  unfold sys_open
  split
  · rfl
  · split
    · split <;> rfl
    · rfl

/-! ### The redirection code adds plain events -/

theorem adds_one {s x t : Shell} {e : Event} (hx : x.trace = s.trace)
    (h : t.trace = x.trace ++ [e]) (hp : plain e = true) :
    ∃ l, t.trace = s.trace ++ l ∧ ∀ e ∈ l, plain e = true :=
  ⟨[e], by rw [h, hx], by simpa using hp⟩

theorem adds_none {s x t : Shell} (hx : x.trace = s.trace) (h : t.trace = x.trace) :
    ∃ l, t.trace = s.trace ++ l ∧ ∀ e ∈ l, plain e = true :=
  ⟨[], by simp [h, hx], by simp⟩

theorem redirectOut_adds (env : Env) (s : Shell) (i : Nat) :
    ∃ l, (redirectOut env s i).trace = s.trace ++ l ∧ ∀ e ∈ l, plain e = true := by
  unfold redirectOut
  dsimp only
  rw [trace_sys_close]
  split_ifs
  · exact adds_one (trace_sys_open env s _ true) rfl
      (by simp [plain, List.head?_append])
  · exact adds_one ((trace_sys_dup2 _ _ 1).trans (trace_sys_open env s _ true)) rfl rfl
  · exact adds_none ((trace_sys_dup2 _ _ 1).trans (trace_sys_open env s _ true)) rfl

theorem redirectIn_adds (env : Env) (s : Shell) (i : Nat) :
    ∃ l, (redirectIn env s i).trace = s.trace ++ l ∧ ∀ e ∈ l, plain e = true := by
  unfold redirectIn
  dsimp only
  rw [trace_sys_close]
  split_ifs
  · exact adds_one (trace_sys_open env s _ false) rfl
      (by simp [plain, List.head?_append])
  · exact adds_one ((trace_sys_dup2 _ _ 0).trans (trace_sys_open env s _ false)) rfl rfl
  · exact adds_none ((trace_sys_dup2 _ _ 0).trans (trace_sys_open env s _ false)) rfl

theorem redirectStep_quiet (env : Env) (s : Shell) (i : Nat) :
    Quiet s (redirectStep env s i) := by
  have hk := redirectStep_keeps env s i
  refine ⟨hk.flag_eq, hk.msg_eq, ?_⟩
  unfold redirectStep
  split_ifs
  · exact redirectOut_adds env s i
  · exact redirectIn_adds env s i
  · exact adds_none rfl rfl

theorem redirectLoop_succ (env : Env) (i : Nat) (s : Shell) :
    redirectLoop env (i + 1) s =
      if (redirectStep env s i).numArgs - (i : Int) ≥ 6 then redirectStep env s i
      else redirectLoop env i (redirectStep env s i) := rfl

theorem redirectLoop_quiet (env : Env) (n : Nat) :
    ∀ s : Shell, Quiet s (redirectLoop env n s) := by
  induction n with
  | zero => intro s; exact Quiet.stay s
  | succ n ih =>
    intro s
    rw [redirectLoop_succ]
    split_ifs
    · exact redirectStep_quiet env s n
    · exact (redirectStep_quiet env s n).chain (ih _)

theorem redirectStdout_adds (env : Env) (s : Shell) :
    ∃ l, (redirectStdout env s).1.trace = s.trace ++ l ∧ ∀ e ∈ l, plain e = true := by
  unfold redirectStdout
  dsimp only
  split_ifs
  · exact adds_one (trace_sys_open env s _ true) rfl rfl
  · exact adds_one ((trace_sys_dup2 _ _ 1).trans (trace_sys_open env s _ true)) rfl rfl
  · exact adds_none ((trace_sys_dup2 _ _ 1).trans (trace_sys_open env s _ true))
      (trace_sys_close _ _)

theorem redirectStdin_adds (env : Env) (s : Shell) :
    ∃ l, (redirectStdin env s).1.trace = s.trace ++ l ∧ ∀ e ∈ l, plain e = true := by
  unfold redirectStdin
  dsimp only
  split_ifs
  · exact adds_one (trace_sys_open env s _ false) rfl rfl
  · exact adds_one ((trace_sys_dup2 _ _ 0).trans (trace_sys_open env s _ false)) rfl rfl
  · exact adds_none ((trace_sys_dup2 _ _ 0).trans (trace_sys_open env s _ false))
      (trace_sys_close _ _)

theorem redirectToNull_adds (env : Env) (s : Shell) :
    ∃ l, (redirectToNull env s).1.trace = s.trace ++ l ∧ ∀ e ∈ l, plain e = true := by
  have o2 : (sys_open env (sys_open env s (some devNull) true).1 (some devNull) false).1.trace
      = s.trace := (trace_sys_open _ _ _ _).trans (trace_sys_open _ _ _ _)
  unfold redirectToNull
  dsimp only
  split_ifs
  · exact adds_one o2 rfl rfl
  · exact adds_one ((trace_sys_dup2 _ _ 0).trans o2) rfl rfl
  · exact adds_one ((trace_sys_dup2 _ _ 1).trans ((trace_sys_dup2 _ _ 0).trans o2)) rfl rfl
  · exact adds_none ((trace_sys_dup2 _ _ 1).trans ((trace_sys_dup2 _ _ 0).trans o2))
      ((trace_sys_close _ _).trans (trace_sys_close _ _))

theorem noteResult_trace (r : Shell × Int) : (noteResult r).trace = r.1.trace := by
  unfold noteResult
  split_ifs <;> rfl

theorem nullRedirect_quiet (env : Env) (s : Shell) : Quiet s (nullRedirect env s) := by
  have hk := nullRedirect_keeps env s
  refine ⟨hk.flag_eq, hk.msg_eq, ?_⟩
  unfold nullRedirect
  split_ifs
  · rw [noteResult_trace]; exact redirectToNull_adds env s
  · rw [noteResult_trace]; exact redirectStdout_adds env s
  · rw [noteResult_trace]; exact redirectStdin_adds env s
  · exact adds_none rfl rfl
  · exact adds_none rfl rfl

/-! ### The rest of an external command -/

theorem saveStd_still (s : Shell) : Quiet s (saveStd s) ∧ SameJobs s (saveStd s) := by
  unfold saveStd sys_dup
  dsimp only
  split <;> split <;> (try split) <;> (try split) <;>
    exact ⟨Quiet.of_eq rfl rfl rfl, rfl, rfl⟩

theorem restoreStd_still (s : Shell) : Quiet s (restoreStd s) ∧ SameJobs s (restoreStd s) := by
  unfold restoreStd sys_dup2
  split <;> split <;> exact ⟨Quiet.of_eq rfl rfl rfl, rfl, rfl⟩

theorem bgDetect_still {s t : Shell} (h : bgDetect s = some t) : Quiet s t ∧ SameJobs s t := by
  unfold bgDetect at h
  dsimp only at h
  by_cases hn : s.numArgs - 1 < 0
  · rw [if_pos hn] at h; cases h
  · rw [if_neg hn] at h
    cases ha : s.argList (s.numArgs - 1).toNat with
    | none => rw [ha] at h; cases h
    | some last =>
      rw [ha] at h
      dsimp only at h
      by_cases hl : last = ['&']
      · rw [if_pos hl] at h
        injection h with h
        subst h
        by_cases ht : s.TSTP_FLAG ≠ 1
        · rw [if_pos ht]; exact ⟨Quiet.of_eq rfl rfl rfl, rfl, rfl⟩
        · rw [if_neg ht]; exact ⟨Quiet.of_eq rfl rfl rfl, rfl, rfl⟩
      · rw [if_neg hl] at h
        injection h with h
        subst h
        exact ⟨Quiet.of_eq rfl rfl rfl, rfl, rfl⟩

theorem insertLoop_succ (n i : Nat) (s : Shell) :
    insertLoop (n + 1) i s =
      if s.background_ps i = -5 then
        ({ s with background_ps := setSlot s.background_ps i s.spawnPid
                  numPs := s.numPs + 1 }, false)
      else if i = MAX_PS - 1 then
        (emit s (Event.perror "OVERFLOW! Too many background processes running".toList), true)
      else insertLoop n (i + 1) s := rfl

theorem insertLoop_quiet (n : Nat) :
    ∀ (i : Nat) (s : Shell), Quiet s (insertLoop n i s).1 := by
  induction n with
  | zero => intro i s; exact Quiet.stay s
  | succ n ih =>
    intro i s
    rw [insertLoop_succ]
    split_ifs
    · exact Quiet.of_eq rfl rfl rfl
    · exact quiet_emit s _ rfl
    · exact ih (i + 1) s

theorem quiet_fork_wait {env : Env} {t x : Shell} (b : Bool)
    (hf : x.TSTP_FLAG = t.TSTP_FLAG) (hm : x.TSTP_MESSAGE = t.TSTP_MESSAGE)
    (ht : x.trace = t.trace ++ [Event.fork env.forkResult]
      ++ [Event.waitpid env.forkResult b]) : Quiet t x := by
  refine ⟨hf, hm, [Event.fork env.forkResult, Event.waitpid env.forkResult b],
    by simp [ht], ?_⟩
  intro e he
  simp only [List.mem_cons, List.mem_singleton, List.not_mem_nil, or_false] at he
  rcases he with rfl | rfl <;> rfl

theorem launch_loop_shape {env : Env} {t u : Shell} (h : launch env t = Outcome.loop u) :
    ∃ x, u = restoreStd x ∧ Quiet t x := by
  unfold launch at h
  dsimp only at h
  split_ifs at h <;> cases h
  · exact ⟨_, rfl, quiet_fork_wait true rfl rfl rfl⟩
  · refine ⟨_, rfl, Quiet.chain ?_ (insertLoop_quiet _ _ _)⟩
    exact quiet_fork_wait false rfl rfl rfl
  · exact ⟨_, rfl, quiet_fork_wait true rfl rfl rfl⟩
  · exact ⟨_, rfl, quiet_fork_wait true rfl rfl rfl⟩

theorem launch_loop_quiet {env : Env} {t u : Shell} (h : launch env t = Outcome.loop u) :
    Quiet t u := by
  obtain ⟨x, rfl, hq⟩ := launch_loop_shape h
  exact hq.chain (restoreStd_still x).1

theorem external_loop_quiet {env : Env} {s u : Shell}
    (h : external env s = some (Outcome.loop u)) : Quiet s u := by
  unfold external at h
  cases hb : bgDetect (saveStd s) with
  | none => rw [hb] at h; cases h
  | some s1 =>
    rw [hb] at h
    simp only [Option.some.injEq] at h
    exact (((saveStd_still s).1.chain (bgDetect_still hb).1).chain
      ((redirectLoop_quiet env _ s1).chain (nullRedirect_quiet env _))).chain
      (launch_loop_quiet h)

/-! ### The rest of the iteration -/

theorem expansionLoop_still (fuel : Nat) (pid : Int) (n : Nat) :
    ∀ (i : Nat) (s t : Shell), expansionLoop fuel pid n i s = some t →
      Quiet s t ∧ SameJobs s t := by
  induction n with
  | zero =>
    intro i s t h
    simp only [expansionLoop, Option.some.injEq] at h
    subst h
    exact ⟨Quiet.stay s, SameJobs.idle s⟩
  | succ n ih =>
    intro i s t h
    simp only [expansionLoop] at h
    cases ha : s.argList i with
    | none => rw [ha] at h; cases h
    | some tok =>
      rw [ha] at h
      dsimp only at h
      cases he : expandToken fuel pid tok with
      | none => rw [he] at h; cases h
      | some r =>
        obtain ⟨t1, calls⟩ := r
        rw [he] at h
        dsimp only at h
        obtain ⟨q, j⟩ := ih (i + 1) _ t h
        refine ⟨Quiet.chain ?_ q, SameJobs.link ?_ j⟩
        · refine ⟨rfl, rfl, calls.map (fun j => Event.expand i j), rfl, ?_⟩
          intro e he
          obtain ⟨j, -, rfl⟩ := List.mem_map.mp he
          rfl
        · exact ⟨rfl, rfl⟩

theorem statusText_head (st : Int) : (statusText st).head? ≠ some '\n' := by
  unfold statusText
  split_ifs <;> simp [List.head?_append]

theorem reapMessage_head (pid st : Int) : (reapMessage pid st).head? ≠ some '\n' := by
  unfold reapMessage
  split_ifs <;> simp [List.head?_append]

theorem builtIn_cd_still (env : Env) (s : Shell) (path : Option Tok) :
    Quiet s (builtIn_cd env s path) ∧ SameJobs s (builtIn_cd env s path) := by
  unfold builtIn_cd
  dsimp only
  split_ifs
  · exact ⟨quiet_emit s _ (by rfl), rfl, rfl⟩
  · cases path with
    | none =>
      exact ⟨(quiet_emit s (Event.chdir none) rfl).chain (quiet_emit _ _ (by rfl)), rfl, rfl⟩
    | some p =>
      exact ⟨(quiet_emit s (Event.chdir (some p)) rfl).chain (quiet_emit _ _ (by rfl)),
        rfl, rfl⟩

theorem builtIn_status_still (s : Shell) :
    Quiet s (builtIn_status s) ∧ SameJobs s (builtIn_status s) :=
  ⟨quiet_say s _ (statusText_head _), rfl, rfl⟩

theorem getCommandLine_still {input : List Char} {s g : Shell}
    (h : getCommandLine input s = some g) : Quiet s g ∧ SameJobs s g := by
  unfold getCommandLine at h
  dsimp only at h
  split_ifs at h
  injection h with h
  subst h
  exact ⟨⟨rfl, rfl, [Event.print (s.fds 1) [':']], rfl, by simp [plain]⟩, rfl, rfl⟩

theorem finish_still {s t : Shell} (h : finish s = some t) : Quiet s t ∧ SameJobs s t := by
  obtain ⟨a, -, rfl⟩ := finish_shape h
  split_ifs
  · exact ⟨⟨rfl, rfl, [Event.print (s.fds 1) _], rfl, by simp [plain, List.head?_append]⟩,
      rfl, rfl⟩
  · exact ⟨Quiet.of_eq rfl rfl rfl, rfl, rfl⟩

theorem dispatch_cases {env : Env} {fuel : Nat} {s t : Shell}
    (h : dispatch env fuel s = some (Outcome.loop t)) :
    t = s ∨ ∃ s1, expansionPass fuel env.pid s = some s1 ∧
      (t = builtIn_cd env s1 (s1.argList 1) ∨ t = builtIn_status s1 ∨
        external env s1 = some (Outcome.loop t)) := by
  unfold dispatch at h
  cases ha : s.argList 0 with
  | none =>
    rw [ha] at h
    simp only [Option.some.injEq, Outcome.loop.injEq] at h
    exact Or.inl h.symm
  | some t0 =>
    rw [ha] at h
    dsimp only at h
    by_cases hc : t0.head? = some '#'
    · rw [if_pos hc] at h
      simp only [Option.some.injEq, Outcome.loop.injEq] at h
      exact Or.inl h.symm
    · rw [if_neg hc] at h
      cases he : expansionPass fuel env.pid s with
      | none => rw [he] at h; cases h
      | some s1 =>
        rw [he] at h
        dsimp only at h
        refine Or.inr ⟨s1, rfl, ?_⟩
        by_cases h1 : s1.argList 0 = some "exit".toList
        · rw [if_pos h1] at h
          cases hcs : cleanShell env s1 with
          | none => rw [hcs] at h; cases h
          | some s2 => rw [hcs] at h; cases h
        · rw [if_neg h1] at h
          by_cases h2 : s1.argList 0 = some "cd".toList
          · rw [if_pos h2] at h
            simp only [Option.some.injEq, Outcome.loop.injEq] at h
            exact Or.inl h.symm
          · rw [if_neg h2] at h
            by_cases h3 : s1.argList 0 = some "status".toList
            · rw [if_pos h3] at h
              simp only [Option.some.injEq, Outcome.loop.injEq] at h
              exact Or.inr (Or.inl h.symm)
            · rw [if_neg h3] at h
              exact Or.inr (Or.inr h)

theorem readAndDispatch_loop {env : Env} {fuel : Nat} {input : List Char} {s t : Shell}
    (h : readAndDispatch env fuel input s = some (Outcome.loop t)) :
    ∃ g u, getCommandLine input s = some g ∧
      dispatch env fuel g = some (Outcome.loop u) ∧ finish u = some t := by
  unfold readAndDispatch at h
  cases hg : getCommandLine input s with
  | none => rw [hg] at h; cases h
  | some g =>
    rw [hg] at h
    dsimp only at h
    cases hd : dispatch env fuel g with
    | none => rw [hd] at h; cases h
    | some o =>
      rw [hd] at h
      cases o with
      | loop u =>
        dsimp only at h
        cases hf : finish u with
        | none => rw [hf] at h; cases h
        | some t1 =>
          rw [hf] at h
          simp only [Option.some.injEq, Outcome.loop.injEq] at h
          exact ⟨g, u, rfl, hd, by rw [← h]; exact hf⟩
      | exit c u => cases h
      | exec u => cases h

theorem dispatch_loop_quiet {env : Env} {fuel : Nat} {s t : Shell}
    (h : dispatch env fuel s = some (Outcome.loop t)) : Quiet s t := by
  rcases dispatch_cases h with rfl | ⟨s1, he, h1 | h1 | h1⟩
  · exact Quiet.stay _
  · rw [h1]; exact (expansionLoop_still _ _ _ _ _ _ he).1.chain (builtIn_cd_still _ _ _).1
  · rw [h1]; exact (expansionLoop_still _ _ _ _ _ _ he).1.chain (builtIn_status_still _).1
  · exact (expansionLoop_still _ _ _ _ _ _ he).1.chain (external_loop_quiet h1)

theorem reapStep_quiet (env : Env) (s : Shell) (i : Nat) : Quiet s (reapStep env s i) := by
  unfold reapStep
  dsimp only
  split_ifs
  · refine ⟨rfl, rfl, [Event.waitpid (s.background_ps i) false, Event.print (s.fds 1)
        (reapMessage (s.background_ps i)
          (((env.poll i (s.background_ps i)).2).getD s.BACK_STATUS))],
      by simp [say, emit], ?_⟩
    intro e he
    simp only [List.mem_cons, List.mem_singleton, List.not_mem_nil, or_false] at he
    rcases he with rfl | rfl
    · rfl
    · simpa [plain] using reapMessage_head _ _
  · exact ⟨rfl, rfl, [Event.waitpid (s.background_ps i) false], rfl, by simp [plain]⟩
  · exact Quiet.stay s

theorem reapLoop_quiet (env : Env) (n : Nat) :
    ∀ (i : Nat) (s : Shell), Quiet s (reapLoop env n i s) := by
  induction n with
  | zero => intro i s; exact Quiet.stay s
  | succ n ih =>
    intro i s
    simp only [reapLoop]
    exact (reapStep_quiet env s i).chain (ih (i + 1) _)

theorem loopBody_quiet {env : Env} {fuel : Nat} {input : List Char} {s t : Shell}
    (h : loopBody env fuel input s = some (Outcome.loop t)) : Quiet s t := by
  unfold loopBody at h
  obtain ⟨g, u, hg, hd, hf⟩ := readAndDispatch_loop h
  exact (((reapLoop_quiet env MAX_PS 0 s).chain (getCommandLine_still hg).1).chain
    (dispatch_loop_quiet hd)).chain (finish_still hf).1

/-! ## The counter of the job table -/

theorem trackedFrom_succ (bg : Nat → Int) (n i : Nat) :
    trackedFrom bg (n + 1) i =
      if bg i ≠ -5 then bg i :: trackedFrom bg n (i + 1) else trackedFrom bg n (i + 1) := rfl

theorem trackedFrom_length_le (bg : Nat → Int) (n : Nat) :
    ∀ i, (trackedFrom bg n i).length ≤ n := by
  induction n with
  | zero => intro i; simp [trackedFrom]
  | succ n ih =>
    intro i
    rw [trackedFrom_succ]
    have := ih (i + 1)
    split_ifs
    · simp only [List.length_cons]; omega
    · omega

theorem trackedFrom_empty (n : Nat) : ∀ i, trackedFrom (fun _ => -5) n i = [] := by
  induction n with
  | zero => intro i; rfl
  | succ n ih => intro i; rw [trackedFrom_succ, if_neg (by simp), ih]

theorem trackedFrom_setSlot (bg : Nat → Int) (j : Nat) (v : Int) (n : Nat) :
    ∀ i, i ≤ j → j < i + n →
      (trackedFrom (setSlot bg j v) n i).length + (if bg j ≠ -5 then 1 else 0)
        = (trackedFrom bg n i).length + (if v ≠ -5 then 1 else 0) := by
  induction n with
  | zero => intro i h1 h2; omega
  | succ n ih =>
    intro i h1 h2
    rw [trackedFrom_succ, trackedFrom_succ]
    by_cases hj : j = i
    · subst hj
      have hrest : trackedFrom (setSlot bg j v) n (j + 1) = trackedFrom bg n (j + 1) :=
        trackedFrom_congr bg (setSlot bg j v) n (j + 1) (fun k hk _ => by
          have : k ≠ j := by omega
          simp [setSlot, this])
      have hs : setSlot bg j v j = v := by simp [setSlot]
      rw [hrest, hs]
      by_cases hv : v ≠ -5
      · by_cases hb : bg j ≠ -5
        · simp only [if_pos hv, if_pos hb, List.length_cons]
        · simp only [if_pos hv, if_neg hb, List.length_cons]
      · by_cases hb : bg j ≠ -5
        · simp only [if_neg hv, if_pos hb, List.length_cons]
        · simp only [if_neg hv, if_neg hb, List.length_cons]
    · have hs : setSlot bg j v i = bg i := by
        have : i ≠ j := fun e => hj e.symm
        simp [setSlot, this]
      have := ih (i + 1) (by omega) (by omega)
      rw [hs]
      by_cases hb : bg i ≠ -5
      · rw [if_pos hb, if_pos hb]; simp only [List.length_cons]; omega
      · rw [if_neg hb, if_neg hb]; exact this

theorem counted_le (s : Shell) (h : Counted s) : 0 ≤ s.numPs ∧ s.numPs ≤ (MAX_PS : Int) := by
  unfold Counted tracked at h
  have := trackedFrom_length_le s.background_ps MAX_PS 0
  omega

theorem initShell_counted (background_flag : Int) (fds : Nat → Option OFile) (nofile : Nat) :
    Counted (initShell background_flag fds nofile) := by
  unfold Counted tracked initShell
  dsimp only
  rw [trackedFrom_empty]
  rfl

theorem reapStep_counted (env : Env) (s : Shell) (i : Nat) (hi : i < MAX_PS)
    (h : Counted s) : Counted (reapStep env s i) := by
  unfold reapStep
  dsimp only
  split_ifs with hb hp
  · unfold Counted tracked at *
    have := trackedFrom_setSlot s.background_ps i (-5) MAX_PS 0 (Nat.zero_le i) (by omega)
    rw [if_pos hb, if_neg (by simp)] at this
    show s.numPs - 1 = ((trackedFrom (setSlot s.background_ps i (-5)) MAX_PS 0).length : Int)
    omega
  · exact h
  · exact h

theorem reapLoop_counted (env : Env) (n : Nat) :
    ∀ (i : Nat) (s : Shell), i + n ≤ MAX_PS → Counted s → Counted (reapLoop env n i s) := by
  induction n with
  | zero => intro i s _ h; exact h
  | succ n ih =>
    intro i s hb h
    simp only [reapLoop]
    exact ih (i + 1) _ (by omega) (reapStep_counted env s i (by omega) h)

theorem reapPass_counted (env : Env) (s : Shell) (h : Counted s) : Counted (reapPass env s) :=
  reapLoop_counted env MAX_PS 0 s (by omega) h

theorem insertLoop_counted (n : Nat) :
    ∀ (i : Nat) (s : Shell), i + n ≤ MAX_PS → s.spawnPid ≠ -5 → Counted s →
      Counted (insertLoop n i s).1 := by
  induction n with
  | zero => intro i s _ _ h; exact h
  | succ n ih =>
    intro i s hb hp h
    rw [insertLoop_succ]
    split_ifs with he hl
    · unfold Counted tracked at *
      have := trackedFrom_setSlot s.background_ps i s.spawnPid MAX_PS 0 (Nat.zero_le i)
        (by omega)
      rw [if_neg (by simp [he]), if_pos hp] at this
      show s.numPs + 1
        = ((trackedFrom (setSlot s.background_ps i s.spawnPid) MAX_PS 0).length : Int)
      omega
    · exact h
    · exact ih (i + 1) s (by omega) hp h

theorem insertJob_counted (s : Shell) (hp : s.spawnPid ≠ -5) (h : Counted s) :
    Counted (insertJob s).1 :=
  insertLoop_counted MAX_PS 0 s (by omega) hp h

theorem launch_loop_counted {env : Env} {t u : Shell} (hs : forkSane env)
    (h : launch env t = Outcome.loop u) (hc : Counted t) : Counted u := by
  have hne : env.forkResult ≠ -5 := by unfold forkSane at hs; omega
  unfold launch at h
  dsimp only at h
  split_ifs at h <;> cases h
  · exact (restoreStd_still _).2.counted hc
  · exact (restoreStd_still _).2.counted (insertJob_counted _ hne hc)
  · exact (restoreStd_still _).2.counted hc
  · exact (restoreStd_still _).2.counted hc

theorem external_loop_counted {env : Env} {s u : Shell} (hs : forkSane env)
    (h : external env s = some (Outcome.loop u)) (hc : Counted s) : Counted u := by
  unfold external at h
  cases hb : bgDetect (saveStd s) with
  | none => rw [hb] at h; cases h
  | some s1 =>
    rw [hb] at h
    simp only [Option.some.injEq] at h
    have j : SameJobs s (nullRedirect env (redirectLoop env s1.numArgs.toNat s1)) :=
      (((saveStd_still s).2.link (bgDetect_still hb).2).link
        (redirectLoop_keeps env _ s1).sameJobs).link (nullRedirect_keeps env _).sameJobs
    exact launch_loop_counted hs h (j.counted hc)

theorem dispatch_loop_counted {env : Env} {fuel : Nat} {s t : Shell} (hs : forkSane env)
    (h : dispatch env fuel s = some (Outcome.loop t)) (hc : Counted s) : Counted t := by
  rcases dispatch_cases h with rfl | ⟨s1, he, h1 | h1 | h1⟩
  · exact hc
  · rw [h1]
    exact (builtIn_cd_still _ _ _).2.counted ((expansionLoop_still _ _ _ _ _ _ he).2.counted hc)
  · rw [h1]
    exact (builtIn_status_still _).2.counted ((expansionLoop_still _ _ _ _ _ _ he).2.counted hc)
  · exact external_loop_counted hs h1 ((expansionLoop_still _ _ _ _ _ _ he).2.counted hc)

theorem loopBody_counted {env : Env} {fuel : Nat} {input : List Char} {s t : Shell}
    (hs : forkSane env) (h : loopBody env fuel input s = some (Outcome.loop t))
    (hc : Counted s) : Counted t := by
  unfold loopBody at h
  obtain ⟨g, u, hg, hd, hf⟩ := readAndDispatch_loop h
  exact (finish_still hf).2.counted (dispatch_loop_counted hs hd
    ((getCommandLine_still hg).2.counted (reapPass_counted env s hc)))

theorem tstpWaitStep_sameJobs (env : Env) (s : Shell) : SameJobs s (tstpWaitStep env s) := by
  unfold tstpWaitStep
  split_ifs <;> exact ⟨rfl, rfl⟩

theorem serviceTSTP_sameJobs (env : Env) (s : Shell) : SameJobs s (serviceTSTP env s) := by
  unfold serviceTSTP
  split_ifs
  · exact (tstpWaitStep_sameJobs env s).link ⟨rfl, rfl⟩
  · exact (tstpWaitStep_sameJobs env s).link ⟨rfl, rfl⟩
  · exact SameJobs.idle s

theorem serviceINT_sameJobs (env : Env) (s : Shell) : SameJobs s (serviceINT env s) := by
  unfold serviceINT
  dsimp only
  split_ifs <;> exact ⟨rfl, rfl⟩

theorem signalService_sameJobs (env : Env) (s : Shell) : SameJobs s (signalService env s) :=
  (serviceTSTP_sameJobs env s).link (serviceINT_sameJobs env _)

theorem catch_SIGTSTP_sameJobs (s : Shell) : SameJobs s (catch_SIGTSTP s) := by
  unfold catch_SIGTSTP
  split_ifs <;> exact ⟨rfl, rfl⟩

theorem reachable_counted {s : Shell} (h : Reachable s) : Counted s := by
  induction h with
  | entry bf fds nofile => exact initShell_counted bf fds nofile
  | interrupt _ ih => exact ih
  | toggle _ ih => exact (catch_SIGTSTP_sameJobs _).counted ih
  | pass env fuel input _ hs hp ih =>
    unfold loopPass at hp
    exact loopBody_counted hs hp ((signalService_sameJobs env _).counted ih)

/-- C19: in every state the loop of `main` reaches at the head of an iteration (from the
entry state, through deliveries of the two signals and iterations in which `fork` returns
-1, 0 or a positive identifier), `numPs` is the number of slots of `background_ps` that do
not hold -5, and it lies between 0 and `MAX_PS`. -/
theorem C19_numPs_counts_jobs (s : Shell) (h : Reachable s) :
    s.numPs = ((tracked s).length : Int) ∧ 0 ≤ s.numPs ∧ s.numPs ≤ (MAX_PS : Int) :=
  ⟨reachable_counted h, counted_le s (reachable_counted h)⟩

theorem C19_numPs_counts_jobs_witness :
    ∃ s1 : Shell,
      loopPass (busyEnv 100 4321) 16 "sleep 100 &\n".toList (initShell 0 stdFds 16)
        = some (Outcome.loop s1) ∧
      tracked s1 = [4321] ∧
      (s1.numPs = ((tracked s1).length : Int) ∧ 0 ≤ s1.numPs ∧ s1.numPs ≤ (MAX_PS : Int)) :=
  ⟨_, rfl, rfl, C19_numPs_counts_jobs _
    (Reachable.pass (busyEnv 100 4321) 16 "sleep 100 &\n".toList
      (Reachable.entry 0 stdFds 16) (by unfold forkSane; decide) rfl)⟩

/-! ## Deliveries of the suspend-toggle signal and the loop -/

theorem modeTexts_append (a b : List Event) :
    modeTexts (a ++ b) = modeTexts a ++ modeTexts b := by
  induction a with
  | nil => rfl
  | cons e a ih =>
    cases e with
    | print d text =>
      simp only [List.cons_append, modeTexts]
      split_ifs <;> simp [ih]
    | _ => simpa [modeTexts] using ih

theorem modeTexts_plain (l : List Event) (h : ∀ e ∈ l, plain e = true) : modeTexts l = [] := by
  induction l with
  | nil => rfl
  | cons e l ih =>
    have he := h e (List.mem_cons_self _ _)
    have hl := ih (fun x hx => h x (List.mem_cons_of_mem _ hx))
    cases e with
    | print d text =>
      have h1 : text ≠ ENTER_TEXT := by
        intro e1; rw [e1] at he
        cases he.symm.trans (rfl : plain (Event.print d ENTER_TEXT) = false)
      have h2 : text ≠ EXIT_TEXT := by
        intro e1; rw [e1] at he
        cases he.symm.trans (rfl : plain (Event.print d EXIT_TEXT) = false)
      simp only [modeTexts, if_neg h1, if_neg h2]
      exact hl
    | _ => simpa [modeTexts] using hl

theorem tstpWaitStep_trace (env : Env) (s : Shell) :
    ∃ l, (tstpWaitStep env s).trace = s.trace ++ l ∧ modeTexts l = [] ∧
      (tstpWaitStep env s).TSTP_FLAG = s.TSTP_FLAG ∧
      (tstpWaitStep env s).INT_MESSAGE = s.INT_MESSAGE := by
  unfold tstpWaitStep
  split_ifs
  · exact ⟨[Event.waitpid s.spawnPid true], rfl, rfl, rfl, rfl⟩
  · exact ⟨[], by simp, rfl, rfl, rfl⟩

theorem serviceTSTP_pending (env : Env) (s : Shell) (p : Option Bool)
    (hm : s.TSTP_MESSAGE = pendingMsg p) :
    ∃ l, (serviceTSTP env s).trace = s.trace ++ l ∧ modeTexts l = p.toList ∧
      (serviceTSTP env s).TSTP_FLAG = s.TSTP_FLAG ∧ (serviceTSTP env s).TSTP_MESSAGE = 0 := by
  obtain ⟨l0, e0, m0, f0, -⟩ := tstpWaitStep_trace env s
  unfold serviceTSTP
  cases p with
  | none =>
    have h0 : s.TSTP_MESSAGE = 0 := hm
    rw [if_neg (by rw [h0]; decide), if_neg (by rw [h0]; decide)]
    exact ⟨[], by simp, rfl, rfl, h0⟩
  | some d =>
    cases d with
    | true =>
      have h1 : s.TSTP_MESSAGE = 1 := hm
      rw [if_pos h1]
      refine ⟨l0 ++ [Event.print ((tstpWaitStep env s).fds 1) ENTER_TEXT], ?_, ?_, f0, rfl⟩
      · show (tstpWaitStep env s).trace ++ [_] = _
        rw [e0, List.append_assoc]
      · rw [modeTexts_append, m0]; rfl
    | false =>
      have h2 : s.TSTP_MESSAGE = 2 := hm
      rw [if_neg (by rw [h2]; decide), if_pos h2]
      refine ⟨l0 ++ [Event.print ((tstpWaitStep env s).fds 1) EXIT_TEXT], ?_, ?_, f0, rfl⟩
      · show (tstpWaitStep env s).trace ++ [_] = _
        rw [e0, List.append_assoc]
      · rw [modeTexts_append, m0]; rfl

theorem serviceINT_trace (env : Env) (s : Shell) :
    ∃ l, (serviceINT env s).trace = s.trace ++ l ∧ modeTexts l = [] ∧
      (serviceINT env s).TSTP_FLAG = s.TSTP_FLAG ∧
      (serviceINT env s).TSTP_MESSAGE = s.TSTP_MESSAGE := by
  unfold serviceINT
  dsimp only
  split_ifs
  · refine ⟨[Event.waitpid s.spawnPid true, Event.print (s.fds 1)
      ("\nterminated by signal ".toList ++ fmtInt (WTERMSIG (env.intWait.getD s.STATUS))
        ++ ['\n'])], by simp [say, emit], ?_, rfl, rfl⟩
    have h1 : "\nterminated by signal ".toList
        ++ fmtInt (WTERMSIG (env.intWait.getD s.STATUS)) ++ ['\n'] ≠ ENTER_TEXT := by
      simp [ENTER_TEXT]
    have h2 : "\nterminated by signal ".toList
        ++ fmtInt (WTERMSIG (env.intWait.getD s.STATUS)) ++ ['\n'] ≠ EXIT_TEXT := by
      simp [EXIT_TEXT]
    simp only [modeTexts, if_neg h1, if_neg h2]
  · exact ⟨[Event.waitpid s.spawnPid true], rfl, rfl, rfl, rfl⟩
  · exact ⟨[], by simp, rfl, rfl, rfl⟩

theorem signalService_pending (env : Env) (s : Shell) (p : Option Bool)
    (hm : s.TSTP_MESSAGE = pendingMsg p) :
    ∃ l, (signalService env s).trace = s.trace ++ l ∧ modeTexts l = p.toList ∧
      (signalService env s).TSTP_FLAG = s.TSTP_FLAG ∧
      (signalService env s).TSTP_MESSAGE = 0 := by
  obtain ⟨l1, e1, m1, f1, z1⟩ := serviceTSTP_pending env s p hm
  obtain ⟨l2, e2, m2, f2, z2⟩ := serviceINT_trace env (serviceTSTP env s)
  unfold signalService
  refine ⟨l1 ++ l2, ?_, ?_, f2.trans f1, z2.trans z1⟩
  · rw [e2, e1, List.append_assoc]
  · rw [modeTexts_append, m1, m2, List.append_nil]

theorem catch_SIGTSTP_pending (s : Shell) :
    (catch_SIGTSTP s).trace = s.trace ∧
    (catch_SIGTSTP s).TSTP_FLAG = (if s.TSTP_FLAG ≠ 0 then 0 else 1) ∧
    (catch_SIGTSTP s).TSTP_MESSAGE = pendingMsg (some (decide (s.TSTP_FLAG = 0))) := by
  unfold catch_SIGTSTP
  by_cases h : s.TSTP_FLAG ≠ 0
  · rw [if_pos h, if_pos h]
    refine ⟨rfl, rfl, ?_⟩
    rw [decide_eq_false h]; rfl
  · rw [if_neg h, if_neg h]
    refine ⟨rfl, rfl, ?_⟩
    rw [decide_eq_true (not_not.mp h)]; rfl

theorem runActs_modeTexts (acts : List Act) :
    ∀ (s t : Shell) (p : Option Bool), s.TSTP_MESSAGE = pendingMsg p →
      spaced p.isSome acts = true → runActs acts s = some t →
      ∃ l, t.trace = s.trace ++ l ∧
        modeTexts l = p.toList ++ toggleDirs acts s.TSTP_FLAG := by
  induction acts with
  | nil =>
    intro s t p hm hs hr
    simp only [runActs, Option.some.injEq] at hr
    subst hr
    cases p with
    | none => exact ⟨[], by simp, rfl⟩
    | some d => simp [spaced] at hs
  | cons a r ih =>
    intro s t p hm hs hr
    cases a with
    | deliver =>
      simp only [spaced, Bool.and_eq_true, Bool.not_eq_true'] at hs
      obtain ⟨hp, hs⟩ := hs
      cases p with
      | some d => cases hp
      | none =>
        simp only [runActs] at hr
        obtain ⟨ht, hf, hm1⟩ := catch_SIGTSTP_pending s
        obtain ⟨l, e, m⟩ := ih (catch_SIGTSTP s) t (some (decide (s.TSTP_FLAG = 0))) hm1 hs hr
        refine ⟨l, by rw [e, ht], ?_⟩
        rw [m, hf]
        rfl
    | service env =>
      simp only [spaced] at hs
      simp only [runActs] at hr
      obtain ⟨l1, e1, m1, f1, z1⟩ := signalService_pending env s p hm
      obtain ⟨l, e, m⟩ := ih (signalService env s) t none z1 hs hr
      refine ⟨l1 ++ l, by rw [e, e1, List.append_assoc], ?_⟩
      rw [modeTexts_append, m1, m, f1]
      rfl
    | body env fuel input =>
      simp only [spaced] at hs
      simp only [runActs] at hr
      cases hb : loopBody env fuel input s with
      | none => rw [hb] at hr; cases hr
      | some o =>
        rw [hb] at hr
        cases o with
        | loop u =>
          dsimp only at hr
          have q := loopBody_quiet hb
          obtain ⟨l1, e1, p1⟩ := q.adds
          obtain ⟨l, e, m⟩ := ih u t p (by rw [q.msg]; exact hm) hs hr
          refine ⟨l1 ++ l, by rw [e, e1, List.append_assoc], ?_⟩
          rw [modeTexts_append, modeTexts_plain l1 p1, m, q.flag]
          rfl
        | exit c u => cases hr
        | exec u => cases hr

/-- C15 (amended): in a run of deliveries of the suspend-toggle signal, services of the
pending flags and rests of iterations, taken in any order, that starts with no message
pending and in which every delivery is followed by a service before the next delivery and
before the end, the mode messages printed are, in number, order and direction, the toggles
delivered. -/
theorem C15_one_message_per_served_toggle (acts : List Act) (s t : Shell)
    (hm : s.TSTP_MESSAGE = 0) (hs : spaced false acts = true)
    (hr : runActs acts s = some t) :
    ∃ l, t.trace = s.trace ++ l ∧ modeTexts l = toggleDirs acts s.TSTP_FLAG := by
  obtain ⟨l, e, m⟩ := runActs_modeTexts acts s t none hm hs hr
  exact ⟨l, e, by simpa using m⟩

theorem C15_one_message_per_served_toggle_witness :
    ∃ t : Shell,
      runActs [Act.deliver, Act.service (calmEnv 100 4321),
          Act.body (calmEnv 100 4321) 16 "ls\n".toList, Act.deliver,
          Act.service (calmEnv 100 4321)] (initShell 0 stdFds 16) = some t ∧
      toggleDirs [Act.deliver, Act.service (calmEnv 100 4321),
          Act.body (calmEnv 100 4321) 16 "ls\n".toList, Act.deliver,
          Act.service (calmEnv 100 4321)] 0 = [true, false] ∧
      ∃ l, t.trace = (initShell 0 stdFds 16).trace ++ l ∧
        modeTexts l = toggleDirs [Act.deliver, Act.service (calmEnv 100 4321),
          Act.body (calmEnv 100 4321) 16 "ls\n".toList, Act.deliver,
          Act.service (calmEnv 100 4321)] (initShell 0 stdFds 16).TSTP_FLAG :=
  ⟨_, rfl, rfl, C15_one_message_per_served_toggle _ (initShell 0 stdFds 16) _ rfl rfl rfl⟩

/-- C15 (counterexample): two deliveries of the suspend-toggle signal before an iteration:
the iteration serves the flag (`TSTP_MESSAGE` is 0 afterwards) and goes on having printed
one mode message, the message of exit, for the two toggles, of which the first entered
foreground-only mode. -/
theorem C15_two_toggles_one_message :
    ∃ t : Shell,
      loopPass (calmEnv 100 4321) 16 "\n".toList
        (catch_SIGTSTP (catch_SIGTSTP (initShell 0 stdFds 16))) = some (Outcome.loop t) ∧
      t.TSTP_MESSAGE = 0 ∧
      printed t.trace = [EXIT_TEXT, [':']] ∧
      modeTexts t.trace = [false] ∧
      toggleDirs [Act.deliver, Act.deliver, Act.service (calmEnv 100 4321),
        Act.body (calmEnv 100 4321) 16 "\n".toList] 0 = [true, false] :=
  ⟨_, rfl, rfl, rfl, rfl, rfl⟩

/-! ## The outcome of one redirection -/

theorem sys_open_shape (env : Env) (s : Shell) (p : Option Tok) (w : Bool) :
    sys_open env s p w = (s, -1) ∨
    ∃ k q, p = some q ∧ env.openOK q w = true ∧ lowestFree s.fds s.nofile = some k ∧
      sys_open env s p w
        = ({ s with fds := setSlot s.fds k (some (OFile.path q w)) }, (k : Int)) := by
  unfold sys_open
  cases p with
  | none => exact Or.inl rfl
  | some q =>
    by_cases hq : env.openOK q w = true
    · cases hk : lowestFree s.fds s.nofile with
      | none => left; simp [hq, hk]
      | some k => right; exact ⟨k, q, rfl, hq, rfl, by simp [hq, hk]⟩
    · left; simp [hq]

theorem sys_dup2_open (s : Shell) (k n : Nat) (f : OFile) (h : s.fds k = some f) :
    sys_dup2 s (k : Int) n = ({ s with fds := setSlot s.fds n (some f) }, (n : Int)) := by
  unfold sys_dup2
  rw [lookupFd_nat, h]

theorem sys_close_open (s : Shell) (k : Nat) (f : OFile) (h : s.fds k = some f) :
    sys_close s (k : Int) = { s with fds := setSlot s.fds k none } := by
  unfold sys_close
  rw [lookupFd_nat, h]
  simp

theorem setSlot_same {α : Type} (f : Nat → α) (i : Nat) (v : α) : setSlot f i v i = v := by
  simp [setSlot]

theorem setSlot_other {α : Type} (f : Nat → α) (i j : Nat) (v : α) (h : j ≠ i) :
    setSlot f i v j = f j := by
  simp [setSlot, h]

theorem redirectOut_shape (env : Env) (s : Shell) (i : Nat) :
    ((sys_open env s (s.argList (i + 1)) true).2 = -1 ∧
      redirectOut env s i
        = { say s (diagnostic (s.argList (i + 1)) true) with redirectErrFlag := 1 }) ∨
    ∃ k q, s.argList (i + 1) = some q ∧ env.openOK q true = true ∧
      lowestFree s.fds s.nofile = some k ∧
      redirectOut env s i =
        { s with fds := rebound s.fds k 1 (OFile.path q true)
                 stdout_flag := 1
                 argList := setSlot (setSlot s.argList i none) (i + 1) none
                 numArgs := s.numArgs - 2 } := by
  rcases sys_open_shape env s (s.argList (i + 1)) true with h | ⟨k, q, hp, hq, hk, h⟩
  · left
    refine ⟨by rw [h], ?_⟩
    unfold redirectOut
    rw [h]
    dsimp only
    rw [if_pos rfl, sys_close_neg_one]
    rfl
  · right
    refine ⟨k, q, hp, hq, hk, ?_⟩
    unfold redirectOut
    rw [h]
    dsimp only
    have hk1 : ¬ (k : Int) = -1 := by omega
    rw [if_neg hk1]
    rw [sys_dup2_open _ k 1 (OFile.path q true) (setSlot_same _ _ _)]
    dsimp only
    have h1 : ¬ ((1 : Nat) : Int) = -1 := by omega
    rw [if_neg h1]
    have hopen : ∃ f, setSlot (setSlot s.fds k (some (OFile.path q true))) 1
        (some (OFile.path q true)) k = some f := by
      by_cases e : k = 1
      · exact ⟨_, by rw [e]; exact setSlot_same _ _ _⟩
      · exact ⟨_, by rw [setSlot_other _ _ _ _ e]; exact setSlot_same _ _ _⟩
    obtain ⟨f, hf⟩ := hopen
    rw [sys_close_open _ k f hf]
    rfl

theorem redirectIn_shape (env : Env) (s : Shell) (i : Nat) :
    ((sys_open env s (s.argList (i + 1)) false).2 = -1 ∧
      redirectIn env s i
        = { say s (diagnostic (s.argList (i + 1)) false) with redirectErrFlag := 1 }) ∨
    ∃ k q, s.argList (i + 1) = some q ∧ env.openOK q false = true ∧
      lowestFree s.fds s.nofile = some k ∧
      redirectIn env s i =
        { s with fds := rebound s.fds k 0 (OFile.path q false)
                 stdin_flag := 1
                 argList := setSlot (setSlot s.argList i none) (i + 1) none
                 numArgs := s.numArgs - 2 } := by
  rcases sys_open_shape env s (s.argList (i + 1)) false with h | ⟨k, q, hp, hq, hk, h⟩
  · left
    refine ⟨by rw [h], ?_⟩
    unfold redirectIn
    rw [h]
    dsimp only
    rw [if_pos rfl, sys_close_neg_one]
    rfl
  · right
    refine ⟨k, q, hp, hq, hk, ?_⟩
    unfold redirectIn
    rw [h]
    dsimp only
    have hk1 : ¬ (k : Int) = -1 := by omega
    rw [if_neg hk1]
    rw [sys_dup2_open _ k 0 (OFile.path q false) (setSlot_same _ _ _)]
    dsimp only
    have h1 : ¬ ((0 : Nat) : Int) = -1 := by omega
    rw [if_neg h1]
    have hopen : ∃ f, setSlot (setSlot s.fds k (some (OFile.path q false))) 0
        (some (OFile.path q false)) k = some f := by
      by_cases e : k = 0
      · exact ⟨_, by rw [e]; exact setSlot_same _ _ _⟩
      · exact ⟨_, by rw [setSlot_other _ _ _ _ e]; exact setSlot_same _ _ _⟩
    obtain ⟨f, hf⟩ := hopen
    rw [sys_close_open _ k f hf]
    rfl

theorem redirectStep_shape (env : Env) (s : Shell) (i : Nat) :
    redirectStep env s i = s ∨
    (∃ w, s.argList i = some (operatorTok w) ∧
      (sys_open env s (s.argList (i + 1)) w).2 = -1 ∧
      redirectStep env s i
        = { say s (diagnostic (s.argList (i + 1)) w) with redirectErrFlag := 1 }) ∨
    ∃ w k q, s.argList i = some (operatorTok w) ∧ s.argList (i + 1) = some q ∧
      env.openOK q w = true ∧ lowestFree s.fds s.nofile = some k ∧
      redirectStep env s i =
        { s with fds := rebound s.fds k (if w then 1 else 0) (OFile.path q w)
                 stdin_flag := if w then s.stdin_flag else 1
                 stdout_flag := if w then 1 else s.stdout_flag
                 argList := setSlot (setSlot s.argList i none) (i + 1) none
                 numArgs := s.numArgs - 2 } := by
  unfold redirectStep
  by_cases h1 : s.argList i = some ['>']
  · rw [if_pos h1]
    rcases redirectOut_shape env s i with ⟨hf, he⟩ | ⟨k, q, hq, ho, hk, he⟩
    · exact Or.inr (Or.inl ⟨true, h1, hf, he⟩)
    · exact Or.inr (Or.inr ⟨true, k, q, h1, hq, ho, hk, he⟩)
  · rw [if_neg h1]
    by_cases h2 : s.argList i = some ['<']
    · rw [if_pos h2]
      rcases redirectIn_shape env s i with ⟨hf, he⟩ | ⟨k, q, hq, ho, hk, he⟩
      · exact Or.inr (Or.inl ⟨false, h2, hf, he⟩)
      · exact Or.inr (Or.inr ⟨false, k, q, h2, hq, ho, hk, he⟩)
    · rw [if_neg h2]
      exact Or.inl rfl

theorem redirectStdout_shape (env : Env) (s : Shell) :
    (redirectStdout env s).2 = -1 ∨
    ∃ k, lowestFree s.fds s.nofile = some k ∧
      redirectStdout env s
        = ({ s with fds := rebound s.fds k 1 (OFile.path devNull true) }, 0) := by
  rcases sys_open_shape env s (some devNull) true with h | ⟨k, q, hp, -, hk, h⟩
  · left
    unfold redirectStdout
    rw [h]
    dsimp only
    rw [if_pos rfl]
  · right
    cases hp
    refine ⟨k, hk, ?_⟩
    unfold redirectStdout
    rw [h]
    dsimp only
    have hk1 : ¬ (k : Int) = -1 := by omega
    rw [if_neg hk1]
    rw [sys_dup2_open _ k 1 (OFile.path devNull true) (setSlot_same _ _ _)]
    dsimp only
    have h1 : ¬ ((1 : Nat) : Int) = -1 := by omega
    rw [if_neg h1]
    have hopen : ∃ f, setSlot (setSlot s.fds k (some (OFile.path devNull true))) 1
        (some (OFile.path devNull true)) k = some f := by
      by_cases e : k = 1
      · exact ⟨_, by rw [e]; exact setSlot_same _ _ _⟩
      · exact ⟨_, by rw [setSlot_other _ _ _ _ e]; exact setSlot_same _ _ _⟩
    obtain ⟨f, hf⟩ := hopen
    rw [sys_close_open _ k f hf]
    rfl

theorem redirectStdin_shape (env : Env) (s : Shell) :
    (redirectStdin env s).2 = -1 ∨
    ∃ k, lowestFree s.fds s.nofile = some k ∧
      redirectStdin env s
        = ({ s with fds := rebound s.fds k 0 (OFile.path devNull false) }, 0) := by
  rcases sys_open_shape env s (some devNull) false with h | ⟨k, q, hp, -, hk, h⟩
  · left
    unfold redirectStdin
    rw [h]
    dsimp only
    rw [if_pos rfl]
  · right
    cases hp
    refine ⟨k, hk, ?_⟩
    unfold redirectStdin
    rw [h]
    dsimp only
    have hk1 : ¬ (k : Int) = -1 := by omega
    rw [if_neg hk1]
    rw [sys_dup2_open _ k 0 (OFile.path devNull false) (setSlot_same _ _ _)]
    dsimp only
    have h1 : ¬ ((0 : Nat) : Int) = -1 := by omega
    rw [if_neg h1]
    have hopen : ∃ f, setSlot (setSlot s.fds k (some (OFile.path devNull false))) 0
        (some (OFile.path devNull false)) k = some f := by
      by_cases e : k = 0
      · exact ⟨_, by rw [e]; exact setSlot_same _ _ _⟩
      · exact ⟨_, by rw [setSlot_other _ _ _ _ e]; exact setSlot_same _ _ _⟩
    obtain ⟨f, hf⟩ := hopen
    rw [sys_close_open _ k f hf]
    rfl

theorem redirectToNull_shape (env : Env) (s : Shell) (f0 f1 : OFile)
    (h0 : s.fds 0 = some f0) (h1 : s.fds 1 = some f1) :
    (redirectToNull env s).2 = -1 ∨
    ∃ g, redirectToNull env s = ({ s with fds := g }, 0) ∧
      g 0 = some (OFile.path devNull false) ∧ g 1 = some (OFile.path devNull true) := by
  rcases sys_open_shape env s (some devNull) true with hW | ⟨k1, q, hp, -, hk1, hW⟩
  · left
    unfold redirectToNull
    rw [hW]
    dsimp only
    rw [if_pos (Or.inl rfl)]
  · cases hp
    rcases sys_open_shape env { s with fds := setSlot s.fds k1 (some (OFile.path devNull true)) }
      (some devNull) false with hR | ⟨k2, q, hp, -, hk2, hR⟩
    · left
      unfold redirectToNull
      rw [hW]
      dsimp only
      rw [hR]
      dsimp only
      rw [if_pos (Or.inr rfl)]
    · cases hp
      right
      have f1free := lowestFree_free hk1
      have f2free := lowestFree_free hk2
      dsimp only at f2free
      have k10 : k1 ≠ 0 := by intro e; rw [e, h0] at f1free; cases f1free
      have k11 : k1 ≠ 1 := by intro e; rw [e, h1] at f1free; cases f1free
      have k21 : k2 ≠ k1 := by
        intro e; rw [e, setSlot_same] at f2free; cases f2free
      have k20 : k2 ≠ 0 := by
        intro e; rw [e, setSlot_other _ _ _ _ (Ne.symm k10), h0] at f2free; cases f2free
      have k2n1 : k2 ≠ 1 := by
        intro e; rw [e, setSlot_other _ _ _ _ (Ne.symm k11), h1] at f2free; cases f2free
      unfold redirectToNull
      rw [hW]
      dsimp only
      rw [hR]
      dsimp only
      have c1 : ¬ ((k1 : Int) = -1 ∨ (k2 : Int) = -1) := by omega
      rw [if_neg c1]
      rw [sys_dup2_open _ k2 0 (OFile.path devNull false) (setSlot_same _ _ _)]
      dsimp only
      have c2 : ¬ ((0 : Nat) : Int) = -1 := by omega
      rw [if_neg c2]
      rw [sys_dup2_open _ k1 1 (OFile.path devNull true)
        (by simp [setSlot, k10, Ne.symm k21])]
      dsimp only
      have c3 : ¬ ((1 : Nat) : Int) = -1 := by omega
      rw [if_neg c3]
      rw [sys_close_open _ k1 (OFile.path devNull true)
        (by simp [setSlot, k10, k11, Ne.symm k21])]
      rw [sys_close_open _ k2 (OFile.path devNull false)
        (by simp [setSlot, k20, k2n1, k21])]
      refine ⟨_, rfl, ?_, ?_⟩
      · simp [setSlot, Ne.symm k20, Ne.symm k10]
      · simp [setSlot, Ne.symm k2n1, Ne.symm k11]

/-! ## The streams of the child -/

theorem Stream.open {line : Nat → Option Tok} {own : OFile} {w : Bool} {flag : Int}
    {bound : Option OFile} (h : Stream line own w flag bound) : ∃ f, bound = some f := by
  rcases h with ⟨-, h⟩ | ⟨-, i, q, -, -, h⟩
  · exact ⟨_, h⟩
  · exact ⟨_, h⟩

theorem free_ne_open {s : Shell} {k n : Nat} (hk : lowestFree s.fds s.nofile = some k)
    (hn : ∃ f, s.fds n = some f) : k ≠ n := by
  intro e
  obtain ⟨f, hf⟩ := hn
  rw [← e, lowestFree_free hk] at hf
  cases hf

theorem rebound_same (fds : Nat → Option OFile) (k n : Nat) (f : OFile) (h : k ≠ n) :
    rebound fds k n f n = some f := by
  simp [rebound, setSlot, Ne.symm h]

theorem rebound_other (fds : Nat → Option OFile) (k n m : Nat) (f : OFile) (h1 : m ≠ k)
    (h2 : m ≠ n) : rebound fds k n f m = fds m := by
  simp [rebound, setSlot, h1, h2]

theorem redirectStep_streams (env : Env) (line : Nat → Option Tok) (f0 f1 : OFile)
    (t : Shell) (i : Nat) (h : Streams line f0 f1 t) :
    Streams line f0 f1 (redirectStep env t i) := by
  rcases redirectStep_shape env t i with e | ⟨w, -, -, e⟩ | ⟨w, k, q, hop, hq, -, hk, e⟩
  · rw [e]; exact h
  · rw [e]; exact ⟨h.input, h.output, h.tokens⟩
  · rw [e]
    have k0 : k ≠ 0 := free_ne_open hk h.input.open
    have k1 : k ≠ 1 := free_ne_open hk h.output.open
    have htok : ∀ j x, setSlot (setSlot t.argList i none) (i + 1) none j = some x →
        line j = some x := by
      intro j x hj
      by_cases j1 : j = i + 1
      · rw [j1, setSlot_same] at hj; cases hj
      · rw [setSlot_other _ _ _ _ j1] at hj
        by_cases j2 : j = i
        · rw [j2, setSlot_same] at hj; cases hj
        · rw [setSlot_other _ _ _ _ j2] at hj
          exact h.tokens j x hj
    cases w with
    | true =>
      refine ⟨?_, ?_, htok⟩
      · show Stream line f0 false t.stdin_flag (rebound t.fds k 1 _ 0)
        rw [rebound_other _ _ _ _ _ (Ne.symm k0) (by decide)]
        exact h.input
      · show Stream line f1 true 1 (rebound t.fds k 1 _ 1)
        rw [rebound_same _ _ _ _ k1]
        exact Or.inr ⟨rfl, i, q, h.tokens _ _ hop, h.tokens _ _ hq, rfl⟩
    | false =>
      refine ⟨?_, ?_, htok⟩
      · show Stream line f0 false 1 (rebound t.fds k 0 _ 0)
        rw [rebound_same _ _ _ _ k0]
        exact Or.inr ⟨rfl, i, q, h.tokens _ _ hop, h.tokens _ _ hq, rfl⟩
      · show Stream line f1 true t.stdout_flag (rebound t.fds k 0 _ 1)
        rw [rebound_other _ _ _ _ _ (Ne.symm k1) (by decide)]
        exact h.output

theorem redirectLoop_streams (env : Env) (line : Nat → Option Tok) (f0 f1 : OFile)
    (n : Nat) : ∀ t : Shell, Streams line f0 f1 t → Streams line f0 f1 (redirectLoop env n t) := by
  induction n with
  | zero => intro t h; exact h
  | succ n ih =>
    intro t h
    rw [redirectLoop_succ]
    split_ifs
    · exact redirectStep_streams env line f0 f1 t n h
    · exact ih _ (redirectStep_streams env line f0 f1 t n h)

theorem Stream.reown {line : Nat → Option Tok} {own : OFile} {w : Bool} {flag : Int}
    {bound : Option OFile} (h : Stream line own w flag bound) (hf : flag ≠ 0) (own1 : OFile) :
    Stream line own1 w flag bound := by
  rcases h with ⟨h0, -⟩ | h
  · exact absurd h0 hf
  · exact Or.inr h

theorem Stream.flag_cases {line : Nat → Option Tok} {own : OFile} {w : Bool} {flag : Int}
    {bound : Option OFile} (h : Stream line own w flag bound) : flag = 0 ∨ flag = 1 := by
  rcases h with ⟨h0, -⟩ | ⟨h1, -⟩
  · exact Or.inl h0
  · exact Or.inr h1

theorem noteResult_failed (r : Shell × Int) (h : r.2 = -1) :
    (noteResult r).redirectErrFlag ≠ 0 := by
  unfold noteResult
  rw [if_pos h]
  show (1 : Int) ≠ 0
  decide

theorem noteResult_ok (t : Shell) : noteResult (t, 0) = t := by
  unfold noteResult
  rw [if_neg (show ¬ ((0 : Int) = -1) by decide)]

theorem nullRedirect_streams (env : Env) (line : Nat → Option Tok) (f0 f1 : OFile)
    (t : Shell) (h : Streams line f0 f1 t)
    (hu : (nullRedirect env t).redirectErrFlag = 0) :
    Streams line (if t.background_flag = 1 then OFile.path devNull false else f0)
      (if t.background_flag = 1 then OFile.path devNull true else f1) (nullRedirect env t) := by
  obtain ⟨g0, hg0⟩ := h.input.open
  obtain ⟨g1, hg1⟩ := h.output.open
  unfold nullRedirect at hu ⊢
  by_cases c : t.redirectErrFlag = 0 ∧ t.background_flag = 1
  · rw [if_pos c] at hu ⊢
    rw [if_pos c.2, if_pos c.2]
    by_cases c1 : t.stdin_flag = 0 ∧ t.stdout_flag = 0
    · rw [if_pos c1] at hu ⊢
      rcases redirectToNull_shape env t g0 g1 hg0 hg1 with e | ⟨g, e, e0, e1⟩
      · exact absurd hu (noteResult_failed _ e)
      · rw [e, noteResult_ok]
        exact ⟨Or.inl ⟨c1.1, e0⟩, Or.inl ⟨c1.2, e1⟩, h.tokens⟩
    · rw [if_neg c1] at hu ⊢
      by_cases c2 : t.stdin_flag = 1 ∧ t.stdout_flag = 0
      · rw [if_pos c2] at hu ⊢
        rcases redirectStdout_shape env t with e | ⟨k, hk, e⟩
        · exact absurd hu (noteResult_failed _ e)
        · rw [e, noteResult_ok]
          have k0 : k ≠ 0 := free_ne_open hk ⟨g0, hg0⟩
          have k1 : k ≠ 1 := free_ne_open hk ⟨g1, hg1⟩
          refine ⟨?_, ?_, h.tokens⟩
          · show Stream line _ false t.stdin_flag (rebound t.fds k 1 _ 0)
            rw [rebound_other _ _ _ _ _ (Ne.symm k0) (by decide)]
            exact h.input.reown (by rw [c2.1]; decide) _
          · show Stream line _ true t.stdout_flag (rebound t.fds k 1 _ 1)
            rw [rebound_same _ _ _ _ k1]
            exact Or.inl ⟨c2.2, rfl⟩
      · rw [if_neg c2] at hu ⊢
        by_cases c3 : t.stdin_flag = 0 ∧ t.stdout_flag = 1
        · rw [if_pos c3] at hu ⊢
          rcases redirectStdin_shape env t with e | ⟨k, hk, e⟩
          · exact absurd hu (noteResult_failed _ e)
          · rw [e, noteResult_ok]
            have k0 : k ≠ 0 := free_ne_open hk ⟨g0, hg0⟩
            have k1 : k ≠ 1 := free_ne_open hk ⟨g1, hg1⟩
            refine ⟨?_, ?_, h.tokens⟩
            · show Stream line _ false t.stdin_flag (rebound t.fds k 0 _ 0)
              rw [rebound_same _ _ _ _ k0]
              exact Or.inl ⟨c3.1, rfl⟩
            · show Stream line _ true t.stdout_flag (rebound t.fds k 0 _ 1)
              rw [rebound_other _ _ _ _ _ (Ne.symm k1) (by decide)]
              exact h.output.reown (by rw [c3.2]; decide) _
        · rw [if_neg c3]
          have hi : t.stdin_flag ≠ 0 := by
            rcases h.input.flag_cases with a | a <;> rcases h.output.flag_cases with b | b
            · exact absurd ⟨a, b⟩ c1
            · exact absurd ⟨a, b⟩ c3
            · rw [a]; decide
            · rw [a]; decide
          have ho : t.stdout_flag ≠ 0 := by
            rcases h.input.flag_cases with a | a <;> rcases h.output.flag_cases with b | b
            · exact absurd ⟨a, b⟩ c1
            · rw [b]; decide
            · exact absurd ⟨a, b⟩ c2
            · rw [b]; decide
          exact ⟨h.input.reown hi _, h.output.reown ho _, h.tokens⟩
  · rw [if_neg c] at hu ⊢
    have hbg : ¬ t.background_flag = 1 := fun hb => c ⟨hu, hb⟩
    rw [if_neg hbg, if_neg hbg]
    exact h

theorem sys_dup_flags (s : Shell) (fd : Int) :
    (sys_dup s fd).1.stdin_flag = s.stdin_flag ∧ (sys_dup s fd).1.stdout_flag = s.stdout_flag ∧
      ∀ m f, s.fds m = some f → (sys_dup s fd).1.fds m = some f := by
  unfold sys_dup
  cases h : lookupFd s fd with
  | none => exact ⟨rfl, rfl, fun _ _ hm => hm⟩
  | some f =>
    dsimp only
    cases hk : lowestFree s.fds s.nofile with
    | none => exact ⟨rfl, rfl, fun _ _ hm => hm⟩
    | some k =>
      refine ⟨rfl, rfl, fun m g hm => ?_⟩
      have : m ≠ k := by
        intro e; rw [e, lowestFree_free hk] at hm; cases hm
      show setSlot s.fds k (some f) m = some g
      rw [setSlot_other _ _ _ _ this]
      exact hm

theorem saveStd_flags (s : Shell) :
    (saveStd s).stdin_flag = s.stdin_flag ∧ (saveStd s).stdout_flag = s.stdout_flag ∧
      ∀ m f, s.fds m = some f → (saveStd s).fds m = some f := by
  obtain ⟨a1, b1, c1⟩ := sys_dup_flags s 1
  obtain ⟨a2, b2, c2⟩ := sys_dup_flags (sys_dup s 1).1 0
  unfold saveStd
  dsimp only
  exact ⟨a2.trans a1, b2.trans b1, fun m f hm => c2 m f (c1 m f hm)⟩

theorem bgDetect_flags {s t : Shell} (h : bgDetect s = some t) :
    t.stdin_flag = s.stdin_flag ∧ t.stdout_flag = s.stdout_flag ∧
      ∀ j x, t.argList j = some x → s.argList j = some x := by
  unfold bgDetect at h
  dsimp only at h
  by_cases hn : s.numArgs - 1 < 0
  · rw [if_pos hn] at h; cases h
  · rw [if_neg hn] at h
    cases ha : s.argList (s.numArgs - 1).toNat with
    | none => rw [ha] at h; cases h
    | some last =>
      rw [ha] at h
      dsimp only at h
      have key : ∀ j x, setSlot s.argList (s.numArgs - 1).toNat none j = some x →
          s.argList j = some x := by
        intro j x hj
        by_cases e : j = (s.numArgs - 1).toNat
        · rw [e, setSlot_same] at hj; cases hj
        · rw [setSlot_other _ _ _ _ e] at hj; exact hj
      by_cases hl : last = ['&']
      · rw [if_pos hl] at h
        injection h with h
        subst h
        by_cases ht : s.TSTP_FLAG ≠ 1
        · rw [if_pos ht]; exact ⟨rfl, rfl, key⟩
        · rw [if_neg ht]; exact ⟨rfl, rfl, key⟩
      · rw [if_neg hl] at h
        injection h with h
        subst h
        exact ⟨rfl, rfl, fun _ _ hj => hj⟩

theorem launch_child (env : Env) (u : Shell) (hfork : env.forkResult = 0) :
    (∀ t, launch env u ≠ Outcome.loop t) ∧
    (launch env u).shell.fds = u.fds ∧
    (launch env u).shell.stdin_flag = u.stdin_flag ∧
    (launch env u).shell.stdout_flag = u.stdout_flag ∧
    (launch env u).shell.redirectErrFlag = u.redirectErrFlag ∧
    (launch env u).shell.background_flag = u.background_flag := by
  have e1 : (0 : Int) ≠ -1 := by decide
  unfold launch
  simp only [emit, say, hfork, if_neg e1, if_true]
  split_ifs <;> simp [Outcome.shell]

/-- C11 (amended): for an external command entered with descriptors 0 and 1 open and the
two redirection flags at 0, in the child (`fork` returned 0) and with no redirection
error: a stream whose flag is 0 (no redirection was applied to it) is bound to the null
device when the command runs in the background and to the file the interpreter had when
it runs in the foreground; a stream whose flag is 1 is bound to the file named after its
operator on the line, whatever that file is. -/
theorem C11_child_streams (env : Env) (s s1 : Shell) (f0 f1 : OFile)
    (h0 : s.fds 0 = some f0) (h1 : s.fds 1 = some f1)
    (hin : s.stdin_flag = 0) (hout : s.stdout_flag = 0)
    (hfork : env.forkResult = 0)
    (hb : bgDetect (saveStd s) = some s1) :
    ∃ o, external env s = some o ∧ (∀ t, o ≠ Outcome.loop t) ∧
      o.shell.background_flag = s1.background_flag ∧
      (o.shell.redirectErrFlag = 0 →
        Stream s.argList (if s1.background_flag = 1 then OFile.path devNull false else f0)
          false o.shell.stdin_flag (o.shell.fds 0) ∧
        Stream s.argList (if s1.background_flag = 1 then OFile.path devNull true else f1)
          true o.shell.stdout_flag (o.shell.fds 1)) := by
  obtain ⟨si, so, sf⟩ := saveStd_flags s
  obtain ⟨bi, bo, bt⟩ := bgDetect_flags hb
  obtain ⟨bfds, -, -, -⟩ := bgDetect_frame hb
  have init : Streams s.argList f0 f1 s1 := by
    refine ⟨Or.inl ⟨?_, ?_⟩, Or.inl ⟨?_, ?_⟩, ?_⟩
    · rw [bi, si, hin]
    · rw [bfds]; exact sf 0 f0 h0
    · rw [bo, so, hout]
    · rw [bfds]; exact sf 1 f1 h1
    · intro j x hj
      have := bt j x hj
      rw [(saveStd_frame s).1] at this
      exact this
  have loopS := redirectLoop_streams env s.argList f0 f1 s1.numArgs.toNat s1 init
  have kl := redirectLoop_keeps env s1.numArgs.toNat s1
  have kn := nullRedirect_keeps env (redirectLoop env s1.numArgs.toNat s1)
  obtain ⟨l1, l2, l3, l4, l5, l6⟩ :=
    launch_child env (nullRedirect env (redirectLoop env s1.numArgs.toNat s1)) hfork
  refine ⟨launch env (nullRedirect env (redirectLoop env s1.numArgs.toNat s1)), ?_, l1, ?_, ?_⟩
  · unfold external
    rw [hb]
  · rw [l6, kn.background_flag_eq, kl.background_flag_eq]
  · intro herr
    rw [l5] at herr
    have fin := nullRedirect_streams env s.argList f0 f1 _ loopS herr
    rw [kl.background_flag_eq] at fin
    rw [l2, l3, l4]
    exact ⟨fin.input, fin.output⟩

theorem C11_child_streams_witness :
    ∃ t, external (calmEnv 100 0)
          (lineState ["sort".toList, "<".toList, "in".toList, "&".toList] 16)
        = some (Outcome.exec t) ∧
      t.background_flag = 1 ∧ t.stdin_flag = 1 ∧ t.stdout_flag = 0 ∧
      t.fds 0 = some (OFile.path "in".toList false) ∧
      t.fds 1 = some (OFile.path devNull true) ∧
      Stream (lineState ["sort".toList, "<".toList, "in".toList, "&".toList] 16).argList
        (OFile.path devNull true) true t.stdout_flag (t.fds 1) := by
  obtain ⟨o, ho, -, -, hs⟩ := C11_child_streams (calmEnv 100 0)
    (lineState ["sort".toList, "<".toList, "in".toList, "&".toList] 16) _
    (OFile.inherited 0) (OFile.inherited 1) rfl rfl rfl rfl rfl rfl
  have e : external (calmEnv 100 0)
      (lineState ["sort".toList, "<".toList, "in".toList, "&".toList] 16)
      = some (Outcome.exec _) := rfl
  rw [e] at ho
  injection ho with ho
  subst ho
  exact ⟨_, e, rfl, rfl, rfl, rfl, rfl, (hs rfl).2⟩

/-- C11 (counterexample): the background command `cat < /dev/null &` has its `<`
redirection applied (`stdin_flag` is 1, no redirection error) and the stdin of the child
is bound to the null device; the foreground command `ls > /dev/null` has the stdout of
the child bound to the null device. -/
theorem C11_null_device_by_redirection :
    (∃ t, external (calmEnv 100 0)
          (lineState ["cat".toList, "<".toList, "/dev/null".toList, "&".toList] 16)
        = some (Outcome.exec t) ∧
      t.background_flag = 1 ∧ t.redirectErrFlag = 0 ∧ t.stdin_flag = 1 ∧
      t.fds 0 = some (OFile.path devNull false)) ∧
    (∃ t, external (calmEnv 100 0)
          (lineState ["ls".toList, ">".toList, "/dev/null".toList] 16)
        = some (Outcome.exec t) ∧
      t.background_flag = 0 ∧ t.redirectErrFlag = 0 ∧ t.stdout_flag = 1 ∧
      t.fds 1 = some (OFile.path devNull true)) :=
  ⟨⟨_, rfl, rfl, rfl, rfl, rfl⟩, ⟨_, rfl, rfl, rfl, rfl, rfl⟩⟩

/-! ## A line of arguments and trailing control tokens -/

theorem controlToks_append (a : List (Bool × Tok)) (w : Bool) (f : Tok) :
    controlToks (a ++ [(w, f)]) = controlToks a ++ [operatorTok w, f] := by
  induction a with
  | nil => rfl
  | cons x a ih =>
    obtain ⟨w1, f1⟩ := x
    show operatorTok w1 :: f1 :: controlToks (a ++ [(w, f)]) = _
    rw [ih]
    rfl

theorem controlToks_length (a : List (Bool × Tok)) : (controlToks a).length = 2 * a.length := by
  induction a with
  | nil => rfl
  | cons x a ih =>
    obtain ⟨w1, f1⟩ := x
    simp only [controlToks, List.length_cons, ih]
    omega

theorem redirectStep_plain (env : Env) (t : Shell) (i : Nat)
    (h1 : t.argList i ≠ some ['>']) (h2 : t.argList i ≠ some ['<']) :
    redirectStep env t i = t := by
  unfold redirectStep
  rw [if_neg h1, if_neg h2]

theorem redirectLoop_plain (env : Env) (n : Nat) :
    ∀ t : Shell, (∀ j, j < n → t.argList j ≠ some ['>'] ∧ t.argList j ≠ some ['<']) →
      redirectLoop env n t = t := by
  induction n with
  | zero => intro t _; rfl
  | succ n ih =>
    intro t h
    rw [redirectLoop_succ, redirectStep_plain env t n (h n (by omega)).1 (h n (by omega)).2]
    split_ifs
    · rfl
    · exact ih t (fun j hj => h j (by omega))

theorem sys_open_succeeds (env : Env) (s : Shell) (q : Tok) (w : Bool) (k : Nat)
    (ho : env.openOK q w = true) (hk : lowestFree s.fds s.nofile = some k) :
    sys_open env s (some q) w
      = ({ s with fds := setSlot s.fds k (some (OFile.path q w)) }, (k : Int)) := by
  unfold sys_open
  simp [ho, hk]

theorem redirectStep_ok (env : Env) (s : Shell) (i : Nat) (w : Bool) (q : Tok) (k : Nat)
    (hop : s.argList i = some (operatorTok w)) (hq : s.argList (i + 1) = some q)
    (ho : env.openOK q w = true) (hk : lowestFree s.fds s.nofile = some k) :
    redirectStep env s i =
      { s with fds := rebound s.fds k (if w then 1 else 0) (OFile.path q w)
               stdin_flag := if w then s.stdin_flag else 1
               stdout_flag := if w then 1 else s.stdout_flag
               argList := setSlot (setSlot s.argList i none) (i + 1) none
               numArgs := s.numArgs - 2 } := by
  have hopen := sys_open_succeeds env s q w k ho hk
  have hnf : (sys_open env s (s.argList (i + 1)) w).2 ≠ -1 := by
    rw [hq, hopen]
    show (k : Int) ≠ -1
    omega
  cases w with
  | true =>
    have hop1 : s.argList i = some ['>'] := hop
    unfold redirectStep
    rw [if_pos hop1]
    rcases redirectOut_shape env s i with ⟨hf, -⟩ | ⟨k1, q1, hq1, -, hk1, e⟩
    · exact absurd hf hnf
    · rw [hq] at hq1
      rw [hk] at hk1
      cases hq1
      cases hk1
      exact e
  | false =>
    have hop1 : s.argList i = some ['<'] := hop
    have hne : s.argList i ≠ some ['>'] := by rw [hop1]; decide
    unfold redirectStep
    rw [if_neg hne, if_pos hop1]
    rcases redirectIn_shape env s i with ⟨hf, -⟩ | ⟨k1, q1, hq1, -, hk1, e⟩
    · exact absurd hf hnf
    · rw [hq] at hq1
      rw [hk] at hk1
      cases hq1
      cases hk1
      exact e

theorem lowestFree_lt {fds : Nat → Option OFile} {n k : Nat}
    (h : lowestFree fds n = some k) : k < n := by
  unfold lowestFree at h
  have := List.mem_of_find?_eq_some h
  simpa using this

theorem lowestFree_exists {fds : Nat → Option OFile} {n j : Nat} (hj : j < n)
    (hf : fds j = none) : ∃ k, lowestFree fds n = some k := by
  cases h : lowestFree fds n with
  | some k => exact ⟨k, rfl⟩
  | none =>
    unfold lowestFree at h
    rw [List.find?_eq_none] at h
    have := h j (by simpa using hj)
    simp [hf] at this

theorem rebound_free (fds : Nat → Option OFile) (k n : Nat) (f : OFile) :
    rebound fds k n f k = none := by
  simp [rebound, setSlot]

theorem redirectLoop_strips (env : Env) (args : List Tok) (hargs : ∀ a ∈ args, ordinary a)
    (ctl : List (Bool × Tok)) :
    (∀ p ∈ ctl, ordinary p.2 ∧ env.openOK p.2 p.1 = true) →
    ∀ t : Shell, t.argList = (fun i => (args ++ controlToks ctl)[i]?) →
      t.numArgs = ((args ++ controlToks ctl).length : Int) →
      (∃ k, lowestFree t.fds t.nofile = some k) →
      (redirectLoop env (args ++ controlToks ctl).length t).argList = (fun i => args[i]?) ∧
      (redirectLoop env (args ++ controlToks ctl).length t).redirectErrFlag
        = t.redirectErrFlag := by
  induction ctl using List.reverseRecOn with
  | nil =>
    intro _ t ha _ _
    have hnil : args ++ controlToks [] = args := by simp [controlToks]
    rw [hnil] at ha ⊢
    have hplain : ∀ j, j < args.length →
        t.argList j ≠ some ['>'] ∧ t.argList j ≠ some ['<'] := by
      intro j hj
      rw [ha]
      dsimp only
      rw [List.getElem?_eq_getElem hj]
      have ho := hargs _ (List.getElem_mem hj)
      constructor
      · intro e; injection e with e; exact ho.2.1 e
      · intro e; injection e with e; exact ho.1 e
    rw [redirectLoop_plain env _ t hplain]
    exact ⟨ha, rfl⟩
  | append_singleton init p ih =>
    obtain ⟨w, f⟩ := p
    intro hfiles t ha hn hfree
    have hp := hfiles (w, f) (by simp)
    have hinit : ∀ p ∈ init, ordinary p.2 ∧ env.openOK p.2 p.1 = true :=
      fun p hp => hfiles p (List.mem_append_left _ hp)
    have hlist : args ++ controlToks (init ++ [(w, f)])
        = (args ++ controlToks init) ++ [operatorTok w, f] := by
      rw [controlToks_append, List.append_assoc]
    rw [hlist] at ha hn ⊢
    generalize hbase : args ++ controlToks init = base at ha hn ih ⊢
    have hlen : (base ++ [operatorTok w, f]).length = base.length + 1 + 1 := by simp
    rw [hlen] at hn ⊢
    have hN : t.argList base.length = some (operatorTok w) := by
      rw [ha]
      show (base ++ [operatorTok w, f])[base.length]? = _
      rw [List.getElem?_append_right (le_refl _)]
      simp
    have hN1 : t.argList (base.length + 1) = some f := by
      rw [ha]
      show (base ++ [operatorTok w, f])[base.length + 1]? = _
      rw [List.getElem?_append_right (by omega)]
      simp
    obtain ⟨k, hk⟩ := hfree
    -- the slot of the file name
    rw [redirectLoop_succ, redirectStep_plain env t (base.length + 1)
      (by rw [hN1]; intro e; injection e with e; exact hp.1.2.1 e)
      (by rw [hN1]; intro e; injection e with e; exact hp.1.1 e)]
    have w1 : ¬ t.numArgs - ((base.length + 1 : Nat) : Int) ≥ 6 := by
      rw [hn]; push_cast; omega
    rw [if_neg w1]
    -- the slot of the operator
    rw [redirectLoop_succ, redirectStep_ok env t base.length w f k hN hN1 hp.2 hk]
    have w2 : ¬ (t.numArgs - 2) - ((base.length : Nat) : Int) ≥ 6 := by
      rw [hn]; push_cast; omega
    rw [if_neg w2]
    have key := ih hinit
      { t with fds := rebound t.fds k (if w then 1 else 0) (OFile.path f w)
               stdin_flag := if w then t.stdin_flag else 1
               stdout_flag := if w then 1 else t.stdout_flag
               argList := setSlot (setSlot t.argList base.length none) (base.length + 1) none
               numArgs := t.numArgs - 2 }
      (by
        funext i
        show setSlot (setSlot t.argList base.length none) (base.length + 1) none i = base[i]?
        rw [ha]
        by_cases hi : i < base.length
        · rw [setSlot_other _ _ _ _ (by omega), setSlot_other _ _ _ _ (by omega)]
          exact List.getElem?_append_left hi
        · rw [List.getElem?_eq_none (by omega)]
          by_cases h1 : i = base.length + 1
          · rw [h1, setSlot_same]
          · rw [setSlot_other _ _ _ _ h1]
            by_cases h0 : i = base.length
            · rw [h0, setSlot_same]
            · rw [setSlot_other _ _ _ _ h0]
              exact List.getElem?_eq_none (by simp; omega))
      (by show t.numArgs - 2 = (base.length : Int); rw [hn]; push_cast; omega)
      (lowestFree_exists (lowestFree_lt hk) (rebound_free _ _ _ _))
    exact key

theorem argList_sys_dup2 (s : Shell) (fd : Int) (n : Nat) :
    (sys_dup2 s fd n).1.argList = s.argList := by
  unfold sys_dup2
  split <;> rfl

theorem argList_sys_close (s : Shell) (fd : Int) : (sys_close s fd).argList = s.argList := by
  unfold sys_close
  split <;> rfl

theorem redirectStdout_argList (env : Env) (s : Shell) :
    (redirectStdout env s).1.argList = s.argList := by
  unfold redirectStdout
  dsimp only
  split_ifs
  · exact argList_sys_open env s _ true
  · exact (argList_sys_dup2 _ _ 1).trans (argList_sys_open env s _ true)
  · exact (argList_sys_close _ _).trans
      ((argList_sys_dup2 _ _ 1).trans (argList_sys_open env s _ true))

theorem redirectStdin_argList (env : Env) (s : Shell) :
    (redirectStdin env s).1.argList = s.argList := by
  unfold redirectStdin
  dsimp only
  split_ifs
  · exact argList_sys_open env s _ false
  · exact (argList_sys_dup2 _ _ 0).trans (argList_sys_open env s _ false)
  · exact (argList_sys_close _ _).trans
      ((argList_sys_dup2 _ _ 0).trans (argList_sys_open env s _ false))

theorem redirectToNull_argList (env : Env) (s : Shell) :
    (redirectToNull env s).1.argList = s.argList := by
  have o2 : (sys_open env (sys_open env s (some devNull) true).1 (some devNull) false).1.argList
      = s.argList := (argList_sys_open _ _ _ _).trans (argList_sys_open _ _ _ _)
  unfold redirectToNull
  dsimp only
  split_ifs
  · exact o2
  · exact (argList_sys_dup2 _ _ 0).trans o2
  · exact (argList_sys_dup2 _ _ 1).trans ((argList_sys_dup2 _ _ 0).trans o2)
  · exact (argList_sys_close _ _).trans ((argList_sys_close _ _).trans
      ((argList_sys_dup2 _ _ 1).trans ((argList_sys_dup2 _ _ 0).trans o2)))

theorem noteResult_argList (r : Shell × Int) : (noteResult r).argList = r.1.argList := by
  unfold noteResult
  split_ifs <;> rfl

theorem nullRedirect_argList (env : Env) (s : Shell) :
    (nullRedirect env s).argList = s.argList := by
  unfold nullRedirect
  split_ifs
  · rw [noteResult_argList]; exact redirectToNull_argList env s
  · rw [noteResult_argList]; exact redirectStdout_argList env s
  · rw [noteResult_argList]; exact redirectStdin_argList env s
  · rfl
  · rfl

theorem argvOf_succ (a : Nat → Option Tok) (n i : Nat) :
    argvOf a (n + 1) i =
      match a i with
      | none => some []
      | some t => (argvOf a n (i + 1)).map (fun r => t :: r) := rfl

theorem argvOf_list (l : List Tok) (n : Nat) :
    ∀ j, j ≤ l.length → l.length < j + n →
      argvOf (fun i => l[i]?) n j = some (l.drop j) := by
  induction n with
  | zero => intro j h1 h2; omega
  | succ n ih =>
    intro j h1 h2
    rw [argvOf_succ]
    by_cases hj : j < l.length
    · have e : l[j]? = some l[j] := List.getElem?_eq_getElem hj
      rw [e]
      dsimp only
      rw [ih (j + 1) (by omega) (by omega), List.drop_eq_getElem_cons hj]
      rfl
    · have e : l[j]? = none := List.getElem?_eq_none (by omega)
      rw [e]
      dsimp only
      rw [List.drop_eq_nil_of_le (by omega)]

theorem mem_controlToks (ctl : List (Bool × Tok)) (x : Tok) (hx : x ∈ controlToks ctl) :
    (∃ w, x = operatorTok w) ∨ ∃ p ∈ ctl, x = p.2 := by
  induction ctl with
  | nil => simp [controlToks] at hx
  | cons p r ih =>
    obtain ⟨w, f⟩ := p
    simp only [controlToks, List.mem_cons] at hx
    rcases hx with h | h | h
    · exact Or.inl ⟨w, h⟩
    · exact Or.inr ⟨(w, f), by simp, h⟩
    · rcases ih h with h1 | ⟨p, hp, h1⟩
      · exact Or.inl h1
      · exact Or.inr ⟨p, List.mem_cons_of_mem _ hp, h1⟩

theorem bgDetect_line (s : Shell) (args : List Tok) (ctl : List (Bool × Tok)) (amp : Bool)
    (hne : args ≠ []) (hargs : ∀ a ∈ args, ordinary a) (hfiles : ∀ p ∈ ctl, ordinary p.2)
    (hline : s.argList = fun i => (lineToks args ctl amp)[i]?)
    (hnum : s.numArgs = ((lineToks args ctl amp).length : Int)) :
    ∃ s1, bgDetect s = some s1 ∧ s1.argList = (fun i => (args ++ controlToks ctl)[i]?) ∧
      s1.numArgs = ((args ++ controlToks ctl).length : Int) := by
  have hpos : 0 < (args ++ controlToks ctl).length := by
    cases args with
    | nil => exact absurd rfl hne
    | cons a r => simp
  have hnoamp : ∀ x ∈ args ++ controlToks ctl, x ≠ ['&'] := by
    intro x hx
    rcases List.mem_append.mp hx with h | h
    · exact (hargs x h).2.2
    · rcases mem_controlToks ctl x h with ⟨w, rfl⟩ | ⟨p, hp, rfl⟩
      · cases w <;> decide
      · exact (hfiles p hp).2.2
  generalize hX : args ++ controlToks ctl = X at hpos hnoamp ⊢
  have hl : lineToks args ctl amp = X ++ (if amp then [['&']] else []) := by
    unfold lineToks; rw [hX]
  rw [hl] at hline hnum
  unfold bgDetect
  dsimp only
  cases amp with
  | true =>
    simp only [if_true, List.length_append, List.length_singleton] at hline hnum
    have hidx : (s.numArgs - 1).toNat = X.length := by rw [hnum]; push_cast; omega
    rw [if_neg (by rw [hnum]; push_cast; omega), hidx]
    have hlast : s.argList X.length = some ['&'] := by
      rw [hline]
      show (X ++ [['&']])[X.length]? = _
      rw [List.getElem?_append_right (le_refl _)]
      simp
    rw [hlast]
    dsimp only
    rw [if_pos rfl]
    refine ⟨_, rfl, ?_, ?_⟩
    · have : ∀ (a : Nat → Option Tok), a = s.argList →
          setSlot a X.length none = fun i => X[i]? := by
        intro a ea
        funext i
        rw [ea, hline]
        by_cases hi : i < X.length
        · rw [setSlot_other _ _ _ _ (by omega)]
          exact List.getElem?_append_left hi
        · rw [List.getElem?_eq_none (by omega)]
          by_cases h0 : i = X.length
          · rw [h0, setSlot_same]
          · rw [setSlot_other _ _ _ _ h0]
            exact List.getElem?_eq_none (by simp; omega)
      by_cases ht : s.TSTP_FLAG ≠ 1
      · rw [if_pos ht]; dsimp only; rw [hidx]; exact this _ rfl
      · rw [if_neg ht]; dsimp only; rw [hidx]; exact this _ rfl
    · by_cases ht : s.TSTP_FLAG ≠ 1
      · rw [if_pos ht]; show s.numArgs - 1 = _; rw [hnum]; push_cast; omega
      · rw [if_neg ht]; show s.numArgs - 1 = _; rw [hnum]; push_cast; omega
  | false =>
    simp only [Bool.false_eq_true, if_false, List.append_nil] at hline hnum
    have hidx : (s.numArgs - 1).toNat = X.length - 1 := by rw [hnum]; omega
    rw [if_neg (by rw [hnum]; omega), hidx]
    have hlt : X.length - 1 < X.length := by omega
    have hlast : s.argList (X.length - 1) = some X[X.length - 1] := by
      rw [hline]
      exact List.getElem?_eq_getElem hlt
    rw [hlast]
    dsimp only
    rw [if_neg (hnoamp _ (List.getElem_mem hlt))]
    exact ⟨_, rfl, hline, hnum⟩

theorem launch_execvp (env : Env) (u : Shell) (hfork : env.forkResult = 0)
    (herr : u.redirectErrFlag = 0) :
    Event.execvp (u.argList 0) (argvOf u.argList ARG_SIZE 0) ∈ (launch env u).shell.trace := by
  have e1 : (0 : Int) ≠ -1 := by decide
  unfold launch
  simp only [emit, say, hfork, herr, if_neg e1, if_true]
  split_ifs <;> simp [Outcome.shell]

/-- For a line `prog a1 ... ak` followed by redirections and an optional `&`, none of
the arguments and file names being a control token, read into an array whose slots after
the line are null, with files that open and a descriptor free once the two copies are
made, and the arguments being fewer than `ARG_SIZE`: when `fork` is called the array
holds `prog a1 ... ak` and null slots, and the vector `execvp` reads is `prog a1 ... ak`. -/
theorem external_strips_control_tokens (env : Env) (s : Shell) (prog : Tok) (rest : List Tok)
    (ctl : List (Bool × Tok)) (amp : Bool)
    (hargs : ∀ a ∈ prog :: rest, ordinary a)
    (hfiles : ∀ p ∈ ctl, ordinary p.2 ∧ env.openOK p.2 p.1 = true)
    (hline : s.argList = fun i => (lineToks (prog :: rest) ctl amp)[i]?)
    (hnum : s.numArgs = ((lineToks (prog :: rest) ctl amp).length : Int))
    (hfit : (prog :: rest).length < ARG_SIZE)
    (hfree : ∃ k, lowestFree (saveStd s).fds (saveStd s).nofile = some k) :
    ∃ u, external env s = some (launch env u) ∧
      u.argList = (fun i => (prog :: rest)[i]?) ∧
      argvOf u.argList ARG_SIZE 0 = some (prog :: rest) ∧
      (env.forkResult = 0 → u.redirectErrFlag = 0 →
        Event.execvp (some prog) (some (prog :: rest)) ∈ (launch env u).shell.trace) := by
  obtain ⟨a1, n1, -, -, -⟩ := saveStd_frame s
  obtain ⟨s1, hb, ha, hn⟩ := bgDetect_line (saveStd s) (prog :: rest) ctl amp (by simp) hargs
    (fun p hp => (hfiles p hp).1) (by rw [a1]; exact hline) (by rw [n1]; exact hnum)
  obtain ⟨bfds, -, -, bnofile⟩ := bgDetect_frame hb
  have hfree1 : ∃ k, lowestFree s1.fds s1.nofile = some k := by
    rw [bfds, bnofile]; exact hfree
  have hloop := (redirectLoop_strips env (prog :: rest) hargs ctl hfiles s1 ha hn hfree1).1
  have htoNat : s1.numArgs.toNat = (prog :: rest ++ controlToks ctl).length := by
    rw [hn]; exact Int.toNat_natCast _
  have hu : (nullRedirect env (redirectLoop env s1.numArgs.toNat s1)).argList
      = fun i => (prog :: rest)[i]? := by
    rw [nullRedirect_argList, htoNat]; exact hloop
  have h0 : (nullRedirect env (redirectLoop env s1.numArgs.toNat s1)).argList 0 = some prog := by
    rw [hu]; simp
  have hv : argvOf (nullRedirect env (redirectLoop env s1.numArgs.toNat s1)).argList ARG_SIZE 0
      = some (prog :: rest) := by
    rw [hu, argvOf_list _ _ 0 (Nat.zero_le _) (by omega), List.drop_zero]
  refine ⟨_, ?_, hu, hv, ?_⟩
  · unfold external
    rw [hb]
  · intro hfork herr
    have := launch_execvp env _ hfork herr
    rw [h0, hv] at this
    exact this

theorem external_strips_control_tokens_witness :
    ∃ u, external (calmEnv 100 0)
          (lineState ["sort".toList, "-r".toList, "<".toList, "in".toList, ">".toList,
            "out".toList, "&".toList] 16) = some (launch (calmEnv 100 0) u) ∧
      u.argList = (fun i => ["sort".toList, "-r".toList][i]?) ∧
      argvOf u.argList ARG_SIZE 0 = some ["sort".toList, "-r".toList] := by
  obtain ⟨u, h1, h2, h3, -⟩ := external_strips_control_tokens (calmEnv 100 0)
    (lineState ["sort".toList, "-r".toList, "<".toList, "in".toList, ">".toList,
      "out".toList, "&".toList] 16) "sort".toList ["-r".toList]
    [(false, "in".toList), (true, "out".toList)] true
    (by intro a ha; simp at ha; rcases ha with rfl | rfl <;> (unfold ordinary; decide))
    (by intro p hp; simp at hp; rcases hp with rfl | rfl <;> exact ⟨by unfold ordinary; decide, rfl⟩)
    rfl rfl (by decide) ⟨5, rfl⟩
  exact ⟨u, h1, h2, h3⟩

/-! ## The blocking wait of a pending mode message -/

theorem serviceTSTP_skips_wait (env : Env) (s : Shell) (h : s.background_flag ≠ 0) :
    ∃ l, (serviceTSTP env s).trace = s.trace ++ l ∧ ∀ p b, Event.waitpid p b ∉ l := by
  have hw : tstpWaitStep env s = s := by
    unfold tstpWaitStep
    rw [if_neg h]
  unfold serviceTSTP
  rw [hw]
  split_ifs
  · exact ⟨[Event.print (s.fds 1) ENTER_TEXT], rfl, by simp⟩
  · exact ⟨[Event.print (s.fds 1) EXIT_TEXT], rfl, by simp⟩
  · exact ⟨[], by simp, by simp⟩

theorem serviceTSTP_skips_wait_witness :
    ∃ l, (serviceTSTP (calmEnv 100 4321)
        (catch_SIGTSTP (initShell 1 stdFds 16))).trace
          = (catch_SIGTSTP (initShell 1 stdFds 16)).trace ++ l ∧
      ∀ p b, Event.waitpid p b ∉ l :=
  serviceTSTP_skips_wait (calmEnv 100 4321) (catch_SIGTSTP (initShell 1 stdFds 16))
    (by decide)

/-! ## `cleanBuffer` on an array filled from slot 0 -/

theorem cleanLoop_filled (n : Nat) :
    ∀ (i d : Nat) (a : Nat → Option Tok), d < n →
      (∀ j, i ≤ j → j < i + d → a j ≠ none) → a (i + d) = none →
      cleanLoop n i a = some (fun k => if i ≤ k ∧ k < i + d then none else a k) := by
  induction n with
  | zero => intro i d a hd _ _; omega
  | succ n ih =>
    intro i d a hd hfull hend
    rw [cleanLoop_succ]
    cases d with
    | zero =>
      have : a i = none := hend
      rw [this]
      show some a = _
      congr 1
      funext k
      rw [if_neg (by omega)]
    | succ d =>
      cases hi : a i with
      | none => exact absurd hi (hfull i (le_refl i) (by omega))
      | some v =>
        dsimp only
        rw [ih (i + 1) d (setSlot a i none) (by omega)
          (fun j h1 h2 => by
            rw [setSlot_other _ _ _ _ (by omega)]
            exact hfull j (by omega) (by omega))
          (by
            rw [setSlot_other _ _ _ _ (by omega)]
            have e : i + 1 + d = i + (d + 1) := by omega
            rw [e]; exact hend)]
        congr 1
        funext k
        by_cases hk : k = i
        · rw [if_neg (by omega), if_pos (by omega), hk, setSlot_same]
        · rw [setSlot_other _ _ _ _ hk]
          by_cases h1 : i + 1 ≤ k ∧ k < i + 1 + d
          · rw [if_pos h1, if_pos (by omega)]
          · rw [if_neg h1, if_neg (by omega)]

theorem cleanBuffer_list (l : List Tok) (hfit : l.length < ARG_SIZE) :
    cleanBuffer (fun i => l[i]?) = some (fun _ => none) := by
  unfold cleanBuffer
  rw [cleanLoop_filled ARG_SIZE 0 l.length (fun i => l[i]?) hfit
    (fun j _ h2 => by
      have hj : j < l.length := by omega
      show l[j]? ≠ none
      rw [List.getElem?_eq_getElem hj]
      exact Option.some_ne_none _)
    (by
      show l[0 + l.length]? = none
      exact List.getElem?_eq_none (by omega))]
  congr 1
  funext k
  by_cases hk : 0 ≤ k ∧ k < 0 + l.length
  · rw [if_pos hk]
  · rw [if_neg hk]
    exact List.getElem?_eq_none (by omega)

theorem launch_loop_argList {env : Env} {t u : Shell} (h : launch env t = Outcome.loop u) :
    u.argList = t.argList := by
  have hr : ∀ x : Shell, (restoreStd x).argList = x.argList := by
    intro x
    unfold restoreStd
    rw [argList_sys_dup2, argList_sys_dup2]
  have hi : ∀ (n i : Nat) (x : Shell), (insertLoop n i x).1.argList = x.argList := by
    intro n
    induction n with
    | zero => intro i x; rfl
    | succ n ih =>
      intro i x
      rw [insertLoop_succ]
      split_ifs
      · rfl
      · rfl
      · exact ih (i + 1) x
  unfold launch at h
  dsimp only at h
  split_ifs at h <;> cases h
  · exact hr _
  · exact (hr _).trans (hi _ _ _)
  · exact hr _
  · exact hr _

/-- After such a line, when the loop goes on, lines 647-648 leave every slot of `argList`
null. -/
theorem line_leaves_array_empty (env : Env) (s t : Shell) (prog : Tok) (rest : List Tok)
    (ctl : List (Bool × Tok)) (amp : Bool)
    (hargs : ∀ a ∈ prog :: rest, ordinary a)
    (hfiles : ∀ p ∈ ctl, ordinary p.2 ∧ env.openOK p.2 p.1 = true)
    (hline : s.argList = fun i => (lineToks (prog :: rest) ctl amp)[i]?)
    (hnum : s.numArgs = ((lineToks (prog :: rest) ctl amp).length : Int))
    (hfit : (prog :: rest).length < ARG_SIZE)
    (hfree : ∃ k, lowestFree (saveStd s).fds (saveStd s).nofile = some k)
    (hloop : external env s = some (Outcome.loop t)) :
    ∃ t1, finish t = some t1 ∧ t1.argList = fun _ => none := by
  obtain ⟨u, hu, ha, -, -⟩ :=
    external_strips_control_tokens env s prog rest ctl amp hargs hfiles hline hnum hfit hfree
  rw [hu] at hloop
  injection hloop with hloop
  have e := launch_loop_argList hloop
  have hnull : t.argList (prog :: rest).length = none := by
    rw [e, ha]
    exact List.getElem?_eq_none (Nat.le_refl _)
  obtain ⟨t1, h1⟩ := finish_defined t _ hfit hnull
  refine ⟨t1, h1, ?_⟩
  obtain ⟨a, hc, rfl⟩ := finish_shape h1
  have harg : (if t.background_msg = 1 then
      { say t ("background pid is ".toList ++ fmtInt t.spawnPid ++ ['\n']) with
        background_msg := 0 }
      else t).argList = t.argList := by
    split_ifs <;> rfl
  rw [harg, e, ha, cleanBuffer_list _ hfit] at hc
  injection hc with hc
  exact hc.symm

theorem line_leaves_array_empty_witness :
    ∃ t, external (calmEnv 100 4321)
          (lineState ["sort".toList, "-r".toList, "<".toList, "in".toList, ">".toList,
            "out".toList, "&".toList] 16) = some (Outcome.loop t) ∧
      ∃ t1, finish t = some t1 ∧ t1.argList = fun _ => none :=
  ⟨_, rfl, line_leaves_array_empty (calmEnv 100 4321)
    (lineState ["sort".toList, "-r".toList, "<".toList, "in".toList, ">".toList,
      "out".toList, "&".toList] 16) _ "sort".toList ["-r".toList]
    [(false, "in".toList), (true, "out".toList)] true
    (by intro a ha; simp at ha; rcases ha with rfl | rfl <;> (unfold ordinary; decide))
    (by intro p hp; simp at hp; rcases hp with rfl | rfl <;> exact ⟨by unfold ordinary; decide, rfl⟩)
    rfl rfl (by decide) ⟨5, rfl⟩ rfl⟩

/-- A line of at most `ARG_SIZE` tokens read into an array whose slots are all null fills
it with its tokens and leaves the other slots null. -/
theorem getCommandLine_clean (input : List Char) (s : Shell)
    (h : s.argList = fun _ => none)
    (hfit : (strtokRuns (readLine input) []).length ≤ ARG_SIZE) :
    ∃ g, getCommandLine input s = some g ∧
      g.argList = (fun i => (strtokRuns (readLine input) [])[i]?) ∧
      g.numArgs = ((strtokRuns (readLine input) []).length : Int) := by
  unfold getCommandLine
  dsimp only
  rw [if_neg (by omega)]
  refine ⟨_, rfl, ?_, rfl⟩
  funext i
  show (if i < (strtokRuns (readLine input) []).length then (strtokRuns (readLine input) [])[i]?
    else s.argList i) = _
  split_ifs with hi
  · rfl
  · rw [h]
    exact (List.getElem?_eq_none (by omega)).symm

/-! ## A null-device descriptor left open -/

/-- With one descriptor free once the two copies are made, the line `sleep 100 &` leaves
descriptor 5 open on the null device: `redirectToNull` opens it for writing, fails to open
the null device for reading and returns (utility.c 165-169) without closing it. -/
theorem null_device_left_open :
    ∃ t : Shell,
      loopPass (busyEnv 100 4321) 16 "sleep 100 &\n".toList (initShell 0 stdFds 6)
        = some (Outcome.loop t) ∧
      (initShell 0 stdFds 6).fds 5 = none ∧
      t.fds 5 = some (OFile.path devNull true) :=
  ⟨_, rfl, rfl, rfl⟩

end Wish
